import Mathlib

/-!
# Billing dashboard: CSV import and domain validators

A shallow embedding of the pure logic of the billing dashboard
(`js/actions.js`, `js/charges.js`, `js/dashboard.js`, `js/main.js`, `js/profile.js`,
`js/classes/User.js`, `js/classes/CreditCard.js`,
`js/classes/StorageHandler.js`) together with theorems about it.

JavaScript strings are sequences of UTF-16 code units, and both `length` and
the regular expressions used by the program (none carries the `u` flag) work
on code units.  A string is therefore modelled as the list of its code units.
-/

namespace JSBilling

/-! ## Strings -/

/-- A JavaScript string, as the list of its UTF-16 code units. -/
abbrev JSString := List Nat

/-- UTF-16 encoding of one Unicode scalar value. -/
def utf16 (c : Char) : List Nat :=
  if c.toNat < 0x10000 then [c.toNat]
  else [0xD800 + (c.toNat - 0x10000) / 0x400, 0xDC00 + (c.toNat - 0x10000) % 0x400]

/-- The JavaScript string written as the literal `s`. -/
def js (s : String) : JSString := s.toList.flatMap utf16

/-- Code units matched by `\s`, which are also the ones `String.prototype.trim` strips
(ECMAScript WhiteSpace and LineTerminator). -/
def isWhiteSpace (c : Nat) : Bool :=
  c == 0x09 || c == 0x0A || c == 0x0B || c == 0x0C || c == 0x0D || c == 0x20 ||
  c == 0xA0 || c == 0x1680 || (0x2000 ≤ c && c ≤ 0x200A) ||
  c == 0x2028 || c == 0x2029 || c == 0x202F || c == 0x205F || c == 0x3000 || c == 0xFEFF

/-- Code units matched by `\d`. -/
def isDigit (c : Nat) : Bool := 0x30 ≤ c && c ≤ 0x39

/-- Code units matched by `[A-Z]`. -/
def isUpper (c : Nat) : Bool := 0x41 ≤ c && c ≤ 0x5A

/-- Code units matched by `[a-z]`. -/
def isLower (c : Nat) : Bool := 0x61 ≤ c && c ≤ 0x7A

/-- `s.trim()`. -/
def trim (s : JSString) : JSString :=
  ((s.dropWhile isWhiteSpace).reverse.dropWhile isWhiteSpace).reverse

/-- `s.split(sep)` for a separator of one code unit. The result is never empty:
the empty string splits into one empty piece. -/
def split (sep : Nat) : JSString → List JSString
  | [] => [[]]
  | c :: cs =>
    if c = sep then [] :: split sep cs
    else
      match split sep cs with
      | [] => [[c]]
      | w :: ws => (c :: w) :: ws

/-- `parts.join(sep)`. -/
def join (sep : JSString) : List JSString → JSString
  | [] => []
  | [w] => w
  | w :: ws => w ++ sep ++ join sep ws

/-- Decimal rendering of a number inside a template literal. -/
def showNat (n : Nat) : JSString := (Nat.toDigits 10 n).map Char.toNat

/-! ## Regular expressions

The regular expressions of the program use character classes, concatenation,
alternation and repetition only, so `RegExp.prototype.test` decides membership in
a regular language.  The matcher below works by derivatives. -/

/-- Regular expressions over code units. -/
inductive Re where
  | never : Re
  | eps : Re
  | cls (p : Nat → Bool) : Re
  | alt (a b : Re) : Re
  | seq (a b : Re) : Re
  | star (a : Re) : Re

namespace Re

/-- Does the expression match the empty string? -/
def nullable : Re → Bool
  | never => false
  | eps => true
  | cls _ => false
  | alt a b => a.nullable || b.nullable
  | seq a b => a.nullable && b.nullable
  | star _ => true

/-- The derivative of an expression by one code unit. -/
def deriv (c : Nat) : Re → Re
  | never => never
  | eps => never
  | cls p => if p c then eps else never
  | alt a b => alt (a.deriv c) (b.deriv c)
  | seq a b => if a.nullable then alt (seq (a.deriv c) b) (b.deriv c) else seq (a.deriv c) b
  | star a => seq (a.deriv c) (star a)

/-- Does the expression match the whole of `s`? -/
def fullMatch (r : Re) : JSString → Bool
  | [] => r.nullable
  | c :: cs => fullMatch (r.deriv c) cs

/-- A single given code unit. -/
def chr (c : Char) : Re := cls (fun x => x == c.toNat)

/-- A range `[lo-hi]`. -/
def range (lo hi : Char) : Re := cls (fun x => lo.toNat ≤ x && x ≤ hi.toNat)

/-- The class `\d`. -/
def digit : Re := cls isDigit

/-- Any code unit at all. -/
def anyUnit : Re := cls (fun _ => true)

/-- `/^r$/.test(s)`: the whole string matches. -/
def testAnchored (r : Re) (s : JSString) : Bool := r.fullMatch s

/-- `/r/.test(s)`: some substring matches. -/
def test (r : Re) (s : JSString) : Bool :=
  (seq (star anyUnit) (seq r (star anyUnit))).fullMatch s

/-- The language of an expression. -/
inductive Lang : Re → JSString → Prop
  | eps : Lang eps []
  | cls {p : Nat → Bool} {c : Nat} : p c = true → Lang (cls p) [c]
  | altL {a b : Re} {s : JSString} : Lang a s → Lang (alt a b) s
  | altR {a b : Re} {s : JSString} : Lang b s → Lang (alt a b) s
  | seq {a b : Re} {u v : JSString} : Lang a u → Lang b v → Lang (seq a b) (u ++ v)
  | starNil {a : Re} : Lang (star a) []
  | starCons {a : Re} {u v : JSString} : Lang a u → Lang (star a) v → Lang (star a) (u ++ v)

end Re

/-! ## Built-in functions used by the program -/

/-- `value.replace(pat, '')` for a string pattern of one code unit: only the first
occurrence is removed. -/
def removeFirst (c : Nat) (s : JSString) : JSString := s.erase c

/-- `s.replace(/[cls]/g, '')`: every code unit of the class is removed. -/
def removeAll (p : Nat → Bool) (s : JSString) : JSString := s.filter (fun c => !p c)

/-- `s.match(/[cls]/g) || []`: the list of all one-unit matches of the class. -/
def matchAll (p : Nat → Bool) (s : JSString) : List JSString :=
  (s.filter p).map (fun c => [c])

/-- An optional occurrence. -/
def Re.opt (r : Re) : Re := Re.alt Re.eps r

/-- One or more occurrences. -/
def Re.plus (r : Re) : Re := Re.seq r (Re.star r)

/-- A literal string. -/
def Re.lit (s : JSString) : Re := s.foldr (fun c r => Re.seq (Re.cls (fun x => x == c)) r) Re.eps

/-- The grammar `StrDecimalLiteral` of ECMAScript, as used by `parseFloat`. -/
def strDecimalLiteral : Re :=
  let digits := Re.plus Re.digit
  let sign := Re.opt (Re.alt (Re.chr '+') (Re.chr '-'))
  let exponent := Re.opt (Re.seq (Re.alt (Re.chr 'e') (Re.chr 'E')) (Re.seq sign digits))
  Re.seq sign
    (Re.alt (Re.lit (js "Infinity"))
    (Re.alt (Re.seq digits (Re.seq (Re.opt (Re.seq (Re.chr '.') (Re.star Re.digit))) exponent))
            (Re.seq (Re.chr '.') (Re.seq digits exponent))))

/-- `isNaN(parseFloat(s))`: after leading white space is skipped, `parseFloat` yields `NaN`
exactly when no initial segment of the rest is a `StrDecimalLiteral`. -/
def parseFloatIsNaN (s : JSString) : Bool :=
  !(Re.seq strDecimalLiteral (Re.star Re.anyUnit)).fullMatch (s.dropWhile isWhiteSpace)

/-- Value of a digit in radix 10 or 16. -/
def digitValue (radix : Nat) (c : Nat) : Option Nat :=
  if 0x30 ≤ c ∧ c ≤ 0x39 then some (c - 0x30)
  else if radix = 16 ∧ 0x61 ≤ c ∧ c ≤ 0x66 then some (c - 0x61 + 10)
  else if radix = 16 ∧ 0x41 ≤ c ∧ c ≤ 0x46 then some (c - 0x41 + 10)
  else none

/-- Reads the longest run of digits at the start of `s`, as a number; `none` when there is
no digit. `acc` is the value read so far. -/
def readDigits (radix : Nat) : JSString → Option Nat → Option Nat
  | [], acc => acc
  | c :: cs, acc =>
    match digitValue radix c with
    | some d => readDigits radix cs (some (acc.getD 0 * radix + d))
    | none => acc

/-- `parseInt(s)` (radix `none`) and `parseInt(s, 10)` (radix `some 10`); the result `none`
stands for `NaN`. Without a radix a leading `0x` or `0X` selects radix 16. -/
def parseInt (s : JSString) (radix : Option Nat) : Option Int :=
  let t := s.dropWhile isWhiteSpace
  let (negative, t) :=
    match t with
    | 0x2D :: r => (true, r)
    | 0x2B :: r => (false, r)
    | _ => (false, t)
  let (r, t) :=
    match radix, t with
    | none, 0x30 :: 0x78 :: u => (16, u)
    | none, 0x30 :: 0x58 :: u => (16, u)
    | _, _ => (10, t)
  match readDigits r t none with
  | none => none
  | some n => some (if negative then - (n : Int) else (n : Int))

/-- `DayFromYear(y)` of ECMAScript: the day number of 1 January of year `y`. -/
def dayFromYear (y : Int) : Int :=
  365 * (y - 1970) + (y - 1969) / 4 - (y - 1901) / 100 + (y - 1601) / 400

/-- Is `y` a leap year? -/
def inLeapYear (y : Int) : Bool := (y % 4 == 0 && y % 100 != 0) || y % 400 == 0

/-- Number of days of a year that come before the first day of month `m` (0 = January). -/
def daysBeforeMonth (leap : Bool) (m : Int) : Int :=
  let l : Int := if leap then 1 else 0
  if m = 0 then 0 else if m = 1 then 31 else if m = 2 then 59 + l
  else if m = 3 then 90 + l else if m = 4 then 120 + l else if m = 5 then 151 + l
  else if m = 6 then 181 + l else if m = 7 then 212 + l else if m = 8 then 243 + l
  else if m = 9 then 273 + l else if m = 10 then 304 + l else 334 + l

/-- `MakeDay(year, month, 1)` of ECMAScript: the day number of the first day of the month;
a month index outside 0..11 carries into the year. -/
def makeDay (year month : Int) : Int :=
  let ym := year + month / 12
  let mn := month % 12
  dayFromYear ym + daysBeforeMonth (inLeapYear ym) mn

/-- Time value of `new Date(year, month)`: midnight of the first day of the month.
Instants are counted in milliseconds of local civil time (a zone with a fixed offset), which
is also how `now` is given wherever the current time is needed. -/
def newDate (year month : Int) : Int := makeDay year month * 86400000

/-! ## `js/actions.js`: CSV import -/

/-- A transaction object `{}` filled by `transaction[header] = value`: its own string-valued
properties, in creation order. -/
abbrev Record := List (JSString × JSString)

/-- Reading `transaction[key]` when it is an own property. -/
def Record.get (t : Record) (key : JSString) : Option JSString := List.lookup key t

/-- The assignment `transaction[key] = value` of a string. An existing property is
overwritten, a new one is added; assigning a string to `__proto__` does nothing. -/
def Record.set (t : Record) (key value : JSString) : Record :=
  if key = js "__proto__" then t
  else if t.any (fun kv => kv.1 == key) then
    t.map (fun kv => if kv.1 = key then (key, value) else kv)
  else t ++ [(key, value)]

deriving instance DecidableEq for Except

/-- The errors thrown inside `parseCSV`, one constructor for each `throw`. -/
inductive CsvError where
  | emptyFile
  | missingColumns (cols : List JSString)
  | invalidData (line expected got : Nat)
  | invalidAmount (line : Nat) (value : JSString)
  | invalidDate (line : Nat) (value : JSString)
  deriving DecidableEq

/-- The message of each error. -/
def CsvError.message : CsvError → JSString
  | .emptyFile => js "Empty CSV file."
  | .missingColumns cols => js "Missing required columns: " ++ join (js ", ") cols
  | .invalidData line expected got =>
    js "Invalid data in line " ++ showNat line ++ js ": expected " ++ showNat expected ++
      js " values but got " ++ showNat got
  | .invalidAmount line value => js "Invalid amount in line " ++ showNat line ++ js ": " ++ value
  | .invalidDate line value => js "Invalid date in line " ++ showNat line ++ js ": " ++ value

def REQUIRED_COLUMNS : List JSString :=
  [js "Date", js "Business Name", js "Category", js "Amount"]

def validateCSVStructure (headers : List JSString) : Except CsvError Bool :=
  let missingColumns := REQUIRED_COLUMNS.filter (fun col => !headers.contains col)
  if missingColumns.length > 0 then .error (.missingColumns missingColumns) else .ok true

/-- The group `(0[1-9]|1[0-2])`. -/
def monthRegex : Re :=
  Re.alt (Re.seq (Re.chr '0') (Re.range '1' '9')) (Re.seq (Re.chr '1') (Re.range '0' '2'))

/-- The group `(0[1-9]|[12]\d|3[01])`. -/
def dayRegex : Re :=
  Re.alt (Re.seq (Re.chr '0') (Re.range '1' '9'))
    (Re.alt (Re.seq (Re.range '1' '2') Re.digit) (Re.seq (Re.chr '3') (Re.range '0' '1')))

/-- The pattern `\d{2}`. -/
def twoDigitRegex : Re := Re.seq Re.digit Re.digit

/-- The pattern `\d{4}`. -/
def fourDigitRegex : Re := Re.seq Re.digit (Re.seq Re.digit (Re.seq Re.digit Re.digit))

/-- The regular expression of `isValidDate`, between `^` and `$`:
month group, `/`, day group, `/`, `\d{4}`. -/
def dateRegex : Re :=
  Re.seq monthRegex
  (Re.seq (Re.chr '/')
  (Re.seq dayRegex
  (Re.seq (Re.chr '/') fourDigitRegex)))

def isValidDate (dateString : JSString) : Bool := dateRegex.testAnchored dateString

/-- The initial value of `value` in the loop over the headers: `values[i]?.trim() || ''`. -/
def cellValue (values : List JSString) (i : Nat) : JSString :=
  match values.get? i with
  | some v => trim v
  | none => []

/-- The body of the loop over the headers, up to the assignment: the value to store, or the
error thrown. -/
def checkCell (lineNo : Nat) (header value : JSString) : Except CsvError JSString :=
  if header = js "Amount" then
    let value := removeFirst 0x20AA value
    if parseFloatIsNaN value then .error (.invalidAmount lineNo value) else .ok value
  else if header = js "Date" then
    if !isValidDate value then .error (.invalidDate lineNo value) else .ok value
  else .ok value

/-- The loop `headers.forEach((header, i) => ...)` from column `i` on, with the object built
so far. -/
def forEachHeader (lineNo : Nat) (values : List JSString) :
    List JSString → Nat → Record → Except CsvError Record
  | [], _, transaction => .ok transaction
  | header :: rest, i, transaction =>
    match checkCell lineNo header (cellValue values i) with
    | .error e => .error e
    | .ok value => forEachHeader lineNo values rest (i + 1) (transaction.set header value)

/-- The callback of `lines.slice(1).map((line, index) => ...)`. -/
def processLine (headers : List JSString) (index : Nat) (line : JSString) :
    Except CsvError Record :=
  let values := split 0x2C line
  if values.length ≠ headers.length then
    .error (.invalidData (index + 2) headers.length values.length)
  else forEachHeader (index + 2) values headers 0 []

/-- The call `lines.slice(1).map(...)`, from position `index` on: the first error ends it. -/
def mapLines (headers : List JSString) : Nat → List JSString → Except CsvError (List Record)
  | _, [] => .ok []
  | index, line :: rest =>
    match processLine headers index line with
    | .error e => .error e
    | .ok transaction =>
      match mapLines headers (index + 1) rest with
      | .error e => .error e
      | .ok transactions => .ok (transaction :: transactions)

/-- The lines kept by `csvData.split('\n').filter(line => line.trim() !== '')`. -/
def nonBlankLines (csvData : JSString) : List JSString :=
  (split 0x0A csvData).filter (fun line => trim line != [])

/-- The header row: `lines[0].split(',').map(header => header.trim())`. -/
def headerRow (line : JSString) : List JSString := (split 0x2C line).map trim

/-- The `try` block of `parseCSV`. -/
def parseCSVTry (csvData : JSString) : Except CsvError (List Record) :=
  match nonBlankLines csvData with
  | [] => .error .emptyFile
  | first :: rest =>
    let headers := headerRow first
    match validateCSVStructure headers with
    | .error e => .error e
    | .ok _ => mapLines headers 0 rest

/-- The function `parseCSV`: any error is thrown again with its message extended. -/
def parseCSV (csvData : JSString) : Except JSString (List Record) :=
  match parseCSVTry csvData with
  | .error e => .error (js "Error parsing CSV: " ++ e.message)
  | .ok transactions => .ok transactions

/-! ## `js/classes/StorageHandler.js` and the import handler of `js/actions.js` -/

structure CreditCard where
  number : JSString
  expiryDate : JSString
  deriving DecidableEq

structure User where
  email : JSString
  password : JSString
  birthdate : JSString
  creditCard : CreditCard
  billingDate : Int
  transactions : List Record
  cardStatus : JSString
  deriving DecidableEq

/-- The two keys of `localStorage` that the program uses, with their content decoded:
`listOfUsers` is `none` while the key has never been written. -/
structure Storage where
  listOfUsers : Option (List User)
  current_user : Option JSString
  deriving DecidableEq

/-- `StorageHandler.getUsersList()`. -/
def getUsersList (st : Storage) : List User := st.listOfUsers.getD []

/-- The state the import handler of the actions page works on: the store, the object
`currentUser` read when the page was loaded, the rows shown in the table and the alerts
raised so far. -/
structure ActionsPage where
  storage : Storage
  currentUser : Option User
  table : List (List JSString)
  alerts : List JSString
  deriving DecidableEq

/-- `showError(message)`, which is `alert(message)`. -/
def showError (pg : ActionsPage) (message : JSString) : ActionsPage :=
  { pg with alerts := pg.alerts ++ [message] }

/-- `x || '-'` for a property that may be absent or empty. -/
def orDash (x : Option JSString) : JSString :=
  match x with
  | some (c :: cs) => c :: cs
  | _ => js "-"

/-- `populateActionsTable(data)`: the table is emptied and gets one row for each record. -/
def populateActionsTable (pg : ActionsPage) (data : List Record) : ActionsPage :=
  { pg with table := data.map (fun action =>
      [orDash (action.get (js "Date")), orDash (action.get (js "Business Name")),
       orDash (action.get (js "Category")), orDash (action.get (js "Amount"))]) }

/-- `saveUserTransactions(newTransactions)`: the new state and what the call returns or
throws. The object `currentUser` is extended before the stored list is looked at. -/
def saveUserTransactions (pg : ActionsPage) (newTransactions : List Record) :
    ActionsPage × Except JSString Bool :=
  match pg.currentUser with
  | none => (pg, .error (js "No user logged in."))
  | some currentUser =>
    let currentUser :=
      { currentUser with transactions := currentUser.transactions ++ newTransactions }
    let pg := { pg with currentUser := some currentUser }
    let users := getUsersList pg.storage
    match users.findIdx? (fun u => u.email == currentUser.email) with
    | none => (pg, .error (js "User not found in the system."))
    | some userIndex =>
      ({ pg with storage :=
          { pg.storage with listOfUsers := some (users.set userIndex currentUser) } },
       .ok true)

/-- The handler `reader.onload` of the load button, given the text of the chosen file. -/
def onload (pg : ActionsPage) (csvData : JSString) : ActionsPage :=
  match parseCSV csvData with
  | .error message => showError pg message
  | .ok transactions =>
    match saveUserTransactions pg transactions with
    | (pg, .error message) => showError pg message
    | (pg, .ok _) =>
      let pg := populateActionsTable pg transactions
      { pg with alerts := pg.alerts ++ [js "All transactions are loaded and saved successfully!"] }

/-! ## `js/classes/User.js` and `js/classes/CreditCard.js`: validators -/

/-- The class `[^A-Za-z0-9]`. -/
def isSpecial (c : Nat) : Bool := !(isUpper c || isLower c || isDigit c)

def validatePassword (password : JSString) : Bool :=
  let hasUpperCase := (Re.cls isUpper).test password
  let hasLowerCase := (Re.cls isLower).test password
  let hasNumber := Re.digit.test password
  let specialChars := matchAll isSpecial password
  decide (password.length ≥ 8) && hasUpperCase && hasLowerCase && hasNumber &&
    decide (specialChars.length = 1)

/-- The class `\D`. -/
def isNonDigit (c : Nat) : Bool := !isDigit c

def validateNumber (number : JSString) : Bool :=
  let digitsOnly := removeAll isNonDigit number
  decide (digitsOnly.length = 16)

/-- The regular expression of `validateExpiryDate`, between `^` and `$`:
month group, `/`, `\d{2}`. -/
def expiryRegex : Re :=
  Re.seq monthRegex (Re.seq (Re.chr '/') twoDigitRegex)

/-- `CreditCard.validateExpiryDate(expiryDate)` at the instant `now` (the value of
`new Date()`, see `newDate`). A `NaN` from `parseInt` makes the date invalid and every
comparison with it false. -/
def validateExpiryDate (now : Int) (expiryDate : JSString) : Bool :=
  if !expiryRegex.testAnchored expiryDate then false
  else
    match split 0x2F expiryDate with
    | month :: year :: _ =>
      match parseInt year none, parseInt month none with
      | some y, some m =>
        let expiry := newDate (2000 + y) (m - 1)
        decide (expiry > now)
      | _, _ => false
    | _ => false

/-! ## Notions used in the statements -/

/-- The check made on one cell passes: under `Amount` the value, with the first `₪` removed,
parses as a number; under `Date` the value is a valid date; elsewhere there is no check. -/
def cellOk (header value : JSString) : Bool :=
  if header = js "Amount" then !parseFloatIsNaN (removeFirst 0x20AA value)
  else if header = js "Date" then isValidDate value
  else true

/-- The cells of a row under the headers `headers`, which start at column `i`, all pass
their check. -/
def cellsOk (values : List JSString) : List JSString → Nat → Bool
  | [], _ => true
  | header :: rest, i => cellOk header (cellValue values i) && cellsOk values rest (i + 1)

/-- A valid data line: as many comma-separated cells as there are headers, and every
`Amount` and `Date` cell valid. -/
def rowValid (headers : List JSString) (line : JSString) : Bool :=
  decide ((split 0x2C line).length = headers.length) && cellsOk (split 0x2C line) headers 0

/-- The string stored for a cell: under `Amount` the first `₪` is removed. -/
def storedValue (header value : JSString) : JSString :=
  if header = js "Amount" then removeFirst 0x20AA value else value

/-- The assignments of the loop over the headers, from column `i` on, when no check fails. -/
def assignAll (values : List JSString) : List JSString → Nat → Record → Record
  | [], _, transaction => transaction
  | header :: rest, i, transaction =>
    assignAll values rest (i + 1) (transaction.set header (storedValue header (cellValue values i)))

/-- The record built from one data line. -/
def recordOf (headers : List JSString) (line : JSString) : Record :=
  assignAll (split 0x2C line) headers 0 []

/-- The error of the check on one cell, when it fails. -/
def cellError (lineNo : Nat) (header value : JSString) : CsvError :=
  if header = js "Amount" then .invalidAmount lineNo (removeFirst 0x20AA value)
  else .invalidDate lineNo value

/-- A number below 100 written with two decimal digits. -/
def twoDigits (n : Nat) : JSString := [0x30 + n / 10, 0x30 + n % 10]

/-- A number below 10000 written with four decimal digits. -/
def fourDigits (n : Nat) : JSString :=
  [0x30 + n / 1000, 0x30 + n / 100 % 10, 0x30 + n / 10 % 10, 0x30 + n % 10]

/-- A code unit in `[A-Za-z0-9]`. -/
def IsAlphaNum (c : Nat) : Prop :=
  (0x41 ≤ c ∧ c ≤ 0x5A) ∨ (0x61 ≤ c ∧ c ≤ 0x7A) ∨ (0x30 ≤ c ∧ c ≤ 0x39)

/-- Number of days of a year of the Gregorian calendar. -/
def daysInYear (y : Int) : Int := if inLeapYear y then 366 else 365

/-- Number of days of month `m` (1 = January) of year `y`. -/
def daysInMonth (y : Int) (m : Nat) : Int :=
  if m = 2 then (if inLeapYear y then 29 else 28)
  else if m = 4 ∨ m = 6 ∨ m = 9 ∨ m = 11 then 30
  else 31

/-- The first instant of month `m` (1 = January) of year `y`, from 1970 on: the days of the
full years and of the full months gone by since the start of 1970, in milliseconds. -/
def monthStart (y m : Nat) : Int :=
  (((List.range (y - 1970)).map (fun (k : Nat) => daysInYear (1970 + (k : Int)))).sum +
    ((List.range (m - 1)).map (fun (k : Nat) => daysInMonth (y : Int) (k + 1))).sum) * 86400000

/-- A registered user, for the examples. -/
def exampleUser : User :=
  { email := js "dana@example.com", password := js "Abcdefg1!", birthdate := js "1990-05-17",
    creditCard := { number := js "1234 5678 9012 3456", expiryDate := js "12/30" },
    billingDate := 1, transactions := [], cardStatus := js "active" }

/-- The actions page opened by `exampleUser`, for the examples. -/
def examplePage : ActionsPage :=
  { storage := { listOfUsers := some [exampleUser], current_user := some exampleUser.email },
    currentUser := some exampleUser, table := [], alerts := [] }

/-! ## Dates of ECMAScript

A `Date` object holds a time value, or `NaN` (`none`) when it is invalid. As for `newDate`,
time values are counted in milliseconds of local civil time. -/

/-- `msPerDay`. -/
def msPerDay : Int := 86400000

/-- `Day(t)`: the day number of a time value. -/
def dayOfTime (t : Int) : Int := t / msPerDay

/-- `TimeWithinDay(t)`. -/
def timeWithinDay (t : Int) : Int := t % msPerDay

/-- Search upwards for the year of day `d`, from a year that starts on or before `d`. -/
def yearUp : Nat → Int → Int → Int
  | 0, y, _ => y
  | fuel + 1, y, d => if d < dayFromYear (y + 1) then y else yearUp fuel (y + 1) d

/-- Search downwards for the year of day `d`, from a year that ends after `d`. -/
def yearDown : Nat → Int → Int → Int
  | 0, y, _ => y
  | fuel + 1, y, d => if dayFromYear y ≤ d then y else yearDown fuel (y - 1) d

/-- The year of a day number: the largest `y` with `DayFromYear(y) ≤ d`. A year has at
least 365 days, so `|d| / 365 + 1` steps from 1970 are enough. -/
def yearFromDay (d : Int) : Int :=
  if 0 ≤ d then yearUp (d.toNat / 365 + 1) 1970 d
  else yearDown ((-d).toNat / 365 + 1) 1969 d

/-- `YearFromTime(t)`. -/
def yearFromTime (t : Int) : Int := yearFromDay (dayOfTime t)

/-- `DayWithinYear(t)`. -/
def dayWithinYear (t : Int) : Int := dayOfTime t - dayFromYear (yearFromTime t)

/-- The month (0 = January) in which day `d` of a year lies, by the table of `MonthFromTime`. -/
def monthFromDayWithinYear (leap : Bool) (d : Int) : Int :=
  let l : Int := if leap then 1 else 0
  if d < 31 then 0 else if d < 59 + l then 1 else if d < 90 + l then 2
  else if d < 120 + l then 3 else if d < 151 + l then 4 else if d < 181 + l then 5
  else if d < 212 + l then 6 else if d < 243 + l then 7 else if d < 273 + l then 8
  else if d < 304 + l then 9 else if d < 334 + l then 10 else 11

/-- `MonthFromTime(t)`, 0 for January. -/
def monthFromTime (t : Int) : Int :=
  monthFromDayWithinYear (inLeapYear (yearFromTime t)) (dayWithinYear t)

/-- `DateFromTime(t)`: the day of the month, from 1. -/
def dateFromTime (t : Int) : Int :=
  dayWithinYear t - daysBeforeMonth (inLeapYear (yearFromTime t)) (monthFromTime t) + 1

/-- Time value of `new Date(year, month, date)`: midnight of that day, where a month index
outside 0..11 carries into the year and a day outside the month into the months around. -/
def newDate3 (year month date : Int) : Int := (makeDay year month + date - 1) * msPerDay

/-- What the program takes from the browser when it handles dates: the offset of local time
from UTC in milliseconds (local = UTC + offset), and the result of `new Date(s)` for the
strings whose reading ECMAScript leaves to the implementation (`none` for an invalid date). -/
structure DateEnv where
  tzOffset : Int
  parseOther : JSString → Option Int

/-- The number written by a string of decimal digits. -/
def digitsToNat (s : JSString) : Nat := s.foldl (fun acc c => acc * 10 + (c - 0x30)) 0

/-- The pattern `YYYY-MM-DD` of the date-only form of the ECMAScript date-time format. -/
def isoDateRegex : Re :=
  Re.seq fourDigitRegex (Re.seq (Re.chr '-') (Re.seq twoDigitRegex (Re.seq (Re.chr '-')
    twoDigitRegex)))

/-- Time value of `new Date(s)` for a string. A calendar date `MM/DD/YYYY` from year 100 on
is read as midnight of that day in local time, as browsers do; a calendar date `YYYY-MM-DD`
is read as midnight of that day in UTC, as ECMAScript prescribes for the date-only form.
Every other string is left to the implementation. -/
def dateParse (env : DateEnv) (s : JSString) : Option Int :=
  if dateRegex.testAnchored s then
    let month := digitsToNat (s.take 2)
    let day := digitsToNat ((s.drop 3).take 2)
    let year := digitsToNat (s.drop 6)
    if 100 ≤ year ∧ (day : Int) ≤ daysInMonth year month then
      some (newDate3 year ((month : Int) - 1) day)
    else env.parseOther s
  else if isoDateRegex.testAnchored s then
    let year := digitsToNat (s.take 4)
    let month := digitsToNat ((s.drop 5).take 2)
    let day := digitsToNat (s.drop 8)
    if 1 ≤ month ∧ month ≤ 12 ∧ 1 ≤ day ∧ (day : Int) ≤ daysInMonth year month then
      some (newDate3 year ((month : Int) - 1) day + env.tzOffset)
    else env.parseOther s
  else env.parseOther s

/-- `User.isAtLeast16(birthdate)` at the instant `now`. With an invalid birth date every
difference is `NaN` and the answer is `false`. -/
def isAtLeast16 (env : DateEnv) (now : Int) (birthdate : JSString) : Bool :=
  match dateParse env birthdate with
  | none => false
  | some birthDate =>
    let age := yearFromTime now - yearFromTime birthDate
    let monthDiff := monthFromTime now - monthFromTime birthDate
    let dayDiff := dateFromTime now - dateFromTime birthDate
    let age := if monthDiff < 0 ∨ (monthDiff = 0 ∧ dayDiff < 0) then age - 1 else age
    decide (age ≥ 16)

/-- A calendar date written `YYYY-MM-DD`. -/
def isoDate (y m d : Nat) : JSString :=
  fourDigits y ++ js "-" ++ twoDigits m ++ js "-" ++ twoDigits d

/-- A calendar date written `MM/DD/YYYY`. -/
def usDate (y m d : Nat) : JSString :=
  twoDigits m ++ js "/" ++ twoDigits d ++ js "/" ++ fourDigits y

/-- Day `d` of month `m` of year `y` is a date of the calendar. -/
def IsCalendarDate (y m d : Nat) : Prop :=
  1 ≤ m ∧ m ≤ 12 ∧ 1 ≤ d ∧ (d : Int) ≤ daysInMonth y m

/-- The age in whole years on the day `(ty, tm, td)` of someone born on `(y, m, d)`: the
difference of the years, less one when the month and day are before those of the birth. -/
def ageInYears (ty tm td y m d : Int) : Int :=
  if tm < m ∨ (tm = m ∧ td < d) then ty - y - 1 else ty - y

/-- A browser five hours behind UTC that reads no other date format. -/
def exampleWestEnv : DateEnv := { tzOffset := -18000000, parseOther := fun _ => none }

/-- `User.validateBillingDay(billingDay)`. A comparison with `NaN` is false. -/
def validateBillingDay (billingDay : JSString) : Bool :=
  match parseInt billingDay (some 10) with
  | none => false
  | some day => decide (day ≥ 1) && decide (day ≤ 28)

/-- A string that is an integer and nothing else: an optional sign and digits. -/
def isIntegerText (s : JSString) : Bool :=
  (Re.seq (Re.opt (Re.alt (Re.chr '+') (Re.chr '-'))) (Re.plus Re.digit)).testAnchored s

/-- The class `[^\s@]`. -/
def isEmailUnit (c : Nat) : Bool := !(isWhiteSpace c || c == 0x40)

/-- The regular expression of `validateEmail`, between `^` and `$`:
`[^\s@]+`, `@`, `[^\s@]+`, `\.`, `[^\s@]+`. -/
def emailRegex : Re :=
  Re.seq (Re.plus (Re.cls isEmailUnit)) (Re.seq (Re.chr '@')
    (Re.seq (Re.plus (Re.cls isEmailUnit)) (Re.seq (Re.chr '.') (Re.plus (Re.cls isEmailUnit)))))

def validateEmail (email : JSString) : Bool := emailRegex.testAnchored email

/-! ## Numbers

A finite number is a double, given by the rational it stands for. Every result is rounded to
the nearest double, ties to even, and becomes an infinity from `2 ^ 1024` on, as IEEE 754
and ECMAScript prescribe. The sign of zero is not modelled. -/

/-- A JavaScript number: `NaN`, an infinity, or a finite value. -/
inductive JSNum where
  | nan
  | inf (negative : Bool)
  | fin (q : ℚ)
  deriving DecidableEq

/-- The power `2 ^ e` for an integer exponent. -/
def pow2 (e : Int) : ℚ :=
  if 0 ≤ e then ((2 ^ e.toNat : Nat) : ℚ) else 1 / ((2 ^ (-e).toNat : Nat) : ℚ)

/-- The number of halvings that bring `n` below 2, at most `fuel` of them. -/
def halvings : Nat → Nat → Nat
  | 0, _ => 0
  | fuel + 1, n => if n < 2 then 0 else halvings fuel (n / 2) + 1

/-- The integer `e` with `2 ^ e ≤ a < 2 ^ (e + 1)`, for a positive rational `a`: the
difference of the bit lengths of numerator and denominator, or one less. -/
def floorLog2 (a : ℚ) : Int :=
  let e0 : Int :=
    (halvings a.num.natAbs a.num.natAbs : Int) - (halvings a.den a.den : Int)
  if pow2 e0 ≤ a then e0 else e0 - 1

/-- The integer nearest to `x ≥ 0`, the even one of the two when `x` lies half way. -/
def roundHalfEven (x : ℚ) : Nat :=
  let f : Nat := (Rat.floor x).toNat
  let r : ℚ := x - (f : ℚ)
  if r < 1 / 2 then f
  else if 1 / 2 < r then f + 1
  else if f % 2 = 0 then f else f + 1

/-- The Number value for the real `q`: the double nearest to it, ties to the even
significand (53 bits, least exponent `-1022`), and an infinity when the rounded magnitude
reaches `2 ^ 1024`. -/
def roundToDouble (q : ℚ) : JSNum :=
  if q = 0 then .fin 0
  else
    let a : ℚ := |q|
    let e : Int := max (floorLog2 a) (-1022)
    let ulp : ℚ := pow2 (e - 52)
    let r : ℚ := (roundHalfEven (a / ulp) : ℚ) * ulp
    if pow2 1024 ≤ r then .inf (decide (q < 0))
    else .fin (if q < 0 then -r else r)

/-- The sum `a + b` of two numbers. -/
def JSNum.add : JSNum → JSNum → JSNum
  | .nan, _ => .nan
  | _, .nan => .nan
  | .inf a, .inf b => if a = b then .inf a else .nan
  | .inf a, .fin _ => .inf a
  | .fin _, .inf b => .inf b
  | .fin p, .fin q => roundToDouble (p + q)

/-- `isNaN(x)`. -/
def JSNum.isNaN : JSNum → Bool
  | .nan => true
  | _ => false

/-- A number that counts as false in `x || 0`: `NaN` and zero. -/
def JSNum.falsy : JSNum → Bool
  | .nan => true
  | .inf _ => false
  | .fin q => q == 0

/-- The exponent part at the start of `t`: `e` or `E`, an optional sign and digits. It counts
only when there is a digit. -/
def exponentValue (t : JSString) : Int :=
  match t with
  | c :: r =>
    if c = 0x65 ∨ c = 0x45 then
      match r with
      | 0x2D :: u => if u.takeWhile isDigit = [] then 0 else - (digitsToNat (u.takeWhile isDigit) : Int)
      | 0x2B :: u => if u.takeWhile isDigit = [] then 0 else (digitsToNat (u.takeWhile isDigit) : Int)
      | _ => if r.takeWhile isDigit = [] then 0 else (digitsToNat (r.takeWhile isDigit) : Int)
    else 0
  | [] => 0

/-- `parseFloat(s)`: `NaN` when no initial segment is a `StrDecimalLiteral` (see
`parseFloatIsNaN`), else the Number value of the longest such segment. -/
def parseFloat (s : JSString) : JSNum :=
  if parseFloatIsNaN s then .nan
  else
    let t := s.dropWhile isWhiteSpace
    let (negative, t) :=
      match t with
      | 0x2D :: r => (true, r)
      | 0x2B :: r => (false, r)
      | _ => (false, t)
    if t.take 8 = js "Infinity" then .inf negative
    else
      let intDigits := t.takeWhile isDigit
      let t1 := t.dropWhile isDigit
      let (fracDigits, t2) :=
        match t1 with
        | 0x2E :: r => (r.takeWhile isDigit, r.dropWhile isDigit)
        | _ => ([], t1)
      let mantissa : Nat := digitsToNat (intDigits ++ fracDigits)
      let e10 : Int := exponentValue t2 - fracDigits.length
      let q : ℚ := if 0 ≤ e10 then (mantissa : ℚ) * (10 : ℚ) ^ e10.toNat
        else (mantissa : ℚ) / (10 : ℚ) ^ (-e10).toNat
      roundToDouble (if negative then -q else q)

/-- `parseFloat(x)` for a property that may be absent: `undefined` gives `NaN`. -/
def parseFloatOf (x : Option JSString) : JSNum :=
  match x with
  | none => .nan
  | some s => parseFloat s

/-! ## `js/charges.js` and `js/dashboard.js`: aggregation -/

/-- `new Date(x)` for a property that may be absent: `undefined` gives an invalid date. -/
def newDateOf (env : DateEnv) (x : Option JSString) : Option Int :=
  match x with
  | none => none
  | some s => dateParse env s

/-- A number written in decimal, as `String(n)` writes an integer. -/
def showInt (i : Int) : JSString :=
  if i < 0 then js "-" ++ showNat i.natAbs else showNat i.toNat

/-- The English month names, as `toLocaleString('en', { month: 'long' })` gives them. -/
def monthNamesLong : List JSString :=
  [js "January", js "February", js "March", js "April", js "May", js "June", js "July",
   js "August", js "September", js "October", js "November", js "December"]

/-- The abbreviated English month names, as `{ month: 'short' }` gives them. -/
def monthNamesShort : List JSString :=
  [js "Jan", js "Feb", js "Mar", js "Apr", js "May", js "Jun", js "Jul", js "Aug", js "Sep",
   js "Oct", js "Nov", js "Dec"]

/-- `date.toLocaleString('en', { month: 'short', year: 'numeric' })`, such as `Jan 2024`
(years of the common era). -/
def monthYearShort (date : Option Int) : JSString :=
  match date with
  | none => js "Invalid Date"
  | some t =>
    monthNamesShort.getD (monthFromTime t).toNat [] ++ js " " ++ showInt (yearFromTime t)

/-- The names of the properties that every object inherits from `Object.prototype`. -/
def objectPrototypeKeys : List JSString :=
  [js "constructor", js "hasOwnProperty", js "isPrototypeOf", js "propertyIsEnumerable",
   js "toLocaleString", js "toString", js "valueOf", js "__proto__", js "__defineGetter__",
   js "__defineSetter__", js "__lookupGetter__", js "__lookupSetter__"]

/-- A value held by the accumulator object of a `reduce`: a number, or a string. A string
arises when `+` meets the function (or object) inherited under the name `inherited`: it is
the text of that function followed by the numbers appended since. -/
inductive AccValue where
  | num (x : JSNum)
  | text (inherited : JSString) (appended : List JSNum)
  deriving DecidableEq

/-- The accumulator object `{}` of a `reduce`: its own properties, in creation order. -/
abbrev Acc := List (JSString × AccValue)

/-- Reading an own property of the accumulator. -/
def Acc.get (acc : Acc) (key : JSString) : Option AccValue := List.lookup key acc

/-- The assignment `acc[key] = value`: an existing property is overwritten, a new one is
added; an assignment to `__proto__` of a number or a string does nothing. -/
def Acc.set (acc : Acc) (key : JSString) (value : AccValue) : Acc :=
  if key = js "__proto__" then acc
  else if acc.any (fun kv => kv.1 == key) then
    acc.map (fun kv => if kv.1 = key then (key, value) else kv)
  else acc ++ [(key, value)]

/-- The statement `acc[key] = (acc[key] || 0) + x`. A name that is not an own property is
looked up in `Object.prototype`, where it finds a function or an object, which `+` turns
into text. -/
def Acc.addTo (acc : Acc) (key : JSString) (x : JSNum) : Acc :=
  let value : AccValue :=
    match acc.get key with
    | some (.num a) => .num ((if a.falsy then JSNum.fin 0 else a).add x)
    | some (.text inherited appended) => .text inherited (appended ++ [x])
    | none =>
      if key ∈ objectPrototypeKeys then .text key [x] else .num ((JSNum.fin 0).add x)
  acc.set key value

/-- The name of the property `acc[x]` for a value that may be `undefined`. -/
def propertyKey (x : Option JSString) : JSString := x.getD (js "undefined")

def calculateMonthlySpending (env : DateEnv) (transactions : List Record) : Acc :=
  transactions.foldl (fun acc transaction =>
    let month := monthYearShort (newDateOf env (transaction.get (js "Date")))
    acc.addTo month (parseFloatOf (transaction.get (js "Amount")))) []

def calculateCategorySpending (transactions : List Record) : Acc :=
  transactions.foldl (fun acc transaction =>
    acc.addTo (propertyKey (transaction.get (js "Category")))
      (parseFloatOf (transaction.get (js "Amount")))) []

/-- `s.padStart(2, '0')`. -/
def padStart2 (s : JSString) : JSString := List.replicate (2 - s.length) 0x30 ++ s

/-- The text `getFullYear() + '-' + String(getMonth() + 1).padStart(2, '0')` of a date; the
getters of an invalid date give `NaN`. -/
def yearMonthKey (date : Option Int) : JSString :=
  match date with
  | none => js "NaN-NaN"
  | some t => showInt (yearFromTime t) ++ js "-" ++ padStart2 (showInt (monthFromTime t + 1))

def filterByMonth (env : DateEnv) (transactions : List Record) (selectedMonth : JSString) :
    List Record :=
  if selectedMonth = js "all" then transactions
  else
    transactions.filter (fun transaction =>
      let transactionDate := newDateOf env (transaction.get (js "Date"))
      let transactionMonth := yearMonthKey transactionDate
      transactionMonth == selectedMonth)

/-- The class `[^\d.-]`. -/
def isNotAmountUnit (c : Nat) : Bool := !(isDigit c || c == 0x2E || c == 0x2D)

/-- `parseTransactionAmount(rawAmount)` for the `Amount` of a record, a string or absent. -/
def parseTransactionAmount (rawAmount : Option JSString) : JSNum :=
  match rawAmount with
  | none => .nan
  | some [] => .nan
  | some s => parseFloat (removeAll isNotAmountUnit s)

/-- The two totals that `showTransactionSummary(currentUser)` computes at the instant `now`
and shows: the total of the last period and the total of the current period. -/
def showTransactionSummary (env : DateEnv) (now : Int) (currentUser : User) : JSNum × JSNum :=
  let billingDate := currentUser.billingDate
  let transactions := currentUser.transactions
  let firstOfMonth := newDate3 (yearFromTime now) (monthFromTime now) billingDate
  let firstOfLastMonth := newDate3 (yearFromTime now) (monthFromTime now - 1) billingDate
  let lastMonthTotal :=
    (transactions.filter (fun t =>
      match newDateOf env (t.get (js "Date")) with
      | none => false
      | some date => decide (date ≥ firstOfLastMonth) && decide (date < firstOfMonth))).foldl
      (fun sum t =>
        let amount := parseTransactionAmount (t.get (js "Amount"))
        if amount.isNaN then sum else sum.add amount) (JSNum.fin 0)
  let currentMonthTotal :=
    (transactions.filter (fun t =>
      match newDateOf env (t.get (js "Date")) with
      | none => false
      | some date => decide (date ≥ firstOfMonth))).foldl
      (fun sum t =>
        let amount := parseTransactionAmount (t.get (js "Amount"))
        sum.add amount) (JSNum.fin 0)
  (lastMonthTotal, currentMonthTotal)

/-- A transaction with the four required properties, for the examples. -/
def exampleTransaction (date business category amount : String) : Record :=
  [(js "Date", js date), (js "Business Name", js business), (js "Category", js category),
   (js "Amount", js amount)]

/-- A browser in a zone two hours ahead of UTC that reads no other date format. -/
def exampleEnv : DateEnv := { tzOffset := 7200000, parseOther := fun _ => none }

/-- `date.setMonth(month)`: the month is replaced, the day of the month and the time of day
are kept; a month index outside 0..11 carries into the year. -/
def setMonth (t month : Int) : Int :=
  newDate3 (yearFromTime t) month (dateFromTime t) + timeWithinDay t

/-- An entry `{ value, label }` of the month selector. -/
structure MonthOption where
  value : JSString
  label : JSString
  deriving DecidableEq

/-- The `while` loop of `generateMonthsList`, run for at most `fuel` tests of its condition:
`none` when the fuel runs out before the loop ends. -/
def generateMonthsLoop :
    Nat → Int → Int → List MonthOption → Option (List MonthOption)
  | 0, _, _, _ => none
  | fuel + 1, currentDate, currentMonth, months =>
    if currentMonth ≤ currentDate then
      let months := months ++ [{
        value := showInt (yearFromTime currentMonth) ++ js "-" ++
          padStart2 (showInt (monthFromTime currentMonth + 1)),
        label := monthNamesLong.getD (monthFromTime currentMonth).toNat [] ++ js " " ++
          showInt (yearFromTime currentMonth) }]
      generateMonthsLoop fuel currentDate
        (setMonth currentMonth (monthFromTime currentMonth + 1)) months
    else some months

/-- `generateMonthsList()` at the instant `now`, its loop run with the given fuel. -/
def generateMonthsList (fuel : Nat) (now : Int) : Option (List MonthOption) :=
  let months : List MonthOption := [{ value := js "all", label := js "ALL MONTHS" }]
  let startDate := newDate 2024 0
  let currentDate := now
  let currentMonth := startDate
  generateMonthsLoop fuel currentDate currentMonth months

/-! ## `js/classes/StorageHandler.js` and the registration form of `js/main.js` -/

/-- `StorageHandler.addUser(user)`. -/
def addUser (st : Storage) (user : User) : Storage :=
  let users := getUsersList st
  let users := users ++ [user]
  { st with listOfUsers := some users }

/-- `StorageHandler.findUserByEmail(email)`: `none` is `null`. -/
def findUserByEmail (st : Storage) (email : JSString) : Option User :=
  let users := getUsersList st
  match users.find? (fun u => u.email == email) with
  | none => none
  | some userData =>
    let creditCard : CreditCard :=
      { number := userData.creditCard.number, expiryDate := userData.creditCard.expiryDate }
    some { email := userData.email, password := userData.password,
           birthdate := userData.birthdate, creditCard := creditCard,
           billingDate := userData.billingDate, transactions := userData.transactions,
           cardStatus := userData.cardStatus }

/-- `StorageHandler.getCurrentUser()`. -/
def getCurrentUser (st : Storage) : Option User :=
  match st.current_user with
  | none => none
  | some [] => none
  | some email => findUserByEmail st email

/-- `creditCard.getLastFourDigits()`, which is `this.number.slice(-4)`. -/
def CreditCard.getLastFourDigits (card : CreditCard) : JSString :=
  card.number.drop (card.number.length - 4)

/-- The values of the fields of the registration form. -/
structure RegistrationForm where
  email : JSString
  password : JSString
  birthdate : JSString
  cardNumber : JSString
  cardExpiry : JSString
  deriving DecidableEq

/-- The state the registration handler works on: the store, the alerts raised so far and
the page the browser was sent to, if any. -/
structure RegistrationPage where
  storage : Storage
  alerts : List JSString
  location : Option JSString
  deriving DecidableEq

/-- `alert(message)` on the registration page. -/
def RegistrationPage.alert (pg : RegistrationPage) (message : JSString) : RegistrationPage :=
  { pg with alerts := pg.alerts ++ [message] }

/-- `submitForm(e)` at the instant `now`, for the values of the form. -/
def submitForm (env : DateEnv) (now : Int) (pg : RegistrationPage) (form : RegistrationForm) :
    RegistrationPage :=
  let email := form.email
  let password := form.password
  let birthdate := form.birthdate
  let cardNumber := form.cardNumber
  let cardExpiry := form.cardExpiry
  if !validateEmail email then pg.alert (js "Invalid email format.")
  else if !validatePassword password then
    pg.alert (js "Password must include uppercase, lowercase, number, and one special character.")
  else if !isAtLeast16 env now birthdate then
    pg.alert (js "You must be at least 16 years old to register.")
  else if !validateNumber cardNumber then pg.alert (js "Invalid credit card number.")
  else if !validateExpiryDate now cardExpiry then pg.alert (js "Invalid expiry date.")
  else if (findUserByEmail pg.storage email).isSome then
    pg.alert (js "This email is already registered.")
  else
    let creditCard : CreditCard := { number := cardNumber, expiryDate := cardExpiry }
    let user : User :=
      { email := email, password := password, birthdate := birthdate, creditCard := creditCard,
        billingDate := 1, transactions := [], cardStatus := js "active" }
    let pg := { pg with storage := addUser pg.storage user }
    let pg := pg.alert (js "Registration successful!")
    { pg with location := some (js "login.html") }

/-! ## Notions used in the statements about the aggregation -/

/-- The year and the month index (0 = January) of the date that the engine reads from the
`Date` of a transaction; `none` when it reads no date (`Invalid Date`). -/
def monthOfRecord (env : DateEnv) (r : Record) : Option (Int × Int) :=
  (newDateOf env (r.get (js "Date"))).map (fun t => (yearFromTime t, monthFromTime t))

/-- The label `Mon YYYY` of the month with index `m` (0 = January) of year `y`, and
`Invalid Date` for `none`. -/
def monthYearLabel : Option (Int × Int) → JSString
  | none => js "Invalid Date"
  | some (y, m) => monthNamesShort.getD m.toNat [] ++ js " " ++ showInt y

/-- The sum of a list of numbers: added from left to right, from 0, each partial sum rounded
as `+` rounds it. -/
def jsSum (l : List JSNum) : JSNum := l.foldl JSNum.add (.fin 0)

/-- The parsed amounts of the transactions whose date is read in the month `g`, in the
order of the list. -/
def amountsOfMonth (env : DateEnv) (txs : List Record) (g : Option (Int × Int)) :
    List JSNum :=
  (txs.filter (fun r => decide (monthOfRecord env r = g))).map
    (fun r => parseFloatOf (r.get (js "Amount")))

/-- The numbers paired with the key `k` in a list of keyed numbers, in order. -/
def valuesAt (items : List (JSString × JSNum)) (k : JSString) : List JSNum :=
  (items.filter (fun kv => decide (kv.1 = k))).map Prod.snd

/-- The key made of the decimal year `y`, `-` and the two digits of the month `m`
(1 = January): `YYYY-MM` for the years 1000 to 9999. -/
def monthKeyOf (y : Int) (m : Nat) : JSString := showInt y ++ js "-" ++ twoDigits m

/-- The total that the statement `acc[k] = (acc[k] || 0) + x` keeps under one key while the
numbers of `l` arrive one after the other: a total that counts as false, zero or `NaN`, is
replaced by 0 before the next number is added. -/
def runningTotal (l : List JSNum) : JSNum :=
  l.foldl (fun a x => (if a.falsy then JSNum.fin 0 else a).add x) (.fin 0)

/-- A browser that carries the days past the end of a month into the next month: it reads
`02/31/2024` as 2 March 2024. It reads no other format. -/
def exampleCarryEnv : DateEnv :=
  DateEnv.mk 0 (fun s => if s = js "02/31/2024" then some (newDate3 2024 1 31) else none)

/-- Four transactions, three of January 2024 and one of February 2024, for the examples. -/
def exampleTransactions : List Record :=
  [exampleTransaction "01/15/2024" "Shop" "Food" "100",
   exampleTransaction "01/20/2024" "Cafe" "Food" "0.1",
   exampleTransaction "01/21/2024" "Cafe" "Food" "0.2",
   exampleTransaction "02/01/2024" "Cafe" "Food" "50"]

/-- The key `YYYY-MM` of month `m` (1 = January) of year `y`. -/
def monthKey (y m : Nat) : JSString := showNat y ++ js "-" ++ twoDigits m

/-- The entry of the month selector for month `m` (1 = January) of year `y`. -/
def monthOption (y m : Nat) : MonthOption :=
  { value := monthKey y m, label := monthNamesLong.getD (m - 1) [] ++ js " " ++ showNat y }

/-- The registration page over a store that holds `exampleUser`, for the examples. -/
def exampleRegistrationPage : RegistrationPage :=
  { storage := { listOfUsers := some [exampleUser], current_user := none }, alerts := [],
    location := none }

/-- The first instant of the month that comes `k` months after January 2024. -/
def monthAfterStart (k : Nat) : Int :=
  newDate (2024 + ((k / 12 : Nat) : Int)) ((k % 12 : Nat) : Int)

/-! ## `js/profile.js`: the profile update -/

/-- `StorageHandler.setCurrentUser(email)`. -/
def setCurrentUser (st : Storage) (email : JSString) : Storage :=
  { st with current_user := some email }

/-- The values of the fields of the profile form, as the browser holds them. -/
structure ProfileForm where
  updateEmail : JSString
  updatePassword : JSString
  updateCardNumber : JSString
  updateCardExpiry : JSString
  cardStatusUpdate : JSString
  billingDay : JSString
  deriving DecidableEq

/-- The state the profile handler works on: the store, the alerts raised so far and the
page the browser was sent to, if any. -/
structure ProfilePage where
  storage : Storage
  alerts : List JSString
  location : Option JSString
  deriving DecidableEq

/-- `alert(message)` on the profile page. -/
def ProfilePage.alert (pg : ProfilePage) (message : JSString) : ProfilePage :=
  { pg with alerts := pg.alerts ++ [message] }

/-- The block of `handleUpdateProfile` that updates the email of `currentUser`; an error is
the message alerted before the handler returns. -/
def updateEmailStep (st : Storage) (email : JSString) (currentUser : User) :
    Except JSString User :=
  if email ≠ [] ∧ email ≠ currentUser.email then
    if !validateEmail email then .error (js "Invalid email format.")
    else if (findUserByEmail st email).isSome then
      .error (js "This email is already registered.")
    else .ok { currentUser with email := email }
  else .ok currentUser

/-- The block of `handleUpdateProfile` that updates the password. -/
def updatePasswordStep (password : JSString) (currentUser : User) : Except JSString User :=
  if password ≠ [] then
    if !validatePassword password then
      .error (js
        "Password must include uppercase, lowercase, number, and one special character.")
    else .ok { currentUser with password := password }
  else .ok currentUser

/-- The block of `handleUpdateProfile` that updates the credit card, at the instant `now`. -/
def updateCardStep (now : Int) (cardNumber cardExpiry : JSString) (currentUser : User) :
    Except JSString User :=
  if cardNumber ≠ [] ∨ cardExpiry ≠ [] then
    let currentCardNumber :=
      if cardNumber ≠ [] then cardNumber else currentUser.creditCard.number
    let currentExpiry :=
      if cardExpiry ≠ [] then cardExpiry else currentUser.creditCard.expiryDate
    if cardNumber ≠ [] ∧ validateNumber cardNumber = false then
      .error (js "Invalid credit card number.")
    else if cardExpiry ≠ [] ∧ validateExpiryDate now cardExpiry = false then
      .error (js "Invalid card expiry date.")
    else
      .ok { currentUser with
        creditCard := { number := currentCardNumber, expiryDate := currentExpiry } }
  else .ok currentUser

/-- The block of `handleUpdateProfile` that updates the billing day. After
`validateBillingDay` has accepted the input `parseInt` gives a number, never `NaN`. -/
def updateBillingDayStep (billingDay : JSString) (currentUser : User) :
    Except JSString User :=
  if billingDay ≠ [] then
    if !validateBillingDay billingDay then
      .error (js "Invalid billing day. Please choose a day between 1 and 28.")
    else .ok { currentUser with billingDate := (parseInt billingDay (some 10)).getD 0 }
  else .ok currentUser

/-- The block of `handleUpdateProfile` that updates the card status. -/
def updateCardStatusStep (cardStatus : JSString) (currentUser : User) : User :=
  if cardStatus ≠ [] then { currentUser with cardStatus := cardStatus } else currentUser

/-- `ProfileManager.handleUpdateProfile(e)` at the instant `now`, for the values of the
form. -/
def handleUpdateProfile (now : Int) (pg : ProfilePage) (form : ProfileForm) : ProfilePage :=
  let email := trim form.updateEmail
  let password := trim form.updatePassword
  let cardNumber := removeAll isWhiteSpace form.updateCardNumber
  let cardExpiry := trim form.updateCardExpiry
  let cardStatus := form.cardStatusUpdate
  let billingDay := trim form.billingDay
  match getCurrentUser pg.storage with
  | none => pg.alert (js "User not logged in.")
  | some currentUser =>
    let users := getUsersList pg.storage
    match users.findIdx? (fun user => user.email == currentUser.email) with
    | none => pg.alert (js "User not found.")
    | some userIndex =>
      match updateEmailStep pg.storage email currentUser with
      | .error message => pg.alert message
      | .ok currentUser =>
        match updatePasswordStep password currentUser with
        | .error message => pg.alert message
        | .ok currentUser =>
          match updateCardStep now cardNumber cardExpiry currentUser with
          | .error message => pg.alert message
          | .ok currentUser =>
            match updateBillingDayStep billingDay currentUser with
            | .error message => pg.alert message
            | .ok currentUser =>
              let currentUser := updateCardStatusStep cardStatus currentUser
              let users := users.set userIndex currentUser
              let st : Storage := { pg.storage with listOfUsers := some users }
              let st :=
                if email ≠ [] ∧ email ≠ currentUser.email then setCurrentUser st email else st
              { storage := st,
                alerts := pg.alerts ++ [js "Profile updated successfully!"],
                location := some (js "dashboard.html") }

/-! ## `js/classes/CreditCard.js`: formatting -/

/-- Code units that `.` does not match: the line terminators. -/
def isLineTerminator (c : Nat) : Bool :=
  c == 0x0A || c == 0x0D || c == 0x2028 || c == 0x2029

/-- The pattern `(.{4})(?=.)` matches at the start of the string. -/
def matchesFourAhead : JSString → Bool
  | a :: b :: c :: d :: e :: _ =>
    !isLineTerminator a && !isLineTerminator b && !isLineTerminator c &&
      !isLineTerminator d && !isLineTerminator e
  | _ => false

/-- `s.replace(/(.{4})(?=.)/g, '$1 ')`, as a scan from left to right: the first argument is
the number of code units of the current match still to be copied (0 outside a match). -/
def insertSpaces : Nat → JSString → JSString
  | _, [] => []
  | 0, c :: rest =>
    if matchesFourAhead (c :: rest) then c :: insertSpaces 3 rest
    else c :: insertSpaces 0 rest
  | 1, c :: rest => c :: 0x20 :: insertSpaces 0 rest
  | k + 2, c :: rest => c :: insertSpaces (k + 1) rest

/-- `CreditCard.formatCardNumber(number)`. -/
def formatCardNumber (number : JSString) : JSString :=
  let cardNumber := removeAll isNonDigit number
  insertSpaces 0 cardNumber

/-! ## `js/charges.js`: the total of the category summary -/

/-- The loop of `displayCategorySummary` over the entries of the object: the total
`totalExpenses` of the values, or `none` when a value is a string, on which
`amount.toFixed(2)` throws. The entries are visited in the order in which the properties were
created, which is the order of `Object.entries` for names that are not array indices. -/
def totalOfValues (acc : Acc) : Option JSNum :=
  acc.foldl (fun total kv =>
    match total, kv.2 with
    | some t, .num amount => some (t.add amount)
    | _, _ => none) (some (.fin 0))

/-- The figure `Total Expenses` that `displayCategorySummary(transactions)` shows, before
it is formatted; `none` when the function throws. -/
def displayCategorySummary (transactions : List Record) : Option JSNum :=
  let categorySpending := calculateCategorySpending transactions
  totalOfValues categorySpending

/-! ## Notions used in the statements about cards and profiles -/

/-- The digits of a string, in order. -/
def digitsOf (s : JSString) : JSString := s.filter isDigit

/-- A string cut into blocks of four code units, the last block possibly shorter. -/
def blocksOfFour : JSString → List JSString
  | a :: b :: c :: d :: e :: rest => [a, b, c, d] :: blocksOfFour (e :: rest)
  | [] => []
  | s => [s]

/-- The emails of the stored users are pairwise distinct. -/
def EmailsDistinct (st : Storage) : Prop := ((getUsersList st).map (fun u => u.email)).Nodup

/-- The billing date of every stored user is in 1..28. -/
def BillingDatesInRange (st : Storage) : Prop :=
  ∀ u ∈ getUsersList st, 1 ≤ u.billingDate ∧ u.billingDate ≤ 28

/-- The profile page over the store of `examplePage`, in which `exampleUser` is logged
in. -/
def exampleProfilePage : ProfilePage :=
  { storage := examplePage.storage, alerts := [], location := none }

/-- A profile form with all fields empty. -/
def emptyProfileForm : ProfileForm :=
  { updateEmail := [], updatePassword := [], updateCardNumber := [], updateCardExpiry := [],
    cardStatusUpdate := [], billingDay := [] }

/-! # Theorems -/

set_option maxRecDepth 100000

/-! ## The matcher decides the language -/

namespace Re

theorem lang_never_iff (s : JSString) : Lang never s ↔ False := by
  constructor
  · intro h
    cases h
  · exact False.elim

theorem lang_eps_iff (s : JSString) : Lang eps s ↔ s = [] := by
  constructor
  · intro h
    cases h
    rfl
  · rintro rfl
    exact Lang.eps

theorem lang_cls_iff (p : Nat → Bool) (s : JSString) :
    Lang (cls p) s ↔ ∃ c, s = [c] ∧ p c = true := by
  constructor
  · intro h
    cases h with
    | cls hc => exact ⟨_, rfl, hc⟩
  · rintro ⟨c, rfl, hc⟩
    exact Lang.cls hc

theorem lang_alt_iff (a b : Re) (s : JSString) : Lang (alt a b) s ↔ Lang a s ∨ Lang b s := by
  constructor
  · intro h
    cases h with
    | altL h => exact Or.inl h
    | altR h => exact Or.inr h
  · rintro (h | h)
    · exact Lang.altL h
    · exact Lang.altR h

theorem lang_seq_iff (a b : Re) (s : JSString) :
    Lang (seq a b) s ↔ ∃ u v, s = u ++ v ∧ Lang a u ∧ Lang b v := by
  constructor
  · intro h
    cases h with
    | seq ha hb => exact ⟨_, _, rfl, ha, hb⟩
  · rintro ⟨u, v, rfl, ha, hb⟩
    exact Lang.seq ha hb

theorem lang_star_cons_aux {r : Re} {s : JSString} (h : Lang r s) :
    ∀ (a : Re) (c : Nat) (t : JSString), r = star a → s = c :: t →
      ∃ u v, t = u ++ v ∧ Lang a (c :: u) ∧ Lang (star a) v := by
  induction h with
  | eps => intro a c t hr; cases hr
  | cls _ => intro a c t hr; cases hr
  | altL _ _ => intro a c t hr; cases hr
  | altR _ _ => intro a c t hr; cases hr
  | seq _ _ _ _ => intro a c t hr; cases hr
  | starNil => intro a c t _ hs; cases hs
  | @starCons a0 u v hu hv _ ihv =>
    intro a c t hr hs
    cases hr
    cases u with
    | nil => exact ihv a0 c t rfl (by simpa using hs)
    | cons x u1 =>
      simp only [List.cons_append, List.cons.injEq] at hs
      obtain ⟨rfl, rfl⟩ := hs
      exact ⟨u1, v, rfl, hu, hv⟩

theorem lang_star_cons_iff (a : Re) (c : Nat) (t : JSString) :
    Lang (star a) (c :: t) ↔ ∃ u v, t = u ++ v ∧ Lang a (c :: u) ∧ Lang (star a) v := by
  constructor
  · intro h
    exact lang_star_cons_aux h a c t rfl rfl
  · rintro ⟨u, v, rfl, hu, hv⟩
    exact Lang.starCons hu hv

theorem nullable_iff (r : Re) : r.nullable = true ↔ Lang r [] := by
  induction r with
  | never => simp [nullable, lang_never_iff]
  | eps => simp [nullable, lang_eps_iff]
  | cls p => simp [nullable, lang_cls_iff]
  | alt a b iha ihb => simp [nullable, lang_alt_iff, iha, ihb]
  | seq a b iha ihb =>
    simp only [nullable, Bool.and_eq_true, iha, ihb, lang_seq_iff]
    constructor
    · rintro ⟨ha, hb⟩
      exact ⟨[], [], rfl, ha, hb⟩
    · rintro ⟨u, v, h, ha, hb⟩
      have hu : u = [] := by
        cases u with
        | nil => rfl
        | cons x xs => simp at h
      have hv : v = [] := by
        cases v with
        | nil => rfl
        | cons x xs => simp [hu] at h
      subst hu hv
      exact ⟨ha, hb⟩
  | star a _ => simp only [nullable, true_iff]; exact Lang.starNil

theorem lang_deriv_iff (r : Re) (c : Nat) : ∀ s, Lang (r.deriv c) s ↔ Lang r (c :: s) := by
  induction r with
  | never => intro s; simp [deriv, lang_never_iff]
  | eps => intro s; simp [deriv, lang_never_iff, lang_eps_iff]
  | cls p =>
    intro s
    by_cases hp : p c = true
    · simp only [deriv, hp, if_true, lang_eps_iff, lang_cls_iff]
      constructor
      · rintro rfl
        exact ⟨c, rfl, hp⟩
      · rintro ⟨x, hx, _⟩
        simpa using (List.cons.inj hx).2
    · simp only [deriv, hp, Bool.false_eq_true, if_false, lang_never_iff, lang_cls_iff,
        false_iff]
      rintro ⟨x, hx, hpx⟩
      obtain ⟨rfl, -⟩ := List.cons.inj hx
      exact hp hpx
  | alt a b iha ihb => intro s; simp [deriv, lang_alt_iff, iha, ihb]
  | seq a b iha ihb =>
    intro s
    have key : Lang (seq a b) (c :: s) ↔
        (∃ u v, s = u ++ v ∧ Lang a (c :: u) ∧ Lang b v) ∨ (Lang a [] ∧ Lang b (c :: s)) := by
      rw [lang_seq_iff]
      constructor
      · rintro ⟨u, v, h, ha, hb⟩
        cases u with
        | nil =>
          simp only [List.nil_append] at h
          subst h
          exact Or.inr ⟨ha, hb⟩
        | cons x u1 =>
          simp only [List.cons_append, List.cons.injEq] at h
          obtain ⟨rfl, rfl⟩ := h
          exact Or.inl ⟨u1, v, rfl, ha, hb⟩
      · rintro (⟨u, v, rfl, ha, hb⟩ | ⟨ha, hb⟩)
        · exact ⟨c :: u, v, rfl, ha, hb⟩
        · exact ⟨[], c :: s, rfl, ha, hb⟩
    rw [key]
    by_cases hn : a.nullable = true
    · have ha : Lang a [] := (nullable_iff a).1 hn
      simp [deriv, hn, lang_alt_iff, lang_seq_iff, iha, ihb, ha]
    · have ha : ¬ Lang a [] := fun h => hn ((nullable_iff a).2 h)
      simp [deriv, hn, lang_seq_iff, iha, ha]
  | star a iha =>
    intro s
    simp [deriv, lang_seq_iff, iha, lang_star_cons_iff]

theorem fullMatch_iff (r : Re) (s : JSString) : r.fullMatch s = true ↔ Lang r s := by
  induction s generalizing r with
  | nil => simp [fullMatch, nullable_iff]
  | cons c cs ih => simp [fullMatch, ih, lang_deriv_iff]

theorem lang_star_anyUnit (s : JSString) : Lang (star anyUnit) s := by
  induction s with
  | nil => exact Lang.starNil
  | cons c cs ih => exact Lang.starCons (u := [c]) (Lang.cls rfl) ih

/-- An unanchored test for a class holds exactly when some code unit is in the class. -/
theorem test_cls_iff (p : Nat → Bool) (s : JSString) :
    (cls p).test s = true ↔ ∃ c ∈ s, p c = true := by
  simp only [test, fullMatch_iff, lang_seq_iff, lang_cls_iff]
  constructor
  · rintro ⟨u, v, rfl, _, w, z, rfl, ⟨c, rfl, hc⟩, _⟩
    exact ⟨c, by simp, hc⟩
  · rintro ⟨c, hmem, hc⟩
    obtain ⟨u, z, rfl⟩ := List.append_of_mem hmem
    exact ⟨u, c :: z, rfl, lang_star_anyUnit u, [c], z, rfl, ⟨c, rfl, hc⟩, lang_star_anyUnit z⟩

/-- A class followed by `r` matches a string when its head is in the class and its tail
matches `r`. -/
theorem lang_cls_seq_iff (p : Nat → Bool) (r : Re) (s : JSString) :
    Lang (seq (cls p) r) s ↔ ∃ c t, s = c :: t ∧ p c = true ∧ Lang r t := by
  simp only [lang_seq_iff, lang_cls_iff]
  constructor
  · rintro ⟨u, v, rfl, ⟨c, rfl, hc⟩, hv⟩
    exact ⟨c, v, rfl, hc, hv⟩
  · rintro ⟨c, t, rfl, hc, ht⟩
    exact ⟨[c], t, rfl, ⟨c, rfl, hc⟩, ht⟩

theorem lang_chr_iff (c : Char) (s : JSString) : Lang (chr c) s ↔ s = [c.toNat] := by
  simp only [chr, lang_cls_iff, beq_iff_eq]
  constructor
  · rintro ⟨x, rfl, rfl⟩
    rfl
  · rintro rfl
    exact ⟨_, rfl, rfl⟩

theorem lang_range_iff (lo hi : Char) (s : JSString) :
    Lang (range lo hi) s ↔ ∃ x, s = [x] ∧ lo.toNat ≤ x ∧ x ≤ hi.toNat := by
  simp [range, lang_cls_iff]

theorem lang_digit_iff (s : JSString) : Lang digit s ↔ ∃ x, s = [x] ∧ 48 ≤ x ∧ x ≤ 57 := by
  simp [digit, isDigit, lang_cls_iff]

end Re

/-! ## Dates -/

theorem lang_monthRegex_iff (u : JSString) :
    Re.Lang monthRegex u ↔ ∃ m, 1 ≤ m ∧ m ≤ 12 ∧ u = twoDigits m := by
  simp only [monthRegex, Re.lang_alt_iff, Re.lang_seq_iff, Re.lang_chr_iff, Re.lang_range_iff]
  have h0 : ('0' : Char).toNat = 48 := rfl
  have h1 : ('1' : Char).toNat = 49 := rfl
  have h2 : ('2' : Char).toNat = 50 := rfl
  have h9 : ('9' : Char).toNat = 57 := rfl
  simp only [h0, h1, h2, h9]
  constructor
  · rintro (⟨_, _, rfl, rfl, x, rfl, hx1, hx2⟩ | ⟨_, _, rfl, rfl, x, rfl, hx1, hx2⟩)
    · refine ⟨x - 48, by omega, by omega, ?_⟩
      simp only [twoDigits, List.singleton_append, List.cons.injEq, and_true]
      constructor <;> omega
    · refine ⟨x - 48 + 10, by omega, by omega, ?_⟩
      simp only [twoDigits, List.singleton_append, List.cons.injEq, and_true]
      constructor <;> omega
  · rintro ⟨m, hm1, hm2, rfl⟩
    by_cases h : m < 10
    · left
      refine ⟨[48], [48 + m % 10], ?_, rfl, 48 + m % 10, rfl, by omega, by omega⟩
      simp only [twoDigits, List.singleton_append, List.cons.injEq, and_true]
      omega
    · right
      refine ⟨[49], [48 + m % 10], ?_, rfl, 48 + m % 10, rfl, by omega, by omega⟩
      simp only [twoDigits, List.singleton_append, List.cons.injEq, and_true]
      omega

/-! ## The row loop of `parseCSV` -/

theorem checkCell_of_cellOk (lineNo : Nat) (header value : JSString)
    (h : cellOk header value = true) :
    checkCell lineNo header value = .ok (storedValue header value) := by
  unfold cellOk at h
  unfold checkCell storedValue
  by_cases hA : header = js "Amount"
  · simp only [hA, if_true] at h ⊢
    simp only [Bool.not_eq_true'] at h
    simp [h]
  · by_cases hD : header = js "Date"
    · subst hD
      simp only [if_neg hA, if_true] at h ⊢
      simp [h]
    · simp [hA, hD]

theorem checkCell_of_not_cellOk (lineNo : Nat) (header value : JSString)
    (h : cellOk header value = false) :
    checkCell lineNo header value = .error (cellError lineNo header value) := by
  unfold cellOk at h
  unfold checkCell cellError
  by_cases hA : header = js "Amount"
  · simp only [hA, if_true] at h ⊢
    simp only [Bool.not_eq_false'] at h
    simp [h]
  · by_cases hD : header = js "Date"
    · subst hD
      simp only [if_neg hA, if_true] at h ⊢
      simp [h]
    · simp [hA, hD] at h

theorem forEachHeader_of_cellsOk (lineNo : Nat) (values : List JSString) :
    ∀ (headers : List JSString) (i : Nat) (t : Record), cellsOk values headers i = true →
      forEachHeader lineNo values headers i t = .ok (assignAll values headers i t) := by
  intro headers
  induction headers with
  | nil => intro i t _; rfl
  | cons h hs ih =>
    intro i t hok
    simp only [cellsOk, Bool.and_eq_true] at hok
    simp only [forEachHeader, checkCell_of_cellOk lineNo h _ hok.1, assignAll]
    exact ih (i + 1) _ hok.2

theorem forEachHeader_error_at (lineNo : Nat) (values : List JSString) :
    ∀ (before : List JSString) (header : JSString) (after : List JSString) (i : Nat)
      (t : Record), cellsOk values before i = true →
      cellOk header (cellValue values (i + before.length)) = false →
      forEachHeader lineNo values (before ++ header :: after) i t =
        .error (cellError lineNo header (cellValue values (i + before.length))) := by
  intro before
  induction before with
  | nil =>
    intro header after i t _ hbad
    simp only [List.length_nil, Nat.add_zero] at hbad
    simp [forEachHeader, checkCell_of_not_cellOk lineNo header _ hbad]
  | cons h hs ih =>
    intro header after i t hok hbad
    simp only [cellsOk, Bool.and_eq_true] at hok
    simp only [List.cons_append, forEachHeader, checkCell_of_cellOk lineNo h _ hok.1]
    have hidx : i + (h :: hs).length = (i + 1) + hs.length := by
      simp only [List.length_cons]; omega
    rw [hidx] at hbad ⊢
    exact ih header after (i + 1) _ hok.2 hbad

theorem forEachHeader_error_of_not_cellsOk (lineNo : Nat) (values : List JSString) :
    ∀ (headers : List JSString) (i : Nat) (t : Record), cellsOk values headers i = false →
      ∃ e, forEachHeader lineNo values headers i t = .error e := by
  intro headers
  induction headers with
  | nil => intro i t h; simp [cellsOk] at h
  | cons h hs ih =>
    intro i t hbad
    by_cases hc : cellOk h (cellValue values i) = true
    · have hrest : cellsOk values hs (i + 1) = false := by
        simpa [cellsOk, hc] using hbad
      simp only [forEachHeader, checkCell_of_cellOk lineNo h _ hc]
      exact ih (i + 1) _ hrest
    · have hc2 : cellOk h (cellValue values i) = false := by simpa using hc
      refine ⟨cellError lineNo h (cellValue values i), ?_⟩
      simp [forEachHeader, checkCell_of_not_cellOk lineNo h _ hc2]

theorem processLine_of_rowValid (headers : List JSString) (index : Nat) (line : JSString)
    (h : rowValid headers line = true) :
    processLine headers index line = .ok (recordOf headers line) := by
  simp only [rowValid, Bool.and_eq_true, decide_eq_true_eq] at h
  simp only [processLine, h.1, ne_eq, not_true_eq_false, if_false, recordOf]
  exact forEachHeader_of_cellsOk _ _ _ _ _ h.2

theorem processLine_error_of_not_rowValid (headers : List JSString) (index : Nat)
    (line : JSString) (h : rowValid headers line = false) :
    ∃ e, processLine headers index line = .error e := by
  by_cases hlen : (split 0x2C line).length = headers.length
  · have hc : cellsOk (split 0x2C line) headers 0 = false := by
      simpa [rowValid, hlen] using h
    simp only [processLine, hlen, ne_eq, not_true_eq_false, if_false]
    exact forEachHeader_error_of_not_cellsOk _ _ _ _ _ hc
  · refine ⟨.invalidData (index + 2) headers.length (split 0x2C line).length, ?_⟩
    simp only [processLine, ne_eq, hlen, not_false_eq_true, if_true]

theorem mapLines_of_all_valid (headers : List JSString) :
    ∀ (rest : List JSString) (index : Nat), (∀ line ∈ rest, rowValid headers line = true) →
      mapLines headers index rest = .ok (rest.map (recordOf headers)) := by
  intro rest
  induction rest with
  | nil => intro index _; rfl
  | cons l ls ih =>
    intro index h
    have hl := h l (List.mem_cons_self _ _)
    have hls := ih (index + 1) (fun x hx => h x (List.mem_cons_of_mem _ hx))
    simp [mapLines, processLine_of_rowValid headers index l hl, hls]

theorem mapLines_error_at (headers : List JSString) (e : CsvError) :
    ∀ (before : List JSString) (line : JSString) (after : List JSString) (index : Nat),
      (∀ l ∈ before, rowValid headers l = true) →
      processLine headers (index + before.length) line = .error e →
      mapLines headers index (before ++ line :: after) = .error e := by
  intro before
  induction before with
  | nil =>
    intro line after index _ herr
    simp only [List.length_nil, Nat.add_zero] at herr
    simp [mapLines, herr]
  | cons l ls ih =>
    intro line after index h herr
    have hl := h l (List.mem_cons_self _ _)
    have hidx : index + (l :: ls).length = (index + 1) + ls.length := by
      simp only [List.length_cons]; omega
    rw [hidx] at herr
    have := ih line after (index + 1) (fun x hx => h x (List.mem_cons_of_mem _ hx)) herr
    simp [mapLines, processLine_of_rowValid headers index l hl, this]

theorem mapLines_error_of_invalid (headers : List JSString) :
    ∀ (rest : List JSString) (index : Nat) (line : JSString), line ∈ rest →
      rowValid headers line = false → ∃ e, mapLines headers index rest = .error e := by
  intro rest
  induction rest with
  | nil => intro index line hmem; simp at hmem
  | cons l ls ih =>
    intro index line hmem hbad
    by_cases hl : rowValid headers l = true
    · have hmem2 : line ∈ ls := by
        rcases List.mem_cons.1 hmem with rfl | h
        · rw [hl] at hbad; cases hbad
        · exact h
      obtain ⟨e, he⟩ := ih (index + 1) line hmem2 hbad
      exact ⟨e, by simp [mapLines, processLine_of_rowValid headers index l hl, he]⟩
    · have hl2 : rowValid headers l = false := by simpa using hl
      obtain ⟨e, he⟩ := processLine_error_of_not_rowValid headers index l hl2
      exact ⟨e, by simp [mapLines, he]⟩

/-! ## The header check -/

theorem validateCSVStructure_ok_iff (headers : List JSString) :
    validateCSVStructure headers = .ok true ↔ ∀ c ∈ REQUIRED_COLUMNS, c ∈ headers := by
  unfold validateCSVStructure
  by_cases h : (REQUIRED_COLUMNS.filter (fun col => !headers.contains col)).length > 0
  · simp only [h, if_true, reduceCtorEq, false_iff]
    intro hall
    obtain ⟨c, hc⟩ := List.exists_mem_of_length_pos h
    simp only [List.mem_filter, Bool.not_eq_true', List.contains_eq_any_beq, List.any_eq_false,
      beq_iff_eq] at hc
    exact hc.2 c (hall c hc.1) rfl
  · simp only [h, if_false, true_iff]
    intro c hc
    by_contra hn
    apply h
    apply List.length_pos_of_mem (a := c)
    simp only [List.mem_filter, Bool.not_eq_true', List.contains_eq_any_beq, List.any_eq_false,
      beq_iff_eq]
    exact ⟨hc, fun x hx hxc => hn (hxc ▸ hx)⟩

theorem validateCSVStructure_cases (headers : List JSString) :
    validateCSVStructure headers = .ok true ∨
      validateCSVStructure headers =
        .error (.missingColumns (REQUIRED_COLUMNS.filter (fun col => !headers.contains col))) := by
  unfold validateCSVStructure
  by_cases h : (REQUIRED_COLUMNS.filter (fun col => !headers.contains col)).length > 0
  · right; simp only [h, if_true]
  · left; simp only [h, if_false]

theorem parseCSVTry_of_header_ok (csvData first : JSString) (rest : List JSString)
    (hl : nonBlankLines csvData = first :: rest)
    (hreq : ∀ c ∈ REQUIRED_COLUMNS, c ∈ headerRow first) :
    parseCSVTry csvData = mapLines (headerRow first) 0 rest := by
  simp only [parseCSVTry, hl, (validateCSVStructure_ok_iff _).2 hreq]

theorem checkCell_error_eq (lineNo : Nat) (header value : JSString) (e : CsvError)
    (h : checkCell lineNo header value = .error e) : e = cellError lineNo header value := by
  by_cases hc : cellOk header value = true
  · rw [checkCell_of_cellOk lineNo header value hc] at h
    cases h
  · have hc2 : cellOk header value = false := by simpa using hc
    rw [checkCell_of_not_cellOk lineNo header value hc2] at h
    cases h
    rfl

theorem forEachHeader_error_eq (lineNo : Nat) (values : List JSString) (e : CsvError) :
    ∀ (headers : List JSString) (i : Nat) (t : Record),
      forEachHeader lineNo values headers i t = .error e →
      ∃ header value, e = cellError lineNo header value := by
  intro headers
  induction headers with
  | nil => intro i t h; simp [forEachHeader] at h
  | cons h hs ih =>
    intro i t herr
    by_cases hc : cellOk h (cellValue values i) = true
    · simp only [forEachHeader, checkCell_of_cellOk lineNo h _ hc] at herr
      exact ih (i + 1) _ herr
    · have hc2 : cellOk h (cellValue values i) = false := by simpa using hc
      simp only [forEachHeader, checkCell_of_not_cellOk lineNo h _ hc2] at herr
      cases herr
      exact ⟨h, _, rfl⟩

theorem cellError_ne_missingColumns (lineNo : Nat) (header value : JSString)
    (cols : List JSString) : cellError lineNo header value ≠ .missingColumns cols := by
  unfold cellError
  split <;> simp

theorem processLine_error_ne_missingColumns (headers : List JSString) (index : Nat)
    (line : JSString) (cols : List JSString) :
    processLine headers index line ≠ .error (.missingColumns cols) := by
  intro h
  unfold processLine at h
  by_cases hlen : (split 0x2C line).length = headers.length
  · simp only [hlen, ne_eq, not_true_eq_false, if_false] at h
    obtain ⟨hd, v, he⟩ := forEachHeader_error_eq _ _ _ _ _ _ h
    exact cellError_ne_missingColumns _ _ _ _ he.symm
  · simp [hlen] at h

theorem mapLines_error_ne_missingColumns (headers : List JSString) (cols : List JSString) :
    ∀ (rest : List JSString) (index : Nat),
      mapLines headers index rest ≠ .error (.missingColumns cols) := by
  intro rest
  induction rest with
  | nil => intro index h; simp [mapLines] at h
  | cons l ls ih =>
    intro index h
    unfold mapLines at h
    cases hp : processLine headers index l with
    | error e =>
      rw [hp] at h
      simp only [Except.error.injEq] at h
      exact processLine_error_ne_missingColumns headers index l cols (h ▸ hp)
    | ok t =>
      rw [hp] at h
      cases hm : mapLines headers (index + 1) ls with
      | error e =>
        rw [hm] at h
        simp only [Except.error.injEq] at h
        exact ih (index + 1) (h ▸ hm)
      | ok ts =>
        rw [hm] at h
        simp at h

theorem parseCSVTry_error_of_invalid_row (csvData first : JSString) (rest : List JSString)
    (line : JSString) (hl : nonBlankLines csvData = first :: rest) (hmem : line ∈ rest)
    (hbad : rowValid (headerRow first) line = false) :
    ∃ e, parseCSVTry csvData = .error e := by
  rcases validateCSVStructure_cases (headerRow first) with hv | hv
  · obtain ⟨e, he⟩ := mapLines_error_of_invalid (headerRow first) rest 0 line hmem hbad
    exact ⟨e, by simp only [parseCSVTry, hl, hv, he]⟩
  · have he : parseCSVTry csvData = .error (.missingColumns
        (REQUIRED_COLUMNS.filter (fun col => !(headerRow first).contains col))) := by
      simp only [parseCSVTry, hl, hv]
    exact ⟨_, he⟩

theorem onload_of_parse_error (pg : ActionsPage) (csvData message : JSString)
    (h : parseCSV csvData = .error message) : onload pg csvData = showError pg message := by
  simp only [onload, h]

theorem lang_dayRegex_iff (u : JSString) :
    Re.Lang dayRegex u ↔ ∃ d, 1 ≤ d ∧ d ≤ 31 ∧ u = twoDigits d := by
  simp only [dayRegex, Re.lang_alt_iff, Re.lang_seq_iff, Re.lang_chr_iff, Re.lang_range_iff,
    Re.lang_digit_iff]
  have h0 : ('0' : Char).toNat = 48 := rfl
  have h1 : ('1' : Char).toNat = 49 := rfl
  have h2 : ('2' : Char).toNat = 50 := rfl
  have h3 : ('3' : Char).toNat = 51 := rfl
  have h9 : ('9' : Char).toNat = 57 := rfl
  simp only [h0, h1, h2, h3, h9]
  constructor
  · rintro (⟨_, _, rfl, rfl, x, rfl, hx1, hx2⟩ | ⟨_, _, rfl, ⟨w, rfl, hw1, hw2⟩, x, rfl, hx1, hx2⟩ |
      ⟨_, _, rfl, rfl, x, rfl, hx1, hx2⟩)
    · refine ⟨x - 48, by omega, by omega, ?_⟩
      simp only [twoDigits, List.singleton_append, List.cons.injEq, and_true]
      constructor <;> omega
    · refine ⟨(w - 48) * 10 + (x - 48), by omega, by omega, ?_⟩
      simp only [twoDigits, List.singleton_append, List.cons.injEq, and_true]
      constructor <;> omega
    · refine ⟨x - 48 + 30, by omega, by omega, ?_⟩
      simp only [twoDigits, List.singleton_append, List.cons.injEq, and_true]
      constructor <;> omega
  · rintro ⟨d, hd1, hd2, rfl⟩
    by_cases h : d < 10
    · left
      refine ⟨[48], [48 + d % 10], ?_, rfl, 48 + d % 10, rfl, by omega, by omega⟩
      simp only [twoDigits, List.singleton_append, List.cons.injEq, and_true]
      omega
    · by_cases h30 : d < 30
      · right; left
        refine ⟨[48 + d / 10], [48 + d % 10], rfl, ⟨48 + d / 10, rfl, by omega, by omega⟩,
          48 + d % 10, rfl, by omega, by omega⟩
      · right; right
        refine ⟨[51], [48 + d % 10], ?_, rfl, 48 + d % 10, rfl, by omega, by omega⟩
        simp only [twoDigits, List.singleton_append, List.cons.injEq, and_true]
        omega

theorem lang_two_digits_iff (u : JSString) :
    Re.Lang twoDigitRegex u ↔ ∃ y, y ≤ 99 ∧ u = twoDigits y := by
  simp only [twoDigitRegex, Re.lang_seq_iff, Re.lang_digit_iff]
  constructor
  · rintro ⟨_, _, rfl, ⟨a, rfl, ha1, ha2⟩, b, rfl, hb1, hb2⟩
    refine ⟨(a - 48) * 10 + (b - 48), by omega, ?_⟩
    simp only [twoDigits, List.singleton_append, List.cons.injEq, and_true]
    constructor <;> omega
  · rintro ⟨y, hy, rfl⟩
    exact ⟨[48 + y / 10], [48 + y % 10], rfl, ⟨_, rfl, by omega, by omega⟩,
      _, rfl, by omega, by omega⟩

theorem lang_four_digits_iff (u : JSString) :
    Re.Lang fourDigitRegex u ↔
      ∃ y, y ≤ 9999 ∧ u = fourDigits y := by
  simp only [fourDigitRegex, Re.lang_seq_iff, Re.lang_digit_iff]
  constructor
  · rintro ⟨_, _, rfl, ⟨a, rfl, ha1, ha2⟩, _, _, rfl, ⟨b, rfl, hb1, hb2⟩, _, _, rfl,
      ⟨c, rfl, hc1, hc2⟩, d, rfl, hd1, hd2⟩
    refine ⟨(a - 48) * 1000 + (b - 48) * 100 + (c - 48) * 10 + (d - 48), by omega, ?_⟩
    simp only [fourDigits, List.singleton_append, List.cons.injEq, and_true]
    refine ⟨?_, ?_, ?_, ?_⟩ <;> omega
  · rintro ⟨y, hy, rfl⟩
    exact ⟨[48 + y / 1000], [48 + y / 100 % 10, 48 + y / 10 % 10, 48 + y % 10], rfl,
      ⟨_, rfl, by omega, by omega⟩,
      [48 + y / 100 % 10], [48 + y / 10 % 10, 48 + y % 10], rfl, ⟨_, rfl, by omega, by omega⟩,
      [48 + y / 10 % 10], [48 + y % 10], rfl, ⟨_, rfl, by omega, by omega⟩,
      _, rfl, by omega, by omega⟩

/-- A date is accepted exactly when it is a two-digit month 01..12, `/`, a two-digit day
01..31, `/` and four digits. -/
theorem isValidDate_iff (s : JSString) :
    isValidDate s = true ↔
      ∃ m d y, 1 ≤ m ∧ m ≤ 12 ∧ 1 ≤ d ∧ d ≤ 31 ∧ y ≤ 9999 ∧
        s = twoDigits m ++ js "/" ++ twoDigits d ++ js "/" ++ fourDigits y := by
  have hs : ('/' : Char).toNat = 47 := rfl
  have hj : js "/" = [47] := by decide
  simp only [isValidDate, Re.testAnchored, Re.fullMatch_iff, dateRegex, Re.lang_seq_iff,
    lang_monthRegex_iff, lang_dayRegex_iff, lang_four_digits_iff, Re.lang_chr_iff, hs, hj]
  constructor
  · rintro ⟨_, _, rfl, ⟨m, hm1, hm2, rfl⟩, _, _, rfl, rfl, _, _, rfl, ⟨d, hd1, hd2, rfl⟩,
      _, _, rfl, rfl, y, hy, rfl⟩
    exact ⟨m, d, y, hm1, hm2, hd1, hd2, hy, by simp⟩
  · rintro ⟨m, d, y, hm1, hm2, hd1, hd2, hy, rfl⟩
    exact ⟨_, _, by simp, ⟨m, hm1, hm2, rfl⟩, _, _, rfl, rfl, _, _, rfl, ⟨d, hd1, hd2, rfl⟩,
      _, _, rfl, rfl, y, hy, rfl⟩

/-! ## Failing checks and line numbers -/

/-- The first check that fails decides the error: the lines before are valid, the line has
the right number of cells, the cells before the column pass, the cell of the column does
not. -/
theorem parseCSVTry_first_failing_cell (csvData first : JSString)
    (before : List JSString) (line : JSString) (after : List JSString)
    (colsBefore : List JSString) (header : JSString) (colsAfter : List JSString)
    (hl : nonBlankLines csvData = first :: (before ++ line :: after))
    (hreq : ∀ c ∈ REQUIRED_COLUMNS, c ∈ headerRow first)
    (hcols : headerRow first = colsBefore ++ header :: colsAfter)
    (hbefore : ∀ l ∈ before, rowValid (headerRow first) l = true)
    (harity : (split 0x2C line).length = (headerRow first).length)
    (hcells : cellsOk (split 0x2C line) colsBefore 0 = true)
    (hbad : cellOk header (cellValue (split 0x2C line) colsBefore.length) = false) :
    parseCSVTry csvData = .error (cellError (before.length + 2) header
      (cellValue (split 0x2C line) colsBefore.length)) := by
  rw [parseCSVTry_of_header_ok csvData first _ hl hreq]
  apply mapLines_error_at _ _ before line after 0 hbefore
  simp only [processLine, harity, ne_eq, not_true_eq_false, if_false, Nat.zero_add]
  rw [hcols]
  have h := forEachHeader_error_at (before.length + 2) (split 0x2C line) colsBefore header
    colsAfter 0 [] hcells (by simpa using hbad)
  simpa using h

theorem filter_take_of_all {α : Type} (p : α → Bool) :
    ∀ (l : List α) (k : Nat), (∀ x ∈ l.take k, p x = true) →
      (l.filter p).take k = l.take k := by
  intro l
  induction l with
  | nil => intro k _; simp
  | cons a as ih =>
    intro k h
    cases k with
    | zero => simp
    | succ k =>
      have ha : p a = true := h a (by simp)
      have hrest : ∀ x ∈ as.take k, p x = true := fun x hx => h x (by simp [hx])
      simp [List.filter_cons, ha, ih k hrest]

theorem getElem?_append_length {α : Type} (a : α) (l2 : List α) :
    ∀ l1 : List α, (l1 ++ a :: l2)[l1.length]? = some a := by
  intro l1
  induction l1 with
  | nil => simp
  | cons x xs ih => simpa using ih

/-- When none of the first `before.length + 2` lines of the text is blank, the data line
that follows `before` is line `before.length + 2` of the text, counted from 1. -/
theorem source_line_of_no_blank (csvData first : JSString)
    (before : List JSString) (line : JSString) (after : List JSString)
    (hl : nonBlankLines csvData = first :: (before ++ line :: after))
    (hnb : ∀ l ∈ (split 0x0A csvData).take (before.length + 2), trim l ≠ []) :
    (split 0x0A csvData)[before.length + 1]? = some line := by
  have h := filter_take_of_all (fun l : JSString => trim l != []) (split 0x0A csvData)
    (before.length + 2) (by simpa using hnb)
  have hlt : before.length + 1 < before.length + 2 := by omega
  have h2 : ((split 0x0A csvData).take (before.length + 2))[before.length + 1]? = some line := by
    rw [← h]
    change ((nonBlankLines csvData).take (before.length + 2))[before.length + 1]? = some line
    rw [hl, List.getElem?_take_of_lt hlt, List.getElem?_cons_succ]
    exact getElem?_append_length line after before
  rw [List.getElem?_take_of_lt hlt] at h2
  exact h2

/-! ## Records -/

theorem lookup_cons_self (key value : JSString) (t : Record) :
    List.lookup key ((key, value) :: t) = some value := by
  simp [List.lookup]

theorem lookup_cons_of_ne (other key value : JSString) (t : Record) (h : other ≠ key) :
    List.lookup other ((key, value) :: t) = List.lookup other t := by
  have hne : (other == key) = false := by simpa using h
  simp [List.lookup, hne]

theorem lookup_map_self (key value : JSString) :
    ∀ t : Record, t.any (fun kv => kv.1 == key) = true →
      List.lookup key (t.map (fun kv => if kv.1 = key then (key, value) else kv)) =
        some value := by
  intro t
  induction t with
  | nil => intro h; simp at h
  | cons kv rest ih =>
    intro h
    obtain ⟨k, v⟩ := kv
    by_cases hkk : k = key
    · rw [List.map_cons, if_pos hkk, lookup_cons_self]
    · rw [List.map_cons, if_neg hkk, lookup_cons_of_ne _ _ _ _ (fun e => hkk e.symm)]
      apply ih
      simpa [hkk] using h

theorem lookup_append_self (key value : JSString) :
    ∀ t : Record, t.any (fun kv => kv.1 == key) = false →
      List.lookup key (t ++ [(key, value)]) = some value := by
  intro t
  induction t with
  | nil => intro _; exact lookup_cons_self key value []
  | cons kv rest ih =>
    intro h
    obtain ⟨k, v⟩ := kv
    simp only [List.any_cons, Bool.or_eq_false_iff, beq_eq_false_iff_ne, ne_eq] at h
    rw [List.cons_append, lookup_cons_of_ne _ _ _ _ (fun e => h.1 e.symm)]
    exact ih h.2

theorem lookup_map_other (other key value : JSString) (h : other ≠ key) :
    ∀ t : Record,
      List.lookup other (t.map (fun kv => if kv.1 = key then (key, value) else kv)) =
        List.lookup other t := by
  intro t
  induction t with
  | nil => rfl
  | cons kv rest ih =>
    obtain ⟨k, v⟩ := kv
    by_cases hkk : k = key
    · subst hkk
      rw [List.map_cons, if_pos rfl, lookup_cons_of_ne _ _ _ _ h, lookup_cons_of_ne _ _ _ _ h, ih]
    · rw [List.map_cons, if_neg hkk]
      by_cases hok : other = k
      · subst hok
        rw [lookup_cons_self, lookup_cons_self]
      · rw [lookup_cons_of_ne _ _ _ _ hok, lookup_cons_of_ne _ _ _ _ hok, ih]

theorem lookup_append_other (other key value : JSString) (h : other ≠ key) :
    ∀ t : Record, List.lookup other (t ++ [(key, value)]) = List.lookup other t := by
  intro t
  induction t with
  | nil => exact lookup_cons_of_ne other key value [] h
  | cons kv rest ih =>
    obtain ⟨k, v⟩ := kv
    rw [List.cons_append]
    by_cases hok : other = k
    · subst hok
      rw [lookup_cons_self, lookup_cons_self]
    · rw [lookup_cons_of_ne _ _ _ _ hok, lookup_cons_of_ne _ _ _ _ hok, ih]

theorem Record.get_set_self (t : Record) (key value : JSString) (hk : key ≠ js "__proto__") :
    (t.set key value).get key = some value := by
  unfold Record.set Record.get
  rw [if_neg hk]
  by_cases hany : t.any (fun kv => kv.1 == key) = true
  · rw [if_pos hany]
    exact lookup_map_self key value t hany
  · rw [if_neg hany]
    exact lookup_append_self key value t (Bool.eq_false_iff.2 hany)

theorem Record.get_set_other (t : Record) (key value other : JSString) (h : other ≠ key) :
    (t.set key value).get other = t.get other := by
  unfold Record.set Record.get
  by_cases hk : key = js "__proto__"
  · rw [if_pos hk]
  · rw [if_neg hk]
    split
    · exact lookup_map_other other key value h t
    · exact lookup_append_other other key value h t

theorem assignAll_get_of_not_mem (values : List JSString) (key : JSString) :
    ∀ (headers : List JSString) (i : Nat) (t : Record), key ∉ headers →
      (assignAll values headers i t).get key = t.get key := by
  intro headers
  induction headers with
  | nil => intro i t _; rfl
  | cons h hs ih =>
    intro i t hmem
    simp only [List.mem_cons, not_or] at hmem
    simp only [assignAll]
    rw [ih (i + 1) _ hmem.2, Record.get_set_other _ _ _ _ hmem.1]

/-- After the loop a header other than `__proto__` is mapped to the stored value of the
cell in the last column that bears it. -/
theorem assignAll_get_last (values : List JSString) (key : JSString)
    (hk : key ≠ js "__proto__") :
    ∀ (colsBefore colsAfter : List JSString) (i : Nat) (t : Record), key ∉ colsAfter →
      (assignAll values (colsBefore ++ key :: colsAfter) i t).get key =
        some (storedValue key (cellValue values (i + colsBefore.length))) := by
  intro colsBefore
  induction colsBefore with
  | nil =>
    intro colsAfter i t hmem
    simp only [List.nil_append, assignAll, List.length_nil, Nat.add_zero]
    rw [assignAll_get_of_not_mem values key colsAfter (i + 1) _ hmem,
      Record.get_set_self _ _ _ hk]
  | cons h hs ih =>
    intro colsAfter i t hmem
    show (assignAll values (h :: (hs ++ key :: colsAfter)) i t).get key = _
    rw [assignAll, ih colsAfter (i + 1) _ hmem, List.length_cons]
    congr 3
    omega

theorem mapLines_ok_inv (headers : List JSString) :
    ∀ (rest : List JSString) (index : Nat) (transactions : List Record),
      mapLines headers index rest = .ok transactions →
      (∀ line ∈ rest, rowValid headers line = true) ∧
        transactions = rest.map (recordOf headers) := by
  intro rest index transactions h
  have hall : ∀ line ∈ rest, rowValid headers line = true := by
    intro line hmem
    by_contra hn
    have hn2 : rowValid headers line = false := by simpa using hn
    obtain ⟨e, he⟩ := mapLines_error_of_invalid headers rest index line hmem hn2
    rw [he] at h
    cases h
  refine ⟨hall, ?_⟩
  rw [mapLines_of_all_valid headers rest index hall] at h
  cases h
  rfl

theorem parseCSVTry_ok_inv (csvData first : JSString) (rest : List JSString)
    (transactions : List Record) (hl : nonBlankLines csvData = first :: rest)
    (h : parseCSVTry csvData = .ok transactions) :
    (∀ line ∈ rest, rowValid (headerRow first) line = true) ∧
      transactions = rest.map (recordOf (headerRow first)) := by
  rcases validateCSVStructure_cases (headerRow first) with hv | hv
  · simp only [parseCSVTry, hl, hv] at h
    exact mapLines_ok_inv _ _ _ _ h
  · simp only [parseCSVTry, hl, hv] at h
    cases h

theorem parseCSV_ok_iff (csvData : JSString) (transactions : List Record) :
    parseCSV csvData = .ok transactions ↔ parseCSVTry csvData = .ok transactions := by
  unfold parseCSV
  cases parseCSVTry csvData with
  | error e => simp
  | ok t => simp

theorem parseCSV_of_error (csvData : JSString) (e : CsvError)
    (h : parseCSVTry csvData = .error e) :
    parseCSV csvData = .error (js "Error parsing CSV: " ++ e.message) := by
  simp only [parseCSV, h]

/-! ## Claims on the CSV import -/

/-- C1: for every CSV text whose header row has the four required headers and whose data
rows are all valid, `parseCSV` returns exactly one record for each non-blank line after the
header, in the order of the lines: the list of the records of these lines. -/
theorem parseCSV_one_record_per_line (csvData first : JSString) (rest : List JSString)
    (hl : nonBlankLines csvData = first :: rest)
    (hreq : ∀ c ∈ REQUIRED_COLUMNS, c ∈ headerRow first)
    (hrows : ∀ line ∈ rest, rowValid (headerRow first) line = true) :
    ∃ transactions, parseCSV csvData = .ok transactions ∧
      transactions.length = rest.length ∧
      ∀ i line, rest[i]? = some line →
        ∃ t, transactions[i]? = some t ∧ processLine (headerRow first) i line = .ok t := by
  refine ⟨rest.map (recordOf (headerRow first)), ?_, by simp, ?_⟩
  · simp only [parseCSV, parseCSVTry_of_header_ok csvData first rest hl hreq,
      mapLines_of_all_valid (headerRow first) rest 0 hrows]
  · intro i line hi
    refine ⟨recordOf (headerRow first) line, by simp [hi], ?_⟩
    exact processLine_of_rowValid _ _ _ (hrows line (List.getElem?_mem hi))

theorem parseCSV_one_record_per_line_witness :
    ∃ transactions,
      parseCSV (js "Date,Business Name,Category,Amount\n01/15/2024,Shop,Food,₪100\n\n02/01/2024,Cafe,Drinks,50\n")
        = .ok transactions ∧ transactions.length = 2 := by
  obtain ⟨transactions, h1, h2, _⟩ := parseCSV_one_record_per_line
    (js "Date,Business Name,Category,Amount\n01/15/2024,Shop,Food,₪100\n\n02/01/2024,Cafe,Drinks,50\n")
    (js "Date,Business Name,Category,Amount")
    [js "01/15/2024,Shop,Food,₪100", js "02/01/2024,Cafe,Drinks,50"]
    (by decide) (by decide) (by decide)
  exact ⟨transactions, h1, h2⟩

/-- C2: for every CSV text with at least one non-blank line, `parseCSV` fails on the header
check exactly when one of the four required columns is absent from the trimmed, comma-split
header row; the columns named by the error are then the required columns that are absent,
and only those. The header `Date,Category,Amount` gives an error naming `Business Name`
alone. -/
theorem parseCSV_missing_columns (csvData first : JSString) (rest : List JSString)
    (hl : nonBlankLines csvData = first :: rest) :
    ((∃ cols, parseCSVTry csvData = .error (.missingColumns cols)) ↔
      ∃ c ∈ REQUIRED_COLUMNS, c ∉ headerRow first) ∧
    (∀ cols, parseCSVTry csvData = .error (.missingColumns cols) →
      (∀ c, c ∈ cols ↔ c ∈ REQUIRED_COLUMNS ∧ c ∉ headerRow first) ∧
      parseCSV csvData =
        .error (js "Error parsing CSV: Missing required columns: " ++ join (js ", ") cols)) ∧
    parseCSV (js "Date,Category,Amount") =
      .error (js "Error parsing CSV: Missing required columns: Business Name") := by
  have hmem : ∀ c, c ∈ REQUIRED_COLUMNS.filter (fun col => !(headerRow first).contains col) ↔
      c ∈ REQUIRED_COLUMNS ∧ c ∉ headerRow first := by
    intro c
    simp only [List.mem_filter, Bool.not_eq_true', List.contains_eq_any_beq, List.any_eq_false,
      beq_iff_eq]
    constructor
    · rintro ⟨h1, h2⟩
      exact ⟨h1, fun hc => h2 c hc rfl⟩
    · rintro ⟨h1, h2⟩
      exact ⟨h1, fun x hx hxc => h2 (hxc ▸ hx)⟩
  refine ⟨?_, ?_, by decide⟩
  · constructor
    · rintro ⟨cols, hc⟩
      by_contra hn
      have hall : ∀ c ∈ REQUIRED_COLUMNS, c ∈ headerRow first := by
        intro c hc1
        by_contra hc2
        exact hn ⟨c, hc1, hc2⟩
      rw [parseCSVTry_of_header_ok csvData first rest hl hall] at hc
      exact mapLines_error_ne_missingColumns _ _ _ _ hc
    · rintro ⟨c, hc1, hc2⟩
      rcases validateCSVStructure_cases (headerRow first) with hv | hv
      · exact absurd ((validateCSVStructure_ok_iff _).1 hv c hc1) hc2
      · have he : parseCSVTry csvData = .error (.missingColumns
            (REQUIRED_COLUMNS.filter (fun col => !(headerRow first).contains col))) := by
          simp only [parseCSVTry, hl, hv]
        exact ⟨_, he⟩
  · intro cols hc
    rcases validateCSVStructure_cases (headerRow first) with hv | hv
    · simp only [parseCSVTry, hl, hv] at hc
      exact absurd hc (mapLines_error_ne_missingColumns _ _ _ _)
    · have hc2 := hc
      simp only [parseCSVTry, hl, hv, Except.error.injEq, CsvError.missingColumns.injEq] at hc2
      subst hc2
      refine ⟨hmem, ?_⟩
      simp only [parseCSV, hc, CsvError.message, List.append_assoc]
      rfl

theorem parseCSV_missing_columns_witness :
    (∃ cols, parseCSVTry (js "Date, Amount ,Category\n01/15/2024,5,Food")
        = .error (.missingColumns cols)) ↔
      ∃ c ∈ REQUIRED_COLUMNS, c ∉ headerRow (js "Date, Amount ,Category") :=
  (parseCSV_missing_columns (js "Date, Amount ,Category\n01/15/2024,5,Food")
    (js "Date, Amount ,Category") [js "01/15/2024,5,Food"] (by decide)).1

/-- C3: the import is all or nothing on failure. For every CSV text and every state of the
page and the store, when some data line is invalid (wrong number of cells, invalid amount
or invalid date) `parseCSV` throws and returns no record, and the import handler only shows
the message: the stored user list, the stored current user, the user object in memory and
the table are what they were. -/
theorem import_failure_persists_nothing (pg : ActionsPage) (csvData first : JSString)
    (rest : List JSString) (line : JSString)
    (hl : nonBlankLines csvData = first :: rest) (hmem : line ∈ rest)
    (hbad : rowValid (headerRow first) line = false) :
    ∃ message, parseCSV csvData = .error message ∧
      onload pg csvData = showError pg message ∧
      (onload pg csvData).storage = pg.storage ∧
      (onload pg csvData).currentUser = pg.currentUser ∧
      (onload pg csvData).table = pg.table := by
  obtain ⟨e, he⟩ := parseCSVTry_error_of_invalid_row csvData first rest line hl hmem hbad
  have hp : parseCSV csvData = .error (js "Error parsing CSV: " ++ e.message) := by
    simp only [parseCSV, he]
  have ho := onload_of_parse_error pg csvData _ hp
  exact ⟨_, hp, ho, by rw [ho]; rfl, by rw [ho]; rfl, by rw [ho]; rfl⟩

theorem import_failure_persists_nothing_witness :
    (onload examplePage (js "Date,Business Name,Category,Amount\n01/15/2024,Shop,Food,abc")).storage
      = examplePage.storage := by
  obtain ⟨_, _, _, h, _⟩ := import_failure_persists_nothing examplePage
    (js "Date,Business Name,Category,Amount\n01/15/2024,Shop,Food,abc")
    (js "Date,Business Name,Category,Amount") [js "01/15/2024,Shop,Food,abc"]
    (js "01/15/2024,Shop,Food,abc") (by decide) (by decide) (by decide)
  exact h

/-- C4 at a text with a blank line: the line with three cells is the third line of the
text, and the error reports line 2. -/
theorem parseCSV_line_number_after_blank_line :
    (split 0x0A (js "Date,Business Name,Category,Amount\n\n01/15/2024,Shop,Food"))[2]?
      = some (js "01/15/2024,Shop,Food") ∧
    parseCSV (js "Date,Business Name,Category,Amount\n\n01/15/2024,Shop,Food") =
      .error (js "Error parsing CSV: Invalid data in line 2: expected 4 values but got 3") := by
  decide

theorem cellValue_of_getElem? (values : List JSString) (i : Nat) (cell : JSString)
    (h : values[i]? = some cell) : cellValue values i = trim cell := by
  simp only [cellValue, List.get?_eq_getElem?, h]

theorem cellError_message_amount (n : Nat) (value : JSString) :
    js "Error parsing CSV: " ++ (cellError n (js "Amount") value).message =
      js "Error parsing CSV: Invalid amount in line " ++ showNat n ++ js ": " ++
        removeFirst 0x20AA value := by
  have h : js "Error parsing CSV: Invalid amount in line " =
      js "Error parsing CSV: " ++ js "Invalid amount in line " := by decide
  simp only [cellError, if_true, CsvError.message, h, List.append_assoc]

theorem cellError_message_date (n : Nat) (value : JSString) :
    js "Error parsing CSV: " ++ (cellError n (js "Date") value).message =
      js "Error parsing CSV: Invalid date in line " ++ showNat n ++ js ": " ++ value := by
  have h : js "Error parsing CSV: Invalid date in line " =
      js "Error parsing CSV: " ++ js "Invalid date in line " := by decide
  have hne : js "Date" ≠ js "Amount" := by decide
  simp only [cellError, if_neg hne, CsvError.message, h, List.append_assoc]

/-- C5 fails as stated. The error cites the value after trimming and removal of `₪`
(`abc`), not the raw cell (` ₪abc `); and a row whose amount does not parse fails with an
invalid-date error when its `Date` column comes first and is invalid too. -/
theorem amount_error_not_raw_cell :
    (split 0x2C (js "01/15/2024,Shop,Food, ₪abc "))[3]? = some (js " ₪abc ") ∧
    parseCSV (js "Date,Business Name,Category,Amount\n01/15/2024,Shop,Food, ₪abc ") =
      .error (js "Error parsing CSV: Invalid amount in line 2: abc") ∧
    parseFloatIsNaN (removeFirst 0x20AA (trim (js "abc"))) = true ∧
    parseCSV (js "Date,Business Name,Category,Amount\n13/45/2024,Shop,Food,abc") =
      .error (js "Error parsing CSV: Invalid date in line 2: 13/45/2024") := by
  decide

/-- C5 (amended): in a CSV with a valid header, the check of a row's `Amount` cell passes
exactly when the cell, trimmed and with the first `₪` removed, parses as a number (the
value stored is that cleaned string). Otherwise, when no earlier check fails (the lines
before are valid, the row has as many cells as the header, the cells in the columns before
pass), `parseCSV` fails with an invalid-amount error that cites the cleaned value, and that
cites the line number of the row when no blank line comes before it in the text. -/
theorem amount_check (csvData first : JSString)
    (before : List JSString) (line : JSString) (after : List JSString)
    (colsBefore colsAfter : List JSString) (cell : JSString)
    (hl : nonBlankLines csvData = first :: (before ++ line :: after))
    (hreq : ∀ c ∈ REQUIRED_COLUMNS, c ∈ headerRow first)
    (hcols : headerRow first = colsBefore ++ js "Amount" :: colsAfter)
    (hbefore : ∀ l ∈ before, rowValid (headerRow first) l = true)
    (harity : (split 0x2C line).length = (headerRow first).length)
    (hcells : cellsOk (split 0x2C line) colsBefore 0 = true)
    (hcell : (split 0x2C line)[colsBefore.length]? = some cell) :
    (∀ n, checkCell n (js "Amount") (trim cell) = .ok (removeFirst 0x20AA (trim cell)) ↔
      parseFloatIsNaN (removeFirst 0x20AA (trim cell)) = false) ∧
    (parseFloatIsNaN (removeFirst 0x20AA (trim cell)) = true →
      ∃ n, parseCSVTry csvData = .error (.invalidAmount n (removeFirst 0x20AA (trim cell))) ∧
        parseCSV csvData = .error (js "Error parsing CSV: Invalid amount in line " ++
          showNat n ++ js ": " ++ removeFirst 0x20AA (trim cell)) ∧
        ((∀ l ∈ (split 0x0A csvData).take (before.length + 2), trim l ≠ []) →
          n = before.length + 2 ∧ (split 0x0A csvData)[before.length + 1]? = some line)) := by
  have hcv := cellValue_of_getElem? _ _ _ hcell
  constructor
  · intro n
    cases hp : parseFloatIsNaN (removeFirst 0x20AA (trim cell)) <;> simp [checkCell, hp]
  · intro hnan
    have hbad : cellOk (js "Amount") (cellValue (split 0x2C line) colsBefore.length) = false := by
      simp [cellOk, hcv, hnan]
    have he := parseCSVTry_first_failing_cell csvData first before line after colsBefore
      (js "Amount") colsAfter hl hreq hcols hbefore harity hcells hbad
    rw [hcv] at he
    refine ⟨before.length + 2, ?_, ?_, fun hnb => ⟨rfl, ?_⟩⟩
    · simpa [cellError] using he
    · rw [parseCSV_of_error csvData _ he, cellError_message_amount]
    · exact source_line_of_no_blank csvData first before line after hl hnb

theorem amount_check_witness :
    ∃ n, parseCSVTry
        (js "Date,Business Name,Category,Amount\n01/15/2024,Shop,Food,₪12\n02/01/2024,Cafe,Food, ₪abc ")
      = .error (.invalidAmount n (removeFirst 0x20AA (trim (js " ₪abc ")))) := by
  obtain ⟨n, h, _⟩ := (amount_check
    (js "Date,Business Name,Category,Amount\n01/15/2024,Shop,Food,₪12\n02/01/2024,Cafe,Food, ₪abc ")
    (js "Date,Business Name,Category,Amount") [js "01/15/2024,Shop,Food,₪12"]
    (js "02/01/2024,Cafe,Food, ₪abc ") [] [js "Date", js "Business Name", js "Category"] []
    (js " ₪abc ") (by decide) (by decide) (by decide) (by decide) (by decide) (by decide)
    (by decide)).2 (by decide)
  exact ⟨n, h⟩

/-- C6 fails as stated: a data row whose `Date` cell is not a valid date makes `parseCSV`
fail with an invalid-amount error when the `Amount` column comes first and is invalid too. -/
theorem invalid_date_row_other_error :
    isValidDate (trim (js "13/45/2024")) = false ∧
    parseCSV (js "Amount,Date,Business Name,Category\nabc,13/45/2024,Shop,Food") =
      .error (js "Error parsing CSV: Invalid amount in line 2: abc") := by
  decide

/-- C6 (amended): `isValidDate(s)` is true exactly when `s` is a two-digit month 01..12,
`/`, a two-digit day 01..31, `/` and a four-digit year, with no check of the days of the
month (`02/31/2024` is accepted). For a data row whose trimmed `Date` cell is not such a
date, when no earlier check fails (the lines before are valid, the row has as many cells as
the header, the cells in the columns before pass), `parseCSV` fails with an invalid-date
error that cites the trimmed value, and that cites the line number of the row when no blank
line comes before it in the text. -/
theorem date_check (csvData first : JSString)
    (before : List JSString) (line : JSString) (after : List JSString)
    (colsBefore colsAfter : List JSString) (cell : JSString)
    (hl : nonBlankLines csvData = first :: (before ++ line :: after))
    (hreq : ∀ c ∈ REQUIRED_COLUMNS, c ∈ headerRow first)
    (hcols : headerRow first = colsBefore ++ js "Date" :: colsAfter)
    (hbefore : ∀ l ∈ before, rowValid (headerRow first) l = true)
    (harity : (split 0x2C line).length = (headerRow first).length)
    (hcells : cellsOk (split 0x2C line) colsBefore 0 = true)
    (hcell : (split 0x2C line)[colsBefore.length]? = some cell)
    (hdate : isValidDate (trim cell) = false) :
    (∀ s, isValidDate s = true ↔
      ∃ m d y, 1 ≤ m ∧ m ≤ 12 ∧ 1 ≤ d ∧ d ≤ 31 ∧ y ≤ 9999 ∧
        s = twoDigits m ++ js "/" ++ twoDigits d ++ js "/" ++ fourDigits y) ∧
    isValidDate (js "02/31/2024") = true ∧
    ∃ n, parseCSVTry csvData = .error (.invalidDate n (trim cell)) ∧
      parseCSV csvData = .error (js "Error parsing CSV: Invalid date in line " ++
        showNat n ++ js ": " ++ trim cell) ∧
      ((∀ l ∈ (split 0x0A csvData).take (before.length + 2), trim l ≠ []) →
        n = before.length + 2 ∧ (split 0x0A csvData)[before.length + 1]? = some line) := by
  have hcv := cellValue_of_getElem? _ _ _ hcell
  have hne : js "Date" ≠ js "Amount" := by decide
  have hbad : cellOk (js "Date") (cellValue (split 0x2C line) colsBefore.length) = false := by
    simp only [cellOk, if_neg hne, if_true, hcv, hdate]
  have he := parseCSVTry_first_failing_cell csvData first before line after colsBefore
    (js "Date") colsAfter hl hreq hcols hbefore harity hcells hbad
  rw [hcv] at he
  refine ⟨isValidDate_iff, by decide, before.length + 2, ?_, ?_, fun hnb => ⟨rfl, ?_⟩⟩
  · simpa only [cellError, if_neg hne] using he
  · rw [parseCSV_of_error csvData _ he, cellError_message_date]
  · exact source_line_of_no_blank csvData first before line after hl hnb

theorem date_check_witness :
    ∃ n, parseCSVTry
        (js "Date,Business Name,Category,Amount\n01/15/2024,Shop,Food,₪12\n2024-02-01,Cafe,Food,7")
      = .error (.invalidDate n (trim (js "2024-02-01"))) := by
  obtain ⟨_, _, n, h, _⟩ := date_check
    (js "Date,Business Name,Category,Amount\n01/15/2024,Shop,Food,₪12\n2024-02-01,Cafe,Food,7")
    (js "Date,Business Name,Category,Amount") [js "01/15/2024,Shop,Food,₪12"]
    (js "2024-02-01,Cafe,Food,7") [] [] [js "Business Name", js "Category", js "Amount"]
    (js "2024-02-01") (by decide) (by decide) (by decide) (by decide) (by decide) (by decide)
    (by decide) (by decide)
  exact ⟨n, h⟩

/-- C7 fails as stated. With the header `Category` declared twice the record maps it to the
cell of the last such column (`Misc`), not to the cell of the first (`Food`); an amount
`5₪₪` is stored as `5₪`, only the first `₪` being removed; and a column named `__proto__`
leaves no property in the record. -/
theorem record_not_every_declared_header :
    parseCSV (js "Date,Business Name,Category,Amount,Category\n01/15/2024,Shop,Food,5,Misc") =
      .ok [[(js "Date", js "01/15/2024"), (js "Business Name", js "Shop"),
            (js "Category", js "Misc"), (js "Amount", js "5")]] ∧
    parseCSV (js "Date,Business Name,Category,Amount\n01/15/2024,Shop,Food,5₪₪") =
      .ok [[(js "Date", js "01/15/2024"), (js "Business Name", js "Shop"),
            (js "Category", js "Food"), (js "Amount", js "5₪")]] ∧
    parseCSV (js "Date,Business Name,Category,Amount,__proto__\n01/15/2024,Shop,Food,5,x") =
      .ok [[(js "Date", js "01/15/2024"), (js "Business Name", js "Shop"),
            (js "Category", js "Food"), (js "Amount", js "5")]] := by
  decide

/-- C7 (amended): for every successfully parsed CSV, every data row and every declared
header other than `__proto__` (extra, non-required ones included), the record of the row
maps the header to the trimmed text of the cell in the last column declared with that
header, except that under `Amount` the stored value is the trimmed cell with the first `₪`
removed; the value is kept as a string. -/
theorem record_maps_headers (csvData first : JSString)
    (before : List JSString) (line : JSString) (after : List JSString)
    (colsBefore : List JSString) (header : JSString) (colsAfter : List JSString)
    (transactions : List Record)
    (hl : nonBlankLines csvData = first :: (before ++ line :: after))
    (hok : parseCSV csvData = .ok transactions)
    (hcols : headerRow first = colsBefore ++ header :: colsAfter)
    (hlast : header ∉ colsAfter) (hproto : header ≠ js "__proto__") :
    ∃ t cell, transactions[before.length]? = some t ∧
      (split 0x2C line)[colsBefore.length]? = some cell ∧
      t.get header =
        some (if header = js "Amount" then removeFirst 0x20AA (trim cell) else trim cell) := by
  obtain ⟨hvalid, htx⟩ := parseCSVTry_ok_inv csvData first _ transactions hl
    ((parseCSV_ok_iff _ _).1 hok)
  have hrow := hvalid line (by simp)
  simp only [rowValid, Bool.and_eq_true, decide_eq_true_eq] at hrow
  have hlt : colsBefore.length < (split 0x2C line).length := by
    rw [hrow.1, hcols, List.length_append, List.length_cons]
    omega
  refine ⟨recordOf (headerRow first) line, (split 0x2C line)[colsBefore.length], ?_,
    List.getElem?_eq_getElem hlt, ?_⟩
  · rw [htx, List.getElem?_map, getElem?_append_length]
    rfl
  · have hcv := cellValue_of_getElem? _ _ _ (List.getElem?_eq_getElem hlt)
    have h := assignAll_get_last (split 0x2C line) header hproto colsBefore colsAfter 0 []
      hlast
    rw [Nat.zero_add, hcv, ← hcols] at h
    exact h

theorem record_maps_headers_witness :
    ∃ t cell, [recordOf (headerRow (js "Date,Business Name,Category,Amount, Note "))
          (js "01/15/2024,Shop,Food,₪5, gift ")][0]? = some t ∧
      (split 0x2C (js "01/15/2024,Shop,Food,₪5, gift "))[4]? = some cell ∧
      t.get (js "Note") = some (trim cell) :=
  record_maps_headers
    (js "Date,Business Name,Category,Amount, Note \n01/15/2024,Shop,Food,₪5, gift ")
    (js "Date,Business Name,Category,Amount, Note ") [] (js "01/15/2024,Shop,Food,₪5, gift ") []
    [js "Date", js "Business Name", js "Category", js "Amount"] (js "Note") []
    [recordOf (headerRow (js "Date,Business Name,Category,Amount, Note "))
      (js "01/15/2024,Shop,Food,₪5, gift ")]
    (by decide) (by decide) (by decide) (by decide) (by decide)

/-! ## Claims on the validators -/

theorem filter_length_one_iff {α : Type} (p : α → Bool) :
    ∀ s : List α, (s.filter p).length = 1 ↔
      ∃ a c b, s = a ++ c :: b ∧ p c = true ∧ (∀ x ∈ a, p x = false) ∧
        (∀ x ∈ b, p x = false) := by
  intro s
  induction s with
  | nil => simp
  | cons x xs ih =>
    by_cases hx : p x = true
    · simp only [List.filter_cons, hx, if_true, List.length_cons, Nat.add_eq_right,
        List.length_eq_zero, List.filter_eq_nil_iff]
      constructor
      · intro h
        exact ⟨[], x, xs, rfl, hx, by simp, fun y hy => by simpa using h y hy⟩
      · rintro ⟨a, c, b, heq, hc, ha, hb⟩
        cases a with
        | nil =>
          simp only [List.nil_append, List.cons.injEq] at heq
          obtain ⟨rfl, rfl⟩ := heq
          intro y hy
          simpa using hb y hy
        | cons a0 as =>
          simp only [List.cons_append, List.cons.injEq] at heq
          obtain ⟨rfl, rfl⟩ := heq
          have := ha x (by simp)
          rw [hx] at this
          cases this
    · have hx2 : p x = false := by simpa using hx
      simp only [List.filter_cons, hx2, Bool.false_eq_true, if_false, ih]
      constructor
      · rintro ⟨a, c, b, rfl, hc, ha, hb⟩
        refine ⟨x :: a, c, b, rfl, hc, ?_, hb⟩
        intro y hy
        rcases List.mem_cons.1 hy with rfl | hy
        · exact hx2
        · exact ha y hy
      · rintro ⟨a, c, b, heq, hc, ha, hb⟩
        cases a with
        | nil =>
          simp only [List.nil_append, List.cons.injEq] at heq
          obtain ⟨rfl, rfl⟩ := heq
          rw [hc] at hx2
          cases hx2
        | cons a0 as =>
          simp only [List.cons_append, List.cons.injEq] at heq
          obtain ⟨rfl, rfl⟩ := heq
          exact ⟨as, c, b, rfl, hc, fun y hy => ha y (by simp [hy]), hb⟩

theorem isSpecial_eq_true_iff (c : Nat) : isSpecial c = true ↔ ¬ IsAlphaNum c := by
  simp only [isSpecial, isUpper, isLower, isDigit, IsAlphaNum, Bool.not_eq_true',
    Bool.or_eq_false_iff, Bool.and_eq_false_iff, decide_eq_false_iff_not, not_or, not_and,
    not_le]
  constructor
  · rintro ⟨⟨h1, h2⟩, h3⟩
    exact ⟨fun h => by omega, fun h => by omega, fun h => by omega⟩
  · rintro ⟨h1, h2, h3⟩
    refine ⟨⟨?_, ?_⟩, ?_⟩ <;> omega

theorem isSpecial_eq_false_iff (c : Nat) : isSpecial c = false ↔ IsAlphaNum c := by
  rw [← Bool.not_eq_true, isSpecial_eq_true_iff, not_not]

/-- C8: for every string, `validatePassword` is true exactly when the string has at least
8 code units, an uppercase letter `A-Z`, a lowercase letter `a-z`, a digit, and exactly one
code unit outside `[A-Za-z0-9]`. `Abcdefg1!` is accepted; `Abcdefg1!!` and `abcdefg1!` are
rejected. -/
theorem validatePassword_iff (s : JSString) :
    (validatePassword s = true ↔
      8 ≤ s.length ∧ (∃ c ∈ s, 0x41 ≤ c ∧ c ≤ 0x5A) ∧ (∃ c ∈ s, 0x61 ≤ c ∧ c ≤ 0x7A) ∧
        (∃ c ∈ s, 0x30 ≤ c ∧ c ≤ 0x39) ∧
        ∃ a c b, s = a ++ c :: b ∧ ¬ IsAlphaNum c ∧ (∀ x ∈ a, IsAlphaNum x) ∧
          (∀ x ∈ b, IsAlphaNum x)) ∧
    validatePassword (js "Abcdefg1!") = true ∧
    validatePassword (js "Abcdefg1!!") = false ∧
    validatePassword (js "abcdefg1!") = false := by
  refine ⟨?_, by decide, by decide, by decide⟩
  simp only [validatePassword, matchAll, List.length_map, Bool.and_eq_true, decide_eq_true_eq,
    Re.digit, Re.test_cls_iff, filter_length_one_iff, isSpecial_eq_true_iff,
    isSpecial_eq_false_iff, isUpper, isLower, isDigit, ge_iff_le]
  tauto

/-- C9: for every string, `validateNumber` is true exactly when the string contains 16
digits, whatever code units other than digits surround or separate them: adding or
removing such a code unit anywhere does not change the answer. `1234 5678 9012 3456` is
accepted and `1234-5678-9012-345` is rejected. -/
theorem validateNumber_iff (s : JSString) :
    (validateNumber s = true ↔ s.countP (fun c => decide (0x30 ≤ c ∧ c ≤ 0x39)) = 16) ∧
    (∀ a b c, ¬ (0x30 ≤ c ∧ c ≤ 0x39) →
      validateNumber (a ++ c :: b) = validateNumber (a ++ b)) ∧
    validateNumber (js "1234 5678 9012 3456") = true ∧
    validateNumber (js "1234-5678-9012-345") = false := by
  have hfun : (fun c => !isNonDigit c) = (fun c => decide (0x30 ≤ c ∧ c ≤ 0x39)) := by
    funext c
    simp [isNonDigit, isDigit]
  refine ⟨?_, ?_, by decide, by decide⟩
  · simp only [validateNumber, removeAll, hfun, decide_eq_true_eq, List.countP_eq_length_filter]
  · intro a b c hc
    have hcf : decide (0x30 ≤ c ∧ c ≤ 0x39) = false := by simpa using hc
    simp only [validateNumber, removeAll, hfun, List.filter_append, List.filter_cons, hcf,
      Bool.false_eq_true, if_false]

/-! ## Expiry dates -/

theorem split_of_no_sep (sep : Nat) :
    ∀ u : JSString, (∀ c ∈ u, c ≠ sep) → split sep u = [u] := by
  intro u
  induction u with
  | nil => intro _; rfl
  | cons x xs ih =>
    intro h
    have hx : x ≠ sep := h x (by simp)
    simp only [split, if_neg hx, ih (fun c hc => h c (by simp [hc]))]

theorem split_append_sep (sep : Nat) (v : JSString) :
    ∀ u : JSString, (∀ c ∈ u, c ≠ sep) → split sep (u ++ sep :: v) = u :: split sep v := by
  intro u
  induction u with
  | nil => intro _; simp [split]
  | cons x xs ih =>
    intro h
    have hx : x ≠ sep := h x (by simp)
    show split sep (x :: (xs ++ sep :: v)) = _
    rw [split, if_neg hx, ih (fun c hc => h c (by simp [hc]))]

theorem parseInt_twoDigits : ∀ n, n < 100 → parseInt (twoDigits n) none = some (n : Int) := by
  decide

theorem twoDigits_no_slash (n : Nat) : ∀ c ∈ twoDigits n, c ≠ 0x2F := by
  intro c hc
  simp only [twoDigits, List.mem_cons, List.mem_singleton, List.not_mem_nil, or_false] at hc
  omega

theorem lang_expiryRegex_iff (s : JSString) :
    Re.Lang expiryRegex s ↔
      ∃ mm yy, 1 ≤ mm ∧ mm ≤ 12 ∧ yy ≤ 99 ∧ s = twoDigits mm ++ js "/" ++ twoDigits yy := by
  have hs : ('/' : Char).toNat = 47 := rfl
  have hj : js "/" = [47] := by decide
  simp only [expiryRegex, Re.lang_seq_iff, lang_monthRegex_iff, lang_two_digits_iff,
    Re.lang_chr_iff, hs, hj]
  constructor
  · rintro ⟨_, _, rfl, ⟨m, hm1, hm2, rfl⟩, _, _, rfl, rfl, y, hy, rfl⟩
    exact ⟨m, y, hm1, hm2, hy, by simp⟩
  · rintro ⟨m, y, hm1, hm2, hy, rfl⟩
    exact ⟨_, _, by simp, ⟨m, hm1, hm2, rfl⟩, _, _, rfl, rfl, y, hy, rfl⟩

theorem dayFromYear_succ (y : Int) : dayFromYear (y + 1) = dayFromYear y + daysInYear y := by
  unfold dayFromYear daysInYear inLeapYear
  by_cases h4 : y % 4 = 0 <;> by_cases h100 : y % 100 = 0 <;> by_cases h400 : y % 400 = 0 <;>
    simp [h4, h100, h400] <;> omega

theorem dayFromYear_eq_sum (n : Nat) :
    dayFromYear (1970 + (n : Int)) =
      ((List.range n).map (fun (k : Nat) => daysInYear (1970 + (k : Int)))).sum := by
  induction n with
  | zero => decide
  | succ n ih =>
    rw [List.range_succ, List.map_append, List.sum_append, ← ih]
    simp only [List.map_cons, List.map_nil, List.sum_cons, List.sum_nil, add_zero]
    rw [← dayFromYear_succ]
    have hc : (1970 : Int) + ((n + 1 : Nat) : Int) = 1970 + (n : Int) + 1 := by
      push_cast
      ring
    rw [hc]

theorem daysBeforeMonth_eq_sum (y : Int) (m : Nat) (h1 : 1 ≤ m) (h2 : m ≤ 12) :
    daysBeforeMonth (inLeapYear y) ((m : Int) - 1) =
      ((List.range (m - 1)).map (fun (k : Nat) => daysInMonth y (k + 1))).sum := by
  unfold daysInMonth
  generalize inLeapYear y = l
  interval_cases m <;> cases l <;> simp [daysBeforeMonth, List.range_succ]

theorem makeDay_of_month (y m : Int) (h1 : 0 ≤ m) (h2 : m ≤ 11) :
    makeDay y m = dayFromYear y + daysBeforeMonth (inLeapYear y) m := by
  have hd : m / 12 = 0 := by omega
  have hm : m % 12 = m := by omega
  simp only [makeDay, hd, hm, add_zero]

/-- The date built by `new Date(y, m - 1)` is the first instant of month `m` of year `y`. -/
theorem newDate_eq_monthStart (y m : Nat) (hy : 1970 ≤ y) (h1 : 1 ≤ m) (h2 : m ≤ 12) :
    newDate (y : Int) ((m : Int) - 1) = monthStart y m := by
  have hyy : (y : Int) = 1970 + ((y - 1970 : Nat) : Int) := by omega
  rw [newDate, makeDay_of_month _ _ (by omega) (by omega), monthStart,
    daysBeforeMonth_eq_sum _ m h1 h2, ← dayFromYear_eq_sum, ← hyy]

theorem daysBeforeMonth_bounds (l : Bool) (m : Int) (h0 : 0 ≤ m) (h1 : m ≤ 11) :
    0 ≤ daysBeforeMonth l m ∧ daysBeforeMonth l m ≤ 335 := by
  interval_cases m <;> cases l <;> decide

theorem daysBeforeMonth_mono (l : Bool) (m1 m2 : Int) (h0 : 0 ≤ m1) (h : m1 ≤ m2)
    (h2 : m2 ≤ 11) : daysBeforeMonth l m1 ≤ daysBeforeMonth l m2 := by
  have key : ∀ m : Int, 0 ≤ m → m < 11 →
      daysBeforeMonth l m ≤ daysBeforeMonth l (m + 1) := by
    intro m hm0 hm1
    interval_cases m <;> cases l <;> decide
  obtain ⟨k, rfl⟩ : ∃ k : Nat, m2 = m1 + k := ⟨(m2 - m1).toNat, by omega⟩
  induction k with
  | zero => simp
  | succ k ih =>
    have h3 := ih (by omega) (by omega)
    have h4 := key (m1 + k) (by omega) (by omega)
    have h5 : m1 + ((k + 1 : Nat) : Int) = m1 + k + 1 := by push_cast; ring
    rw [h5]
    exact le_trans h3 h4

theorem dayFromYear_lt (y1 y2 : Int) (h : y1 < y2) : dayFromYear y1 + 365 ≤ dayFromYear y2 := by
  unfold dayFromYear
  omega

/-- The start of a month does not come after the start of a later month. -/
theorem newDate_mono (y1 m1 y2 m2 : Int) (h1 : 0 ≤ m1) (h1' : m1 ≤ 11) (h2 : 0 ≤ m2)
    (h2' : m2 ≤ 11) (h : y1 < y2 ∨ (y1 = y2 ∧ m1 ≤ m2)) : newDate y1 m1 ≤ newDate y2 m2 := by
  rw [newDate, newDate, makeDay_of_month _ _ h1 h1', makeDay_of_month _ _ h2 h2']
  have hb1 := daysBeforeMonth_bounds (inLeapYear y1) m1 h1 h1'
  have hb2 := daysBeforeMonth_bounds (inLeapYear y2) m2 h2 h2'
  rcases h with h | ⟨rfl, h⟩
  · have := dayFromYear_lt y1 y2 h
    omega
  · have := daysBeforeMonth_mono (inLeapYear y1) m1 m2 h1 h h2'
    omega

theorem validateExpiryDate_of_shape (now : Int) (mm yy : Nat) (h1 : 1 ≤ mm) (h2 : mm ≤ 12)
    (hy : yy ≤ 99) :
    validateExpiryDate now (twoDigits mm ++ js "/" ++ twoDigits yy) =
      decide (now < newDate (2000 + (yy : Int)) ((mm : Int) - 1)) := by
  have hre : expiryRegex.testAnchored (twoDigits mm ++ js "/" ++ twoDigits yy) = true := by
    rw [Re.testAnchored, Re.fullMatch_iff, lang_expiryRegex_iff]
    exact ⟨mm, yy, h1, h2, hy, rfl⟩
  have hj : js "/" = [0x2F] := by decide
  have hsplit : split 0x2F (twoDigits mm ++ js "/" ++ twoDigits yy) =
      [twoDigits mm, twoDigits yy] := by
    rw [hj, List.append_assoc, List.singleton_append,
      split_append_sep _ _ _ (twoDigits_no_slash mm), split_of_no_sep _ _ (twoDigits_no_slash yy)]
  simp only [validateExpiryDate, hre, Bool.not_true, Bool.false_eq_true, if_false, hsplit,
    parseInt_twoDigits yy (by omega), parseInt_twoDigits mm (by omega), gt_iff_lt]

theorem validateExpiryDate_shape_monthStart (now : Int) (mm yy : Nat) (h1 : 1 ≤ mm)
    (h2 : mm ≤ 12) (hy : yy ≤ 99) :
    validateExpiryDate now (twoDigits mm ++ js "/" ++ twoDigits yy) =
      decide (now < monthStart (2000 + yy) mm) := by
  rw [validateExpiryDate_of_shape now mm yy h1 h2 hy,
    ← newDate_eq_monthStart (2000 + yy) mm (by omega) h1 h2]
  push_cast
  rfl

/-- C10: for every string and every current instant, `validateExpiryDate` is true exactly
when the string is `MM/YY` with `MM` in 01..12 and the first instant of month `MM` of year
`2000 + YY` is strictly after the current instant. Hence a card is rejected when its expiry
month is the month in which the current instant lies, or an earlier one. -/
theorem validateExpiryDate_iff (now : Int) (s : JSString) :
    (validateExpiryDate now s = true ↔
      ∃ mm yy, 1 ≤ mm ∧ mm ≤ 12 ∧ yy ≤ 99 ∧ s = twoDigits mm ++ js "/" ++ twoDigits yy ∧
        now < monthStart (2000 + yy) mm) ∧
    (∀ mm yy cy cm, 1 ≤ mm → mm ≤ 12 → yy ≤ 99 → 1970 ≤ cy → 1 ≤ cm → cm ≤ 12 →
      monthStart cy cm ≤ now → (2000 + yy < cy ∨ (2000 + yy = cy ∧ mm ≤ cm)) →
      validateExpiryDate now (twoDigits mm ++ js "/" ++ twoDigits yy) = false) := by
  constructor
  · constructor
    · intro h
      by_cases hre : expiryRegex.testAnchored s = true
      · rw [Re.testAnchored, Re.fullMatch_iff, lang_expiryRegex_iff] at hre
        obtain ⟨mm, yy, h1, h2, hy, rfl⟩ := hre
        rw [validateExpiryDate_shape_monthStart now mm yy h1 h2 hy] at h
        exact ⟨mm, yy, h1, h2, hy, rfl, of_decide_eq_true h⟩
      · simp [validateExpiryDate, hre] at h
    · rintro ⟨mm, yy, h1, h2, hy, rfl, hlt⟩
      rw [validateExpiryDate_shape_monthStart now mm yy h1 h2 hy]
      exact decide_eq_true hlt
  · intro mm yy cy cm h1 h2 hy hcy hc1 hc2 hnow hle
    rw [validateExpiryDate_shape_monthStart now mm yy h1 h2 hy]
    apply decide_eq_false
    have hmono : monthStart (2000 + yy) mm ≤ monthStart cy cm := by
      rw [← newDate_eq_monthStart (2000 + yy) mm (by omega) h1 h2,
        ← newDate_eq_monthStart cy cm hcy hc1 hc2]
      apply newDate_mono _ _ _ _ (by omega) (by omega) (by omega) (by omega)
      rcases hle with h | ⟨h, h'⟩
      · left; omega
      · right; constructor <;> omega
    omega

theorem validateExpiryDate_iff_witness :
    validateExpiryDate 1709251200000 (twoDigits 3 ++ js "/" ++ twoDigits 24) = false :=
  (validateExpiryDate_iff 1709251200000 []).2 3 24 2024 3 (by decide) (by decide) (by decide)
    (by decide) (by decide) (by decide) (by decide) (by decide)

/-! ## The calendar of ECMAScript -/

theorem dayFromYear_ge_of_nat (k : Nat) : 365 * (k : Int) ≤ dayFromYear (1970 + k) := by
  unfold dayFromYear
  omega

theorem dayFromYear_le_of_nat (k : Nat) : dayFromYear (1970 - k) ≤ -365 * (k : Int) := by
  unfold dayFromYear
  omega

theorem yearUp_spec (d : Int) :
    ∀ (fuel : Nat) (y : Int), dayFromYear y ≤ d → d < dayFromYear (y + fuel) →
      dayFromYear (yearUp fuel y d) ≤ d ∧ d < dayFromYear (yearUp fuel y d + 1) := by
  intro fuel
  induction fuel with
  | zero =>
    intro y h1 h2
    simp only [Nat.cast_zero, add_zero] at h2
    omega
  | succ n ih =>
    intro y h1 h2
    by_cases h : d < dayFromYear (y + 1)
    · rw [yearUp, if_pos h]
      exact ⟨h1, h⟩
    · rw [yearUp, if_neg h]
      apply ih (y + 1) (by omega)
      have : y + ((n + 1 : Nat) : Int) = y + 1 + (n : Int) := by push_cast; ring
      rw [← this]
      exact h2

theorem yearDown_spec (d : Int) :
    ∀ (fuel : Nat) (y : Int), d < dayFromYear (y + 1) → dayFromYear (y - fuel + 1) ≤ d →
      dayFromYear (yearDown fuel y d) ≤ d ∧ d < dayFromYear (yearDown fuel y d + 1) := by
  intro fuel
  induction fuel with
  | zero =>
    intro y h1 h2
    simp only [Nat.cast_zero, sub_zero] at h2
    omega
  | succ n ih =>
    intro y h1 h2
    by_cases h : dayFromYear y ≤ d
    · rw [yearDown, if_pos h]
      exact ⟨h, h1⟩
    · rw [yearDown, if_neg h]
      apply ih (y - 1)
      · simpa using not_le.1 h
      · have : y - ((n + 1 : Nat) : Int) + 1 = y - 1 - (n : Int) + 1 := by push_cast; ring
        rw [← this]
        exact h2

/-- The year found for a day number is the year in which the day lies. -/
theorem yearFromDay_spec (d : Int) :
    dayFromYear (yearFromDay d) ≤ d ∧ d < dayFromYear (yearFromDay d + 1) := by
  unfold yearFromDay
  by_cases h : 0 ≤ d
  · simp only [h, if_true]
    have h0 : dayFromYear 1970 = 0 := by decide
    apply yearUp_spec d _ 1970 (by omega)
    have := dayFromYear_ge_of_nat (d.toNat / 365 + 1)
    have h2 : ((d.toNat / 365 + 1 : Nat) : Int) = d / 365 + 1 := by
      push_cast
      rw [Int.toNat_of_nonneg h]
    rw [h2] at this ⊢
    omega
  · simp only [h, if_false]
    have h0 : dayFromYear (1969 + 1) = 0 := by decide
    apply yearDown_spec d _ 1969 (by omega)
    have := dayFromYear_le_of_nat ((-d).toNat / 365 + 1)
    have h2 : (((-d).toNat / 365 + 1 : Nat) : Int) = (-d) / 365 + 1 := by
      push_cast
      rw [Int.toNat_of_nonneg (by omega)]
    rw [h2] at this ⊢
    have h3 : (1969 : Int) - ((-d) / 365 + 1) + 1 = 1970 - ((-d) / 365 + 1) := by ring
    rw [h3]
    omega

theorem dayFromYear_mono (y1 y2 : Int) (h : y1 ≤ y2) : dayFromYear y1 ≤ dayFromYear y2 := by
  rcases lt_or_eq_of_le h with h | h
  · have := dayFromYear_lt y1 y2 h
    omega
  · rw [h]

/-- A day lies in one year only. -/
theorem yearFromDay_eq (d y : Int) (h1 : dayFromYear y ≤ d) (h2 : d < dayFromYear (y + 1)) :
    yearFromDay d = y := by
  obtain ⟨h3, h4⟩ := yearFromDay_spec d
  by_contra hne
  rcases lt_or_gt_of_ne hne with h | h
  · have := dayFromYear_mono (yearFromDay d + 1) y (by omega)
    omega
  · have := dayFromYear_mono (y + 1) (yearFromDay d) (by omega)
    omega

theorem dayInYear_of_date (y : Int) (m : Nat) (d : Int) (hm1 : 1 ≤ m) (hm2 : m ≤ 12)
    (hd1 : 1 ≤ d) (hd2 : d ≤ daysInMonth y m) :
    0 ≤ daysBeforeMonth (inLeapYear y) ((m : Int) - 1) + (d - 1) ∧
    daysBeforeMonth (inLeapYear y) ((m : Int) - 1) + (d - 1) < daysInYear y ∧
    monthFromDayWithinYear (inLeapYear y)
      (daysBeforeMonth (inLeapYear y) ((m : Int) - 1) + (d - 1)) = (m : Int) - 1 := by
  unfold daysInMonth at hd2
  unfold daysInYear
  generalize inLeapYear y = l at hd2 ⊢
  interval_cases m <;> cases l <;>
    simp [daysBeforeMonth, monthFromDayWithinYear] at hd2 ⊢ <;>
    (refine ⟨?_, ?_, ?_⟩ <;> omega)

theorem dayOfTime_add (x ms : Int) (h0 : 0 ≤ ms) (h1 : ms < msPerDay) :
    dayOfTime (x * msPerDay + ms) = x := by
  unfold dayOfTime
  unfold msPerDay at h1 ⊢
  omega

/-- Reading back a date built from a calendar date gives the calendar date. -/
theorem getters_newDate3 (y : Int) (m : Nat) (d ms : Int) (hm1 : 1 ≤ m) (hm2 : m ≤ 12)
    (hd1 : 1 ≤ d) (hd2 : d ≤ daysInMonth y m) (h0 : 0 ≤ ms) (h1 : ms < msPerDay) :
    yearFromTime (newDate3 y ((m : Int) - 1) d + ms) = y ∧
    monthFromTime (newDate3 y ((m : Int) - 1) d + ms) = (m : Int) - 1 ∧
    dateFromTime (newDate3 y ((m : Int) - 1) d + ms) = d := by
  obtain ⟨hx0, hx1, hx2⟩ := dayInYear_of_date y m d hm1 hm2 hd1 hd2
  have hday : dayOfTime (newDate3 y ((m : Int) - 1) d + ms) =
      dayFromYear y + (daysBeforeMonth (inLeapYear y) ((m : Int) - 1) + (d - 1)) := by
    rw [newDate3, dayOfTime_add _ _ h0 h1, makeDay_of_month _ _ (by omega) (by omega)]
    ring
  have hyear : yearFromTime (newDate3 y ((m : Int) - 1) d + ms) = y := by
    rw [yearFromTime, hday]
    apply yearFromDay_eq
    · omega
    · rw [dayFromYear_succ]
      omega
  have hdwy : dayWithinYear (newDate3 y ((m : Int) - 1) d + ms) =
      daysBeforeMonth (inLeapYear y) ((m : Int) - 1) + (d - 1) := by
    rw [dayWithinYear, hyear, hday]
    ring
  have hmonth : monthFromTime (newDate3 y ((m : Int) - 1) d + ms) = (m : Int) - 1 := by
    rw [monthFromTime, hyear, hdwy, hx2]
  refine ⟨hyear, hmonth, ?_⟩
  rw [dateFromTime, hyear, hmonth, hdwy]
  ring

theorem monthTable_cases (l : Bool) (x : Int) :
    let c : Int := if l then 1 else 0
    (monthFromDayWithinYear l x = 0 ∧ x < 31) ∨
    (monthFromDayWithinYear l x = 1 ∧ 31 ≤ x ∧ x < 59 + c) ∨
    (monthFromDayWithinYear l x = 2 ∧ 59 + c ≤ x ∧ x < 90 + c) ∨
    (monthFromDayWithinYear l x = 3 ∧ 90 + c ≤ x ∧ x < 120 + c) ∨
    (monthFromDayWithinYear l x = 4 ∧ 120 + c ≤ x ∧ x < 151 + c) ∨
    (monthFromDayWithinYear l x = 5 ∧ 151 + c ≤ x ∧ x < 181 + c) ∨
    (monthFromDayWithinYear l x = 6 ∧ 181 + c ≤ x ∧ x < 212 + c) ∨
    (monthFromDayWithinYear l x = 7 ∧ 212 + c ≤ x ∧ x < 243 + c) ∨
    (monthFromDayWithinYear l x = 8 ∧ 243 + c ≤ x ∧ x < 273 + c) ∨
    (monthFromDayWithinYear l x = 9 ∧ 273 + c ≤ x ∧ x < 304 + c) ∨
    (monthFromDayWithinYear l x = 10 ∧ 304 + c ≤ x ∧ x < 334 + c) ∨
    (monthFromDayWithinYear l x = 11 ∧ 334 + c ≤ x) := by
  intro c
  unfold monthFromDayWithinYear
  by_cases h1 : x < 31
  · left; exact ⟨if_pos h1, h1⟩
  right
  rw [if_neg h1]
  by_cases h2 : x < 59 + c
  · left; exact ⟨if_pos h2, by omega, h2⟩
  right
  rw [if_neg h2]
  by_cases h3 : x < 90 + c
  · left; exact ⟨if_pos h3, by omega, h3⟩
  right
  rw [if_neg h3]
  by_cases h4 : x < 120 + c
  · left; exact ⟨if_pos h4, by omega, h4⟩
  right
  rw [if_neg h4]
  by_cases h5 : x < 151 + c
  · left; exact ⟨if_pos h5, by omega, h5⟩
  right
  rw [if_neg h5]
  by_cases h6 : x < 181 + c
  · left; exact ⟨if_pos h6, by omega, h6⟩
  right
  rw [if_neg h6]
  by_cases h7 : x < 212 + c
  · left; exact ⟨if_pos h7, by omega, h7⟩
  right
  rw [if_neg h7]
  by_cases h8 : x < 243 + c
  · left; exact ⟨if_pos h8, by omega, h8⟩
  right
  rw [if_neg h8]
  by_cases h9 : x < 273 + c
  · left; exact ⟨if_pos h9, by omega, h9⟩
  right
  rw [if_neg h9]
  by_cases h10 : x < 304 + c
  · left; exact ⟨if_pos h10, by omega, h10⟩
  right
  rw [if_neg h10]
  by_cases h11 : x < 334 + c
  · left; exact ⟨if_pos h11, by omega, h11⟩
  right
  rw [if_neg h11]
  exact ⟨rfl, by omega⟩

theorem daysBeforeMonth_table (l : Bool) :
    daysBeforeMonth l 0 = 0 ∧ daysBeforeMonth l 1 = 31 ∧
    daysBeforeMonth l 2 = 59 + (if l then 1 else 0) ∧
    daysBeforeMonth l 3 = 90 + (if l then 1 else 0) ∧
    daysBeforeMonth l 4 = 120 + (if l then 1 else 0) ∧
    daysBeforeMonth l 5 = 151 + (if l then 1 else 0) ∧
    daysBeforeMonth l 6 = 181 + (if l then 1 else 0) ∧
    daysBeforeMonth l 7 = 212 + (if l then 1 else 0) ∧
    daysBeforeMonth l 8 = 243 + (if l then 1 else 0) ∧
    daysBeforeMonth l 9 = 273 + (if l then 1 else 0) ∧
    daysBeforeMonth l 10 = 304 + (if l then 1 else 0) ∧
    daysBeforeMonth l 11 = 334 + (if l then 1 else 0) := by
  cases l <;> decide

/-- Day `x` of a year lies in the month that the table gives for it. -/
theorem monthFromDayWithinYear_spec (l : Bool) (x : Int) (h0 : 0 ≤ x) :
    0 ≤ monthFromDayWithinYear l x ∧ monthFromDayWithinYear l x ≤ 11 ∧
    daysBeforeMonth l (monthFromDayWithinYear l x) ≤ x ∧
    (monthFromDayWithinYear l x ≤ 10 →
      x < daysBeforeMonth l (monthFromDayWithinYear l x + 1)) := by
  obtain ⟨t0, t1, t2, t3, t4, t5, t6, t7, t8, t9, t10, t11⟩ := daysBeforeMonth_table l
  have hc := monthTable_cases l x
  simp only at hc
  rcases hc with h | h | h | h | h | h | h | h | h | h | h | h <;>
    (rw [h.1]; norm_num; cases l <;> simp_all)

/-- Every time value lies in the month that its getters report. -/
theorem time_in_month (t : Int) :
    0 ≤ monthFromTime t ∧ monthFromTime t ≤ 11 ∧
    newDate (yearFromTime t) (monthFromTime t) ≤ t ∧
    t < newDate (yearFromTime t) (monthFromTime t + 1) := by
  have hy : dayFromYear (yearFromTime t) ≤ dayOfTime t ∧
      dayOfTime t < dayFromYear (yearFromTime t) + daysInYear (yearFromTime t) := by
    have h := yearFromDay_spec (dayOfTime t)
    rw [dayFromYear_succ] at h
    exact h
  have hdwy : dayWithinYear t = dayOfTime t - dayFromYear (yearFromTime t) := rfl
  have hx0 : 0 ≤ dayWithinYear t := by omega
  have hm : 0 ≤ monthFromTime t ∧ monthFromTime t ≤ 11 ∧
      daysBeforeMonth (inLeapYear (yearFromTime t)) (monthFromTime t) ≤ dayWithinYear t ∧
      (monthFromTime t ≤ 10 → dayWithinYear t <
        daysBeforeMonth (inLeapYear (yearFromTime t)) (monthFromTime t + 1)) :=
    monthFromDayWithinYear_spec (inLeapYear (yearFromTime t)) (dayWithinYear t) hx0
  obtain ⟨hm0, hm1, hm2, hm3⟩ := hm
  have hday1 : dayOfTime t * 86400000 ≤ t := by
    unfold dayOfTime msPerDay
    omega
  have hday2 : t < (dayOfTime t + 1) * 86400000 := by
    unfold dayOfTime msPerDay
    omega
  refine ⟨hm0, hm1, ?_, ?_⟩
  · rw [newDate, makeDay_of_month _ _ hm0 hm1]
    omega
  · by_cases h11 : monthFromTime t ≤ 10
    · have hm3' := hm3 h11
      rw [newDate, makeDay_of_month _ _ (by omega) (by omega)]
      omega
    · have h12 : monthFromTime t + 1 = 12 := by omega
      have hmk : makeDay (yearFromTime t) 12 = dayFromYear (yearFromTime t + 1) := by
        have hz : daysBeforeMonth (inLeapYear (yearFromTime t + 1)) 0 = 0 :=
          (daysBeforeMonth_table _).1
        simp only [makeDay]
        norm_num
        exact hz
      rw [h12, newDate, hmk, dayFromYear_succ]
      omega

/-! ## Reading dates -/

theorem digitsToNat_twoDigits (n : Nat) (h : n < 100) : digitsToNat (twoDigits n) = n := by
  simp only [digitsToNat, twoDigits, List.foldl_cons, List.foldl_nil]
  omega

theorem digitsToNat_fourDigits (n : Nat) (h : n < 10000) : digitsToNat (fourDigits n) = n := by
  simp only [digitsToNat, fourDigits, List.foldl_cons, List.foldl_nil]
  omega

theorem daysInMonth_le (y : Int) (m : Nat) : daysInMonth y m ≤ 31 := by
  unfold daysInMonth
  split_ifs <;> omega

theorem isValidDate_usDate (y m d : Nat) (hy : y ≤ 9999) (h : IsCalendarDate y m d) :
    dateRegex.testAnchored (usDate y m d) = true := by
  obtain ⟨h1, h2, h3, h4⟩ := h
  have h5 := daysInMonth_le y m
  have := (isValidDate_iff (usDate y m d)).2 ⟨m, d, y, h1, h2, h3, by omega, hy, rfl⟩
  exact this

theorem isValidDate_isoDate (y m d : Nat) : dateRegex.testAnchored (isoDate y m d) = false := by
  rw [← Bool.not_eq_true]
  intro h
  obtain ⟨m', d', y', -, -, -, -, -, heq⟩ := (isValidDate_iff (isoDate y m d)).1 h
  have hj : js "/" = [47] := by decide
  have hk : js "-" = [45] := by decide
  simp only [isoDate, fourDigits, twoDigits, hj, hk, List.cons_append, List.nil_append,
    List.cons.injEq] at heq
  omega

theorem isoDateRegex_isoDate (y m d : Nat) (hy : y ≤ 9999) (hm : m ≤ 99) (hd : d ≤ 99) :
    isoDateRegex.testAnchored (isoDate y m d) = true := by
  have hs : ('-' : Char).toNat = 45 := rfl
  have hk : js "-" = [45] := by decide
  simp only [Re.testAnchored, Re.fullMatch_iff, isoDateRegex, Re.lang_seq_iff,
    lang_four_digits_iff, lang_two_digits_iff, Re.lang_chr_iff, hs]
  exact ⟨_, _, by simp [isoDate, hk], ⟨y, hy, rfl⟩, _, _, rfl, rfl, _, _, rfl, ⟨m, hm, rfl⟩,
    _, _, rfl, rfl, d, hd, rfl⟩

/-- A calendar date `YYYY-MM-DD` is read as midnight of that day in UTC. -/
theorem dateParse_isoDate (env : DateEnv) (y m d : Nat) (hy : y ≤ 9999)
    (h : IsCalendarDate y m d) :
    dateParse env (isoDate y m d) = some (newDate3 y ((m : Int) - 1) d + env.tzOffset) := by
  have h31 := daysInMonth_le y m
  obtain ⟨h1, h2, h3, h4⟩ := h
  have hk : js "-" = [45] := by decide
  have ht4 : (isoDate y m d).take 4 = fourDigits y := by simp [isoDate, fourDigits, hk]
  have ht2 : ((isoDate y m d).drop 5).take 2 = twoDigits m := by
    simp [isoDate, fourDigits, twoDigits, hk]
  have ht3 : (isoDate y m d).drop 8 = twoDigits d := by
    simp [isoDate, fourDigits, twoDigits, hk]
  simp only [dateParse, isValidDate_isoDate, Bool.false_eq_true, if_false,
    isoDateRegex_isoDate y m d hy (by omega) (by omega), if_true, ht4, ht2, ht3,
    digitsToNat_fourDigits y (by omega), digitsToNat_twoDigits m (by omega),
    digitsToNat_twoDigits d (by omega)]
  rw [if_pos ⟨h1, h2, h3, h4⟩]

/-- A calendar date `MM/DD/YYYY` from year 100 on is read as midnight of that day in local
time. -/
theorem dateParse_usDate (env : DateEnv) (y m d : Nat) (hy0 : 100 ≤ y) (hy : y ≤ 9999)
    (h : IsCalendarDate y m d) :
    dateParse env (usDate y m d) = some (newDate3 y ((m : Int) - 1) d) := by
  have h31 := daysInMonth_le y m
  have hre := isValidDate_usDate y m d hy h
  obtain ⟨h1, h2, h3, h4⟩ := h
  have hj : js "/" = [47] := by decide
  have ht4 : (usDate y m d).take 2 = twoDigits m := by simp [usDate, twoDigits, hj]
  have ht2 : ((usDate y m d).drop 3).take 2 = twoDigits d := by
    simp [usDate, twoDigits, hj]
  have ht3 : (usDate y m d).drop 6 = fourDigits y := by
    simp [usDate, twoDigits, hj]
  simp only [dateParse, hre, if_true, ht4, ht2, ht3,
    digitsToNat_fourDigits y (by omega), digitsToNat_twoDigits m (by omega),
    digitsToNat_twoDigits d (by omega)]
  rw [if_pos ⟨hy0, h4⟩]

theorem isAtLeast16_of_birth_time (env : DateEnv) (now : Int) (s : JSString) (t : Int)
    (y m d : Int) (hp : dateParse env s = some t) (hy : yearFromTime t = y)
    (hm : monthFromTime t = m - 1) (hd : dateFromTime t = d) :
    isAtLeast16 env now s =
      decide (16 ≤ ageInYears (yearFromTime now) (monthFromTime now + 1) (dateFromTime now)
        y m d) := by
  simp only [isAtLeast16, hp, hy, hm, hd, ageInYears, ge_iff_le]
  congr 1
  apply propext
  have e1 : monthFromTime now - (m - 1) < 0 ↔ monthFromTime now + 1 < m := by omega
  have e2 : monthFromTime now - (m - 1) = 0 ↔ monthFromTime now + 1 = m := by omega
  have e3 : dateFromTime now - d < 0 ↔ dateFromTime now < d := by omega
  simp only [e1, e2, e3]

/-- For a calendar birth date in the date-only form, in a zone at or east of UTC (offset
from 0 to less than a day), `isAtLeast16` is true exactly when the age in whole years is at
least 16. -/
theorem isAtLeast16_isoDate_east (env : DateEnv) (now : Int) (y m d : Nat)
    (h0 : 0 ≤ env.tzOffset) (h1 : env.tzOffset < msPerDay) (hy : y ≤ 9999)
    (h : IsCalendarDate y m d) :
    isAtLeast16 env now (isoDate y m d) =
      decide (16 ≤ ageInYears (yearFromTime now) (monthFromTime now + 1) (dateFromTime now)
        y m d) := by
  obtain ⟨g1, g2, g3⟩ := getters_newDate3 y m d env.tzOffset h.1 h.2.1 (by exact_mod_cast h.2.2.1)
    h.2.2.2 h0 h1
  exact isAtLeast16_of_birth_time env now _ _ y m d (dateParse_isoDate env y m d hy h) g1 g2 g3

/-- For a calendar birth date written `MM/DD/YYYY`, in every zone, `isAtLeast16` is true
exactly when the age in whole years is at least 16. -/
theorem isAtLeast16_usDate (env : DateEnv) (now : Int) (y m d : Nat)
    (hy0 : 100 ≤ y) (hy : y ≤ 9999) (h : IsCalendarDate y m d) :
    isAtLeast16 env now (usDate y m d) =
      decide (16 ≤ ageInYears (yearFromTime now) (monthFromTime now + 1) (dateFromTime now)
        y m d) := by
  obtain ⟨g1, g2, g3⟩ := getters_newDate3 y m d 0 h.1 h.2.1 (by exact_mod_cast h.2.2.1)
    h.2.2.2 (le_refl 0) (by decide)
  rw [add_zero] at g1 g2 g3
  exact isAtLeast16_of_birth_time env now _ _ y m d (dateParse_usDate env y m d hy0 hy h)
    g1 g2 g3

/-! ## Claims on dates and ages -/

/-- C11 at a browser west of Greenwich. The zone is five hours behind UTC and it is noon of
5 November 2024; someone born on 6 November 2008 turns 16 the next day, yet the date-only
string is read as UTC midnight, which is 5 November in local time, and the answer is
`true`. -/
theorem isAtLeast16_west_of_utc :
    yearFromTime (newDate3 2024 10 5 + 43200000) = 2024 ∧
    monthFromTime (newDate3 2024 10 5 + 43200000) = 10 ∧
    dateFromTime (newDate3 2024 10 5 + 43200000) = 5 ∧
    ageInYears 2024 11 5 2008 11 6 = 15 ∧
    isAtLeast16 exampleWestEnv (newDate3 2024 10 5 + 43200000) (js "2008-11-06") = true := by
  decide

/-! ## Reading integers -/

theorem digitValue_ten (c : Nat) :
    digitValue 10 c = if isDigit c = true then some (c - 0x30) else none := by
  unfold digitValue isDigit
  by_cases h : 0x30 ≤ c ∧ c ≤ 0x39
  · simp [h]
  · have h2 : ¬ (48 ≤ c ∧ c ≤ 57) := h
    simp [h2]

theorem readDigits_eq (t : JSString) :
    ∀ acc : Option Nat, readDigits 10 t acc =
      if t.takeWhile isDigit = [] then acc
      else some ((t.takeWhile isDigit).foldl (fun a c => a * 10 + (c - 0x30)) (acc.getD 0)) := by
  induction t with
  | nil => intro acc; rfl
  | cons c cs ih =>
    intro acc
    by_cases hc : isDigit c = true
    · simp only [readDigits, digitValue_ten, hc, if_true, List.takeWhile_cons, ih,
        Option.getD_some, List.foldl_cons]
      by_cases hcs : cs.takeWhile isDigit = []
      · simp [hcs]
      · simp [hcs]
    · simp only [readDigits, digitValue_ten, hc, Bool.false_eq_true, if_false,
        List.takeWhile_cons]
      simp

theorem parseInt_radix10 (s : JSString) :
    parseInt s (some 10) =
      match s.dropWhile isWhiteSpace with
      | [] => none
      | c :: r =>
        if c = 0x2D then (readDigits 10 r none).map (fun (n : Nat) => - (n : Int))
        else if c = 0x2B then (readDigits 10 r none).map (fun (n : Nat) => (n : Int))
        else (readDigits 10 (c :: r) none).map (fun (n : Nat) => (n : Int)) := by
  unfold parseInt
  cases h : s.dropWhile isWhiteSpace with
  | nil => simp [readDigits]
  | cons c r =>
    by_cases h1 : c = 0x2D
    · subst h1
      simp only [if_true]
      cases readDigits 10 r none <;> simp
    · by_cases h2 : c = 0x2B
      · subst h2
        simp only [if_true]
        cases readDigits 10 r none <;> simp
      · simp only [h1, h2, if_false]
        split <;> rename_i heq <;> split at heq <;> simp_all

theorem takeWhile_dropWhile_append {α : Type} (p : α → Bool) (b : List α)
    (hb : ∀ c, b.head? = some c → p c = false) :
    ∀ a : List α, (∀ c ∈ a, p c = true) →
      (a ++ b).takeWhile p = a ∧ (a ++ b).dropWhile p = b := by
  intro a
  induction a with
  | nil =>
    intro _
    cases b with
    | nil => simp
    | cons x xs =>
      have hx : p x = false := hb x rfl
      simp [List.takeWhile_cons, List.dropWhile_cons, hx]
  | cons x xs ih =>
    intro h
    have hx : p x = true := h x (by simp)
    obtain ⟨h1, h2⟩ := ih (fun c hc => h c (by simp [hc]))
    simp [List.takeWhile_cons, List.dropWhile_cons, hx, h1, h2]

theorem head?_dropWhile_false {α : Type} (p : α → Bool) :
    ∀ (l : List α) (c : α), (l.dropWhile p).head? = some c → p c = false := by
  intro l
  induction l with
  | nil => intro c h; simp at h
  | cons x xs ih =>
    intro c h
    by_cases hx : p x = true
    · rw [List.dropWhile_cons, if_pos hx] at h
      exact ih c h
    · rw [List.dropWhile_cons, if_neg hx] at h
      simp only [List.head?_cons, Option.some.injEq] at h
      subst h
      simpa using hx

theorem mem_takeWhile_true {α : Type} (p : α → Bool) :
    ∀ (l : List α) (c : α), c ∈ l.takeWhile p → p c = true := by
  intro l
  induction l with
  | nil => intro c h; simp at h
  | cons x xs ih =>
    intro c h
    by_cases hx : p x = true
    · rw [List.takeWhile_cons, if_pos hx] at h
      rcases List.mem_cons.1 h with rfl | h
      · exact hx
      · exact ih c h
    · rw [List.takeWhile_cons, if_neg hx] at h
      simp at h

theorem isWhiteSpace_of_isDigit (c : Nat) (h : isDigit c = true) : isWhiteSpace c = false := by
  simp only [isDigit, Bool.and_eq_true, decide_eq_true_eq] at h
  simp only [isWhiteSpace, Bool.or_eq_false_iff, beq_eq_false_iff_ne, ne_eq,
    Bool.and_eq_false_iff, decide_eq_false_iff_not, not_le]
  omega

/-- What `parseInt(s, 10)` reads: after white space and an optional sign, the longest run
of digits, if there is one. -/
theorem parseInt_radix10_eq (s : JSString) :
    parseInt s (some 10) =
      match s.dropWhile isWhiteSpace with
      | [] => none
      | c :: r =>
        if c = 0x2D then
          if r.takeWhile isDigit = [] then none
          else some (- (digitsToNat (r.takeWhile isDigit) : Int))
        else if c = 0x2B then
          if r.takeWhile isDigit = [] then none
          else some (digitsToNat (r.takeWhile isDigit) : Int)
        else
          if (c :: r).takeWhile isDigit = [] then none
          else some (digitsToNat ((c :: r).takeWhile isDigit) : Int) := by
  rw [parseInt_radix10]
  cases s.dropWhile isWhiteSpace with
  | nil => rfl
  | cons c r =>
    simp only [readDigits_eq, Option.getD_none, digitsToNat]
    split_ifs <;> simp

/-! ## Claims on the billing day and the email -/

/-- C12 fails as stated: `12abc` and `3.7` are not integers, yet `validateBillingDay`
accepts them, because `parseInt` reads the leading `12` and `3` and ignores the rest. -/
theorem validateBillingDay_accepts_non_integers :
    isIntegerText (js "12abc") = false ∧ validateBillingDay (js "12abc") = true ∧
    isIntegerText (js "3.7") = false ∧ validateBillingDay (js "3.7") = true := by
  decide

/-- C12 (amended): for every string, `validateBillingDay` is true exactly when the string,
after leading white space and an optional `+`, starts with a run of digits whose value lies
in 1..28; what follows the run is ignored. It returns false, and never throws, for every
string from which `parseInt` reads no integer. -/
theorem validateBillingDay_iff (s : JSString) :
    (validateBillingDay s = true ↔
      ∃ ws plus digits rest, s = ws ++ plus ++ digits ++ rest ∧
        (∀ c ∈ ws, isWhiteSpace c = true) ∧ (plus = [] ∨ plus = js "+") ∧
        digits ≠ [] ∧ (∀ c ∈ digits, isDigit c = true) ∧
        (∀ c, rest.head? = some c → isDigit c = false) ∧
        1 ≤ digitsToNat digits ∧ digitsToNat digits ≤ 28) ∧
    (validateBillingDay s = true ↔
      ∃ day : Int, parseInt s (some 10) = some day ∧ 1 ≤ day ∧ day ≤ 28) ∧
    (parseInt s (some 10) = none → validateBillingDay s = false) := by
  have hplus : js "+" = [0x2B] := by decide
  have hsplit : s = s.takeWhile isWhiteSpace ++ s.dropWhile isWhiteSpace :=
    (List.takeWhile_append_dropWhile _ _).symm
  have hws : ∀ c ∈ s.takeWhile isWhiteSpace, isWhiteSpace c = true :=
    mem_takeWhile_true isWhiteSpace s
  have hsecond : validateBillingDay s = true ↔
      ∃ day : Int, parseInt s (some 10) = some day ∧ 1 ≤ day ∧ day ≤ 28 := by
    unfold validateBillingDay
    cases parseInt s (some 10) with
    | none => simp
    | some day => simp
  refine ⟨?_, hsecond, ?_⟩
  · rw [hsecond, parseInt_radix10_eq]
    constructor
    · rintro ⟨day, hday, h1, h28⟩
      cases ht : s.dropWhile isWhiteSpace with
      | nil => rw [ht] at hday; cases hday
      | cons c r =>
        rw [ht] at hday hsplit
        dsimp only at hday
        by_cases hm : c = 0x2D
        · rw [if_pos hm] at hday
          split_ifs at hday
          simp only [Option.some.injEq] at hday
          omega
        · rw [if_neg hm] at hday
          by_cases hp : c = 0x2B
          · rw [if_pos hp] at hday
            split_ifs at hday with hnil
            simp only [Option.some.injEq] at hday
            refine ⟨s.takeWhile isWhiteSpace, js "+", r.takeWhile isDigit,
              r.dropWhile isDigit, ?_, hws, Or.inr rfl, hnil, mem_takeWhile_true isDigit r,
              head?_dropWhile_false isDigit r, by omega, by omega⟩
            rw [hplus, List.append_assoc, List.append_assoc, List.singleton_append,
              List.takeWhile_append_dropWhile, ← hp]
            exact hsplit
          · rw [if_neg hp] at hday
            split_ifs at hday with hnil
            simp only [Option.some.injEq] at hday
            refine ⟨s.takeWhile isWhiteSpace, [], (c :: r).takeWhile isDigit,
              (c :: r).dropWhile isDigit, ?_, hws, Or.inl rfl, hnil,
              mem_takeWhile_true isDigit (c :: r), head?_dropWhile_false isDigit (c :: r),
              by omega, by omega⟩
            rw [List.append_nil, List.append_assoc, List.takeWhile_append_dropWhile]
            exact hsplit
    · rintro ⟨ws, plus, digits, rest, rfl, hw, hpl, hne, hdig, hrest, h1, h28⟩
      obtain ⟨d0, ds, rfl⟩ := List.exists_cons_of_ne_nil hne
      have hd0 : isDigit d0 = true := hdig d0 (by simp)
      have hd0' : 48 ≤ d0 ∧ d0 ≤ 57 := by
        simpa [isDigit] using hd0
      have htw := takeWhile_dropWhile_append isDigit rest hrest (d0 :: ds) hdig
      rcases hpl with rfl | rfl
      · have hdrop := (takeWhile_dropWhile_append isWhiteSpace ((d0 :: ds) ++ rest)
          (by
            intro c hc
            simp only [List.cons_append, List.head?_cons, Option.some.injEq] at hc
            subst hc
            exact isWhiteSpace_of_isDigit _ hd0) ws hw).2
        rw [List.append_nil, List.append_assoc, hdrop]
        simp only [List.cons_append]
        rw [if_neg (by omega), if_neg (by omega)]
        have htw1 : (d0 :: (ds ++ rest)).takeWhile isDigit = d0 :: ds := htw.1
        rw [htw1, if_neg (by simp)]
        exact ⟨_, rfl, by omega, by omega⟩
      · have hdrop := (takeWhile_dropWhile_append isWhiteSpace
          (js "+" ++ (d0 :: ds) ++ rest)
          (by
            intro c hc
            rw [hplus] at hc
            simp only [List.cons_append, List.nil_append, List.head?_cons,
              Option.some.injEq] at hc
            subst hc
            decide) ws hw).2
        rw [List.append_assoc, List.append_assoc, ← List.append_assoc (js "+"), hdrop, hplus]
        simp only [List.cons_append, List.nil_append]
        rw [if_neg (by decide), if_pos trivial]
        have htw1 : (d0 :: (ds ++ rest)).takeWhile isDigit = d0 :: ds := htw.1
        rw [htw1, if_neg (by simp)]
        exact ⟨_, rfl, by omega, by omega⟩
  · intro h
    simp only [validateBillingDay, h]

theorem lang_star_cls_iff (p : Nat → Bool) :
    ∀ u : JSString, Re.Lang (Re.star (Re.cls p)) u ↔ ∀ c ∈ u, p c = true := by
  intro u
  induction u with
  | nil => simp only [List.not_mem_nil, false_implies, implies_true, iff_true]; exact Re.Lang.starNil
  | cons c cs ih =>
    rw [Re.lang_star_cons_iff]
    constructor
    · rintro ⟨u, v, rfl, hu, hv⟩
      rw [Re.lang_cls_iff] at hu
      obtain ⟨x, hx, hpx⟩ := hu
      obtain ⟨rfl, rfl⟩ := List.cons.inj hx
      intro y hy
      rcases List.mem_cons.1 hy with rfl | hy
      · exact hpx
      · exact (ih.1 (by simpa using hv)) y (by simpa using hy)
    · intro h
      exact ⟨[], cs, rfl, (Re.lang_cls_iff _ _).2 ⟨c, rfl, h c (by simp)⟩,
        ih.2 (fun y hy => h y (by simp [hy]))⟩

theorem lang_plus_cls_iff (p : Nat → Bool) (u : JSString) :
    Re.Lang (Re.plus (Re.cls p)) u ↔ u ≠ [] ∧ ∀ c ∈ u, p c = true := by
  simp only [Re.plus, Re.lang_cls_seq_iff, lang_star_cls_iff]
  constructor
  · rintro ⟨c, t, rfl, hc, ht⟩
    refine ⟨by simp, ?_⟩
    intro y hy
    rcases List.mem_cons.1 hy with rfl | hy
    · exact hc
    · exact ht y hy
  · rintro ⟨hne, h⟩
    obtain ⟨c, t, rfl⟩ := List.exists_cons_of_ne_nil hne
    exact ⟨c, t, rfl, h c (by simp), fun y hy => h y (by simp [hy])⟩

theorem isEmailUnit_iff (c : Nat) : isEmailUnit c = true ↔ isWhiteSpace c = false ∧ c ≠ 0x40 := by
  simp [isEmailUnit]

/-- C13: for every string, `validateEmail` is true exactly when the string has no white
space and exactly one `@`, the part before the `@` is not empty, and the part after the `@`
contains a `.` with at least one code unit before it and at least one after it. -/
theorem validateEmail_iff (s : JSString) :
    (validateEmail s = true ↔
      (∀ c ∈ s, isWhiteSpace c = false) ∧ s.count 0x40 = 1 ∧
        ∃ l x y, s = l ++ js "@" ++ x ++ js "." ++ y ∧ l ≠ [] ∧ x ≠ [] ∧ y ≠ []) ∧
    validateEmail (js "dana@example.com") = true ∧
    validateEmail (js "dana@example") = false ∧
    validateEmail (js "dana@.com") = false ∧
    validateEmail (js "dana@example.") = false ∧
    validateEmail (js "@example.com") = false ∧
    validateEmail (js "da na@example.com") = false ∧
    validateEmail (js "dana@ex@mple.com") = false := by
  refine ⟨?_, by decide, by decide, by decide, by decide, by decide, by decide, by decide⟩
  have hat : ('@' : Char).toNat = 0x40 := rfl
  have hdot : ('.' : Char).toNat = 0x2E := rfl
  have hj1 : js "@" = [0x40] := by decide
  have hj2 : js "." = [0x2E] := by decide
  simp only [validateEmail, Re.testAnchored, Re.fullMatch_iff, emailRegex, Re.lang_seq_iff,
    lang_plus_cls_iff, Re.lang_chr_iff, hat, hdot, hj1, hj2, isEmailUnit_iff]
  constructor
  · rintro ⟨l, _, rfl, ⟨hl0, hl⟩, _, _, rfl, rfl, x, _, rfl, ⟨hx0, hx⟩, _, y, rfl, rfl,
      hy0, hy⟩
    refine ⟨?_, ?_, l, x, y, by simp, hl0, hx0, hy0⟩
    · intro c hc
      simp only [List.mem_append, List.mem_singleton, List.mem_cons, List.not_mem_nil,
        or_false] at hc
      rcases hc with hc | rfl | hc | rfl | hc
      · exact (hl c hc).1
      · decide
      · exact (hx c hc).1
      · decide
      · exact (hy c hc).1
    · have c1 : l.count 0x40 = 0 := List.count_eq_zero.2 (fun h => (hl _ h).2 rfl)
      have c2 : x.count 0x40 = 0 := List.count_eq_zero.2 (fun h => (hx _ h).2 rfl)
      have c3 : y.count 0x40 = 0 := List.count_eq_zero.2 (fun h => (hy _ h).2 rfl)
      simp [List.count_append, List.count_cons, c1, c2, c3]
  · rintro ⟨hws, hcount, l, x, y, rfl, hl0, hx0, hy0⟩
    have hc : l.count 0x40 = 0 ∧ x.count 0x40 = 0 ∧ y.count 0x40 = 0 := by
      simp [List.count_append, List.count_cons] at hcount
      omega
    have hl : ∀ c ∈ l, isWhiteSpace c = false ∧ c ≠ 0x40 := fun c hc' =>
      ⟨hws c (by simp [hc']), fun e => List.count_eq_zero.1 hc.1 (e ▸ hc')⟩
    have hx : ∀ c ∈ x, isWhiteSpace c = false ∧ c ≠ 0x40 := fun c hc' =>
      ⟨hws c (by simp [hc']), fun e => List.count_eq_zero.1 hc.2.1 (e ▸ hc')⟩
    have hy : ∀ c ∈ y, isWhiteSpace c = false ∧ c ≠ 0x40 := fun c hc' =>
      ⟨hws c (by simp [hc']), fun e => List.count_eq_zero.1 hc.2.2 (e ▸ hc')⟩
    exact ⟨l, _, by simp, ⟨hl0, hl⟩, _, _, rfl, rfl, x, _, rfl, ⟨hx0, hx⟩, _, y, rfl, rfl,
      hy0, hy⟩

/-! ## The store: `addUser` and `findUserByEmail` -/

/-- The list written by `addUser` is the stored list followed by the new user. -/
theorem getUsersList_addUser (st : Storage) (u : User) :
    getUsersList (addUser st u) = getUsersList st ++ [u] := by
  simp [addUser, getUsersList]

/-- The first stored user with the given email, if any, decides `findUserByEmail`. -/
theorem findUserByEmail_eq (st : Storage) (email : JSString) :
    findUserByEmail st email = (getUsersList st).find? (fun u => u.email == email) := by
  unfold findUserByEmail
  dsimp only
  cases h : (getUsersList st).find? (fun u => u.email == email) with
  | none => rfl
  | some v => rfl

/-- `findUserByEmail` finds a user exactly when some stored user has the email. -/
theorem findUserByEmail_isSome_iff (st : Storage) (email : JSString) :
    (findUserByEmail st email).isSome = true ↔ ∃ u ∈ getUsersList st, u.email = email := by
  rw [findUserByEmail_eq]
  simp [List.find?_isSome]

/-- C19: round trip through the store. When no stored user has the email of `u`, after
`addUser(u)` the call `findUserByEmail(u.email)` returns a user with the email, billing date
and card status of `u` and a card with the same last four digits (indeed a user equal to `u`
in every field). -/
theorem addUser_findUserByEmail_round_trip (st : Storage) (u : User)
    (h : ∀ v ∈ getUsersList st, v.email ≠ u.email) :
    ∃ r, findUserByEmail (addUser st u) u.email = some r ∧ r.email = u.email ∧
      r.billingDate = u.billingDate ∧ r.cardStatus = u.cardStatus ∧
      r.creditCard.getLastFourDigits = u.creditCard.getLastFourDigits ∧ r = u := by
  refine ⟨u, ?_, rfl, rfl, rfl, rfl, rfl⟩
  rw [findUserByEmail_eq, getUsersList_addUser, List.find?_append]
  have hnone : (getUsersList st).find? (fun v => v.email == u.email) = none := by
    rw [List.find?_eq_none]
    intro v hv
    simpa using h v hv
  rw [hnone]
  simp

/-- C19 at a store that holds `exampleUser` and a new user with another email. -/
theorem addUser_findUserByEmail_round_trip_witness :
    (∀ v ∈ getUsersList examplePage.storage,
      v.email ≠ ({ exampleUser with email := js "noa@example.com" } : User).email) ∧
    ∃ r, findUserByEmail
        (addUser examplePage.storage { exampleUser with email := js "noa@example.com" })
        ({ exampleUser with email := js "noa@example.com" } : User).email = some r ∧
      r.email = ({ exampleUser with email := js "noa@example.com" } : User).email ∧
      r.billingDate = ({ exampleUser with email := js "noa@example.com" } : User).billingDate ∧
      r.cardStatus = ({ exampleUser with email := js "noa@example.com" } : User).cardStatus ∧
      r.creditCard.getLastFourDigits =
        ({ exampleUser with email := js "noa@example.com" } : User).creditCard.getLastFourDigits ∧
      r = { exampleUser with email := js "noa@example.com" } :=
  ⟨by decide, addUser_findUserByEmail_round_trip examplePage.storage
    { exampleUser with email := js "noa@example.com" } (by decide)⟩

/-- C20, counterexample: `addUser` with a user whose email is already stored does not fail;
it stores the list with that user appended, so the email is then stored twice. -/
theorem addUser_appends_registered_email :
    (∃ v ∈ getUsersList examplePage.storage, v.email = exampleUser.email) ∧
    (addUser examplePage.storage exampleUser).listOfUsers = some [exampleUser, exampleUser] ∧
    addUser examplePage.storage exampleUser ≠ examplePage.storage := by
  decide

/-- C20, amended: `addUser` itself makes no check and always appends the user; it is the
registration handler `submitForm` that rejects an email that is already stored: it leaves
the store and the location unchanged and raises exactly one alert, which is not the success
message and, when the other fields of the form pass their checks, is
`This email is already registered.`. -/
theorem submitForm_rejects_registered_email (env : DateEnv) (now : Int) (pg : RegistrationPage)
    (form : RegistrationForm) (h : ∃ v ∈ getUsersList pg.storage, v.email = form.email) :
    (∀ st u, getUsersList (addUser st u) = getUsersList st ++ [u]) ∧
    (submitForm env now pg form).storage = pg.storage ∧
    (submitForm env now pg form).location = pg.location ∧
    (∃ message, (submitForm env now pg form).alerts = pg.alerts ++ [message] ∧
      message ≠ js "Registration successful!" ∧
      (validateEmail form.email = true → validatePassword form.password = true →
        isAtLeast16 env now form.birthdate = true → validateNumber form.cardNumber = true →
        validateExpiryDate now form.cardExpiry = true →
        message = js "This email is already registered.")) := by
  have hfound := (findUserByEmail_isSome_iff pg.storage form.email).mpr h
  refine ⟨getUsersList_addUser, ?_⟩
  unfold submitForm
  simp only [hfound, if_true]
  cases h1 : validateEmail form.email <;> cases h2 : validatePassword form.password <;>
    cases h3 : isAtLeast16 env now form.birthdate <;>
    cases h4 : validateNumber form.cardNumber <;>
    cases h5 : validateExpiryDate now form.cardExpiry <;>
    simp only [Bool.not_false, Bool.not_true, if_true, if_false, Bool.false_eq_true,
      RegistrationPage.alert] <;>
    refine ⟨trivial, trivial, _, rfl, by decide, ?_⟩ <;> intro g1 g2 g3 g4 g5 <;>
    (first
      | rfl
      | exact False.elim g1
      | exact False.elim g2
      | exact False.elim g3
      | exact False.elim g4
      | exact False.elim g5)

/-- C20 (amended) at the store that holds `exampleUser`, for a form with that email. -/
theorem submitForm_rejects_registered_email_witness :
    (∃ v ∈ getUsersList exampleRegistrationPage.storage,
      v.email = (RegistrationForm.mk (js "dana@example.com") (js "Abcdefg1!")
        (js "1990-05-17") (js "1234 5678 9012 3456") (js "12/30")).email) ∧
    (submitForm exampleEnv (newDate3 2024 2 15) exampleRegistrationPage
      (RegistrationForm.mk (js "dana@example.com") (js "Abcdefg1!") (js "1990-05-17")
        (js "1234 5678 9012 3456") (js "12/30"))).storage = exampleRegistrationPage.storage :=
  ⟨by decide, (submitForm_rejects_registered_email exampleEnv (newDate3 2024 2 15)
    exampleRegistrationPage (RegistrationForm.mk (js "dana@example.com") (js "Abcdefg1!")
      (js "1990-05-17") (js "1234 5678 9012 3456") (js "12/30")) (by decide)).2.1⟩

/-! ## Category totals and the period summary at concrete inputs -/

/-- C15: a category that names a member of `Object.prototype` is not summed. For the
transactions `Food 50`, `constructor 100`, `constructor 7`, `__proto__ 5` the map holds 50
under `Food`, but under `constructor` it holds the text of the inherited function followed
by `100` and `7` instead of the number 107, and it has no key `__proto__` at all. -/
theorem calculateCategorySpending_inherited_names :
    calculateCategorySpending
      [exampleTransaction "01/15/2024" "Cafe" "Food" "50",
       exampleTransaction "01/16/2024" "Shop" "constructor" "100",
       exampleTransaction "02/01/2024" "Shop" "constructor" "7",
       exampleTransaction "02/02/2024" "Shop" "__proto__" "5"] =
      [(js "Food", .num (.fin 50)),
       (js "constructor", .text (js "constructor") [.fin 100, .fin 7])] := by
  decide!

/-- C18: an unparsable amount is skipped in the total of the last period only. On 15
November 2024 with billing day 1, the transactions `10/15/2024 ₪100`, `10/16/2024 abc`,
`11/02/2024 50`, `11/03/2024 abc` give the last-period total 100 and the current-period
total `NaN`, not 50; so does a transaction of the current period without `Amount`; without
such a transaction the current-period total is 50. -/
theorem showTransactionSummary_current_total_nan :
    showTransactionSummary exampleEnv (newDate3 2024 10 15 + 3600000)
      { exampleUser with transactions :=
        [exampleTransaction "10/15/2024" "Shop" "Food" "₪100",
         exampleTransaction "10/16/2024" "Shop" "Food" "abc",
         exampleTransaction "11/02/2024" "Cafe" "Food" "50",
         exampleTransaction "11/03/2024" "Cafe" "Food" "abc"] } = (.fin 100, .nan) ∧
    showTransactionSummary exampleEnv (newDate3 2024 10 15 + 3600000)
      { exampleUser with transactions :=
        [exampleTransaction "10/15/2024" "Shop" "Food" "₪100",
         [(js "Date", js "10/16/2024")],
         exampleTransaction "11/02/2024" "Cafe" "Food" "50",
         [(js "Date", js "11/03/2024")]] } = (.fin 100, .nan) ∧
    showTransactionSummary exampleEnv (newDate3 2024 10 15 + 3600000)
      { exampleUser with transactions :=
        [exampleTransaction "10/15/2024" "Shop" "Food" "₪100",
         exampleTransaction "10/16/2024" "Shop" "Food" "abc",
         exampleTransaction "11/02/2024" "Cafe" "Food" "50"] } = (.fin 100, .fin 50) := by
  decide!

/-! ## Decimal numerals -/

theorem digitChar_toNat (k : Nat) (h : k < 10) : (Nat.digitChar k).toNat = 48 + k := by
  interval_cases k <;> rfl

theorem toDigitsCore_append (b : Nat) :
    ∀ (f n : Nat) (ds : List Char),
      Nat.toDigitsCore b f n ds = Nat.toDigitsCore b f n [] ++ ds := by
  intro f
  induction f with
  | zero => intro n ds; simp [Nat.toDigitsCore]
  | succ f ih =>
    intro n ds
    simp only [Nat.toDigitsCore]
    split_ifs with h
    · simp
    · rw [ih (n / b) (_ :: ds), ih (n / b) [_]]
      simp

theorem digitsToNat_append (s : JSString) (c : Nat) :
    digitsToNat (s ++ [c]) = digitsToNat s * 10 + (c - 0x30) := by
  simp [digitsToNat, List.foldl_append]

theorem digitsToNat_toDigitsCore :
    ∀ (f n : Nat), n < f →
      digitsToNat ((Nat.toDigitsCore 10 f n []).map Char.toNat) = n := by
  intro f
  induction f with
  | zero => intro n h; omega
  | succ f ih =>
    intro n h
    have hd := digitChar_toNat (n % 10) (Nat.mod_lt n (by decide))
    simp only [Nat.toDigitsCore]
    split_ifs with h0
    · simp only [List.map_cons, List.map_nil, digitsToNat, List.foldl_cons, List.foldl_nil, hd]
      omega
    · rw [toDigitsCore_append, List.map_append, List.map_cons, List.map_nil, digitsToNat_append,
        ih (n / 10) (by omega), hd]
      omega

/-- Reading the decimal numeral of `n` gives `n` back. -/
theorem digitsToNat_showNat (n : Nat) : digitsToNat (showNat n) = n :=
  digitsToNat_toDigitsCore (n + 1) n (by omega)

theorem showNat_injective (a b : Nat) (h : showNat a = showNat b) : a = b := by
  rw [← digitsToNat_showNat a, ← digitsToNat_showNat b, h]

theorem showInt_natCast (n : Nat) : showInt (n : Int) = showNat n := by
  simp [showInt]

/-! ## The accumulator object of a `reduce` -/

theorem acc_lookup_cons (k key : JSString) (v : AccValue) (t : Acc) :
    List.lookup k ((key, v) :: t) = if k = key then some v else List.lookup k t := by
  by_cases h : k = key
  · subst h
    simp
  · have hne : (k == key) = false := by simpa using h
    simp [List.lookup_cons, hne, h]

theorem Acc.get_eq_none_iff (acc : Acc) (k : JSString) :
    acc.get k = none ↔ k ∉ acc.map Prod.fst := by
  unfold Acc.get
  rw [List.lookup_eq_none_iff]
  simp only [List.mem_map, not_exists, not_and, bne_iff_ne, ne_eq]
  constructor
  · intro h p hp e
    exact h p hp e.symm
  · intro h p hp e
    exact h p hp e.symm

theorem Acc.any_key_iff (acc : Acc) (key : JSString) :
    acc.any (fun kv => kv.1 == key) = true ↔ key ∈ acc.map Prod.fst := by
  simp [List.any_eq_true]

theorem acc_map_keys (key : JSString) (v : AccValue) :
    ∀ acc : Acc,
      (acc.map (fun kv => if kv.1 = key then (key, v) else kv)).map Prod.fst =
        acc.map Prod.fst := by
  intro acc
  induction acc with
  | nil => rfl
  | cons kv rest ih =>
    by_cases h : kv.1 = key
    · rw [List.map_cons, if_pos h, List.map_cons, List.map_cons, ih, h]
    · rw [List.map_cons, if_neg h, List.map_cons, List.map_cons, ih]

theorem acc_map_lookup_self (key : JSString) (v : AccValue) :
    ∀ acc : Acc, key ∈ acc.map Prod.fst →
      List.lookup key (acc.map (fun kv => if kv.1 = key then (key, v) else kv)) = some v := by
  intro acc
  induction acc with
  | nil => intro h; simp at h
  | cons kv rest ih =>
    intro h
    obtain ⟨k, w⟩ := kv
    by_cases hk : k = key
    · rw [List.map_cons, if_pos hk, acc_lookup_cons, if_pos rfl]
    · rw [List.map_cons, if_neg hk, acc_lookup_cons, if_neg (fun e => hk e.symm)]
      apply ih
      rw [List.map_cons, List.mem_cons] at h
      rcases h with h | h
      · exact absurd h.symm hk
      · exact h

theorem acc_map_lookup_other (k key : JSString) (v : AccValue) (h : k ≠ key) :
    ∀ acc : Acc,
      List.lookup k (acc.map (fun kv => if kv.1 = key then (key, v) else kv)) =
        List.lookup k acc := by
  intro acc
  induction acc with
  | nil => rfl
  | cons kv rest ih =>
    obtain ⟨k1, w⟩ := kv
    by_cases hk : k1 = key
    · rw [List.map_cons, if_pos hk, acc_lookup_cons, if_neg h, acc_lookup_cons,
        if_neg (fun e => h (e.trans hk)), ih]
    · rw [List.map_cons, if_neg hk, acc_lookup_cons, acc_lookup_cons, ih]

theorem acc_append_lookup (k key : JSString) (v : AccValue) :
    ∀ acc : Acc,
      List.lookup k (acc ++ [(key, v)]) =
        if k ∈ acc.map Prod.fst then List.lookup k acc
        else if k = key then some v else none := by
  intro acc
  induction acc with
  | nil => simp [acc_lookup_cons]
  | cons kv rest ih =>
    obtain ⟨k1, w⟩ := kv
    rw [List.cons_append, acc_lookup_cons, acc_lookup_cons, ih]
    by_cases hk : k = k1
    · simp [hk]
    · have hmem : k ∈ ((k1, w) :: rest).map Prod.fst ↔ k ∈ rest.map Prod.fst := by
        rw [List.map_cons, List.mem_cons]
        exact ⟨fun e => e.resolve_left hk, Or.inr⟩
      simp only [hmem, if_neg hk]

/-- The keys after `acc[key] = value`, for a key other than `__proto__`. -/
theorem Acc.keys_set (acc : Acc) (key : JSString) (v : AccValue) (hp : key ≠ js "__proto__") :
    (acc.set key v).map Prod.fst =
      if key ∈ acc.map Prod.fst then acc.map Prod.fst else acc.map Prod.fst ++ [key] := by
  unfold Acc.set
  rw [if_neg hp]
  by_cases h : key ∈ acc.map Prod.fst
  · rw [if_pos ((Acc.any_key_iff acc key).mpr h), if_pos h, acc_map_keys]
  · rw [if_neg (fun e => h ((Acc.any_key_iff acc key).mp e)), if_neg h]
    simp

theorem Acc.get_after_set_self (acc : Acc) (key : JSString) (v : AccValue)
    (hp : key ≠ js "__proto__") : (acc.set key v).get key = some v := by
  unfold Acc.set Acc.get
  rw [if_neg hp]
  by_cases h : key ∈ acc.map Prod.fst
  · rw [if_pos ((Acc.any_key_iff acc key).mpr h), acc_map_lookup_self key v acc h]
  · rw [if_neg (fun e => h ((Acc.any_key_iff acc key).mp e)), acc_append_lookup, if_neg h,
      if_pos rfl]

theorem Acc.get_after_set_other (acc : Acc) (k key : JSString) (v : AccValue) (h : k ≠ key) :
    (acc.set key v).get k = acc.get k := by
  unfold Acc.set Acc.get
  by_cases hp : key = js "__proto__"
  · rw [if_pos hp]
  rw [if_neg hp]
  by_cases hm : key ∈ acc.map Prod.fst
  · rw [if_pos ((Acc.any_key_iff acc key).mpr hm), acc_map_lookup_other k key v h]
  · rw [if_neg (fun e => hm ((Acc.any_key_iff acc key).mp e)), acc_append_lookup]
    by_cases hk : k ∈ acc.map Prod.fst
    · rw [if_pos hk]
    · rw [if_neg hk, if_neg h]
      exact ((Acc.get_eq_none_iff acc k).mpr hk).symm

theorem not_proto_of_not_inherited (key : JSString) (h : key ∉ objectPrototypeKeys) :
    key ≠ js "__proto__" := by
  intro e
  apply h
  rw [e]
  decide

/-! ## Month names and two-digit months -/

theorem padStart2_month (m : Nat) (h1 : 1 ≤ m) (h2 : m ≤ 12) :
    padStart2 (showNat m) = twoDigits m := by
  interval_cases m <;> decide

theorem monthNamesShort_length (m : Nat) (h1 : 1 ≤ m) (h2 : m ≤ 12) :
    (monthNamesShort.getD (m - 1) []).length = 3 := by
  interval_cases m <;> decide

theorem monthNamesShort_indexOf (m : Nat) (h1 : 1 ≤ m) (h2 : m ≤ 12) :
    monthNamesShort.indexOf (monthNamesShort.getD (m - 1) []) = m - 1 := by
  interval_cases m <;> decide

theorem twoDigits_injective (m m' : Nat) (e : twoDigits m = twoDigits m') : m = m' := by
  simp only [twoDigits, List.cons.injEq, and_true] at e
  omega

/-! ## Decimal numerals of integers -/

theorem toDigitsCore_isDigit :
    ∀ (f n : Nat) (ds : List Char), (∀ c ∈ ds, isDigit c.toNat = true) →
      ∀ c ∈ Nat.toDigitsCore 10 f n ds, isDigit c.toNat = true := by
  intro f
  induction f with
  | zero =>
    intro n ds h
    simpa [Nat.toDigitsCore] using h
  | succ f ih =>
    intro n ds h
    have hd : isDigit (Nat.digitChar (n % 10)).toNat = true := by
      have hlt := Nat.mod_lt n (show 0 < 10 by decide)
      rw [digitChar_toNat _ hlt]
      simp only [isDigit, Bool.and_eq_true, decide_eq_true_eq]
      omega
    have hcons : ∀ c ∈ Nat.digitChar (n % 10) :: ds, isDigit c.toNat = true := by
      intro c hc
      rcases List.mem_cons.mp hc with e | e
      · rw [e]
        exact hd
      · exact h c e
    simp only [Nat.toDigitsCore]
    split_ifs with h0
    · exact hcons
    · exact ih _ _ hcons

/-- The decimal numeral of a natural number consists of digits. -/
theorem showNat_isDigit (n : Nat) : ∀ c ∈ showNat n, isDigit c = true := by
  intro c hc
  unfold showNat at hc
  obtain ⟨ch, hch, rfl⟩ := List.mem_map.mp hc
  exact toDigitsCore_isDigit _ _ [] (by simp) ch hch

/-- The decimal numeral of an integer determines the integer. -/
theorem showInt_injective (a b : Int) (h : showInt a = showInt b) : a = b := by
  have hminus : js "-" = [45] := by decide
  have hhead : ∀ (n : Nat) (t : JSString), showNat n ≠ 45 :: t := by
    intro n t e
    have h45 := showNat_isDigit n 45 (by rw [e]; exact List.mem_cons_self _ _)
    exact absurd h45 (by decide)
  unfold showInt at h
  by_cases ha : a < 0 <;> by_cases hb : b < 0
  · rw [if_pos ha, if_pos hb] at h
    have := showNat_injective _ _ (List.append_cancel_left h)
    omega
  · rw [if_pos ha, if_neg hb, hminus] at h
    exact absurd h.symm (hhead _ _)
  · rw [if_neg ha, if_pos hb, hminus] at h
    exact absurd h (hhead _ _)
  · rw [if_neg ha, if_neg hb] at h
    have := showNat_injective _ _ h
    omega

/-! ## Keys and labels of months -/

theorem monthKeyOf_ne_all (y : Int) (m : Nat) : monthKeyOf y m ≠ js "all" := by
  intro e
  have h1 : js "all" = [97] ++ [108, 108] := by decide
  unfold monthKeyOf at e
  rw [h1] at e
  obtain ⟨_, hb⟩ := List.append_inj' e (by simp [twoDigits])
  simp only [twoDigits, List.cons.injEq, and_true] at hb
  omega

theorem monthKeyOf_ne_nan (y : Int) (m : Nat) : js "NaN-NaN" ≠ monthKeyOf y m := by
  intro e
  have h1 : js "NaN-NaN" = [78, 97, 78, 45, 78] ++ [97, 78] := by decide
  unfold monthKeyOf at e
  rw [h1] at e
  obtain ⟨_, hb⟩ := List.append_inj' e (by simp [twoDigits])
  simp only [twoDigits, List.cons.injEq, and_true] at hb
  omega

/-- Different months have different keys. -/
theorem monthKeyOf_injective (y y' : Int) (m m' : Nat) (e : monthKeyOf y m = monthKeyOf y' m') :
    y = y' ∧ m = m' := by
  unfold monthKeyOf at e
  obtain ⟨ha, hb⟩ := List.append_inj' e (by simp [twoDigits])
  obtain ⟨hc, _⟩ := List.append_inj' ha rfl
  exact ⟨showInt_injective y y' hc, twoDigits_injective m m' hb⟩

/-- The text that `filterByMonth` builds from a date is the key of its month. -/
theorem yearMonthKey_eq (t : Int) :
    yearMonthKey (some t) = monthKeyOf (yearFromTime t) (monthFromTime t + 1).toNat := by
  obtain ⟨h0, h1, -, -⟩ := time_in_month t
  obtain ⟨k, hk⟩ : ∃ k : Nat, monthFromTime t + 1 = (k : Int) :=
    ⟨(monthFromTime t + 1).toNat, by omega⟩
  simp only [yearMonthKey, monthKeyOf]
  rw [hk, showInt_natCast, padStart2_month k (by omega) (by omega), Int.toNat_natCast]

/-- The month filter keeps the transactions whose date is read in the month of the key. -/
theorem filterByMonth_monthKeyOf (env : DateEnv) (txs : List Record) (y : Int) (m : Nat) :
    filterByMonth env txs (monthKeyOf y m) =
      txs.filter (fun r => decide (monthOfRecord env r = some (y, (m : Int) - 1))) := by
  unfold filterByMonth
  rw [if_neg (monthKeyOf_ne_all y m)]
  apply List.filter_congr
  intro r _
  dsimp only [monthOfRecord]
  cases newDateOf env (r.get (js "Date")) with
  | none =>
    have hne : yearMonthKey none ≠ monthKeyOf y m := monthKeyOf_ne_nan y m
    simp [hne]
  | some t =>
    rw [yearMonthKey_eq]
    obtain ⟨h0, h1, -, -⟩ := time_in_month t
    simp only [Option.map_some', Option.some.injEq, Prod.mk.injEq]
    by_cases hk : monthKeyOf (yearFromTime t) (monthFromTime t + 1).toNat = monthKeyOf y m
    · obtain ⟨e1, e2⟩ := monthKeyOf_injective _ _ _ _ hk
      have hb : yearFromTime t = y ∧ monthFromTime t = (m : Int) - 1 := ⟨e1, by omega⟩
      simp [hk, hb]
    · have hb : ¬ (yearFromTime t = y ∧ monthFromTime t = (m : Int) - 1) := by
        rintro ⟨e1, e2⟩
        apply hk
        have e3 : (monthFromTime t + 1).toNat = m := by omega
        rw [e1, e3]
      simp [hk, hb]

/-- A calendar date `MM/DD/YYYY` of the years 100 to 9999 is read in its own month. -/
theorem monthOfRecord_usDate (env : DateEnv) (r : Record) (y m d : Nat)
    (hr : r.get (js "Date") = some (usDate y m d)) (hy0 : 100 ≤ y) (hy : y ≤ 9999)
    (hc : IsCalendarDate y m d) : monthOfRecord env r = some ((y : Int), (m : Int) - 1) := by
  have g := getters_newDate3 y m d 0 hc.1 hc.2.1 (by have := hc.2.2.1; omega) hc.2.2.2
    (le_refl 0) (by decide)
  rw [add_zero] at g
  unfold monthOfRecord
  rw [hr]
  simp only [newDateOf, dateParse_usDate env y m d hy0 hy hc, Option.map_some', g.1, g.2.1]

theorem monthYearShort_eq_label (env : DateEnv) (r : Record) :
    monthYearShort (newDateOf env (r.get (js "Date"))) =
      monthYearLabel (monthOfRecord env r) := by
  unfold monthOfRecord
  cases newDateOf env (r.get (js "Date")) <;> rfl

/-- A label is not the name of a member of `Object.prototype`: it has a space. -/
theorem monthYearLabel_not_inherited (g : Option (Int × Int)) :
    monthYearLabel g ∉ objectPrototypeKeys := by
  intro hmem
  have hsp : (32 : Nat) ∈ monthYearLabel g := by
    have hj : js " " = [32] := by decide
    cases g with
    | none => decide
    | some p =>
      obtain ⟨y, m⟩ := p
      simp [monthYearLabel, hj]
  have hall : ∀ k ∈ objectPrototypeKeys, (32 : Nat) ∉ k := by decide
  exact hall _ hmem hsp

/-- The month index of a date that was read lies between 0 and 11. -/
theorem monthOfRecord_range (env : DateEnv) (r : Record) (y m : Int)
    (h : monthOfRecord env r = some (y, m)) : 0 ≤ m ∧ m ≤ 11 := by
  unfold monthOfRecord at h
  cases hd : newDateOf env (r.get (js "Date")) with
  | none => rw [hd] at h; cases h
  | some t =>
    rw [hd] at h
    simp only [Option.map_some', Option.some.injEq, Prod.mk.injEq] at h
    obtain ⟨h0, h1, -, -⟩ := time_in_month t
    rw [← h.2]
    exact ⟨h0, h1⟩

theorem monthYearLabel_shape (y m : Int) (h0 : 0 ≤ m) (h1 : m ≤ 11) :
    ∃ a b c, monthNamesShort.getD m.toNat [] = [a, b, c] ∧
      monthYearLabel (some (y, m)) = a :: b :: c :: 32 :: showInt y := by
  have hlen : (monthNamesShort.getD m.toNat []).length = 3 := by
    have := monthNamesShort_length (m.toNat + 1) (by omega) (by omega)
    simpa using this
  obtain ⟨a, b, c, e⟩ := List.length_eq_three.mp hlen
  have hj : js " " = [32] := by decide
  refine ⟨a, b, c, e, ?_⟩
  simp only [monthYearLabel]
  rw [e, hj]
  rfl

/-- Different months have different labels, and none has the label `Invalid Date`. -/
theorem monthYearLabel_injective (g g' : Option (Int × Int))
    (hg : ∀ y m, g = some (y, m) → 0 ≤ m ∧ m ≤ 11)
    (hg' : ∀ y m, g' = some (y, m) → 0 ≤ m ∧ m ≤ 11)
    (h : monthYearLabel g = monthYearLabel g') : g = g' := by
  have hinv : ∀ (y m : Int), 0 ≤ m → m ≤ 11 →
      monthYearLabel none ≠ monthYearLabel (some (y, m)) := by
    intro y m h0 h1 e
    obtain ⟨a, b, c, _, e2⟩ := monthYearLabel_shape y m h0 h1
    rw [e2] at e
    have e3 := congrArg (fun s => s[3]?) e
    have e4 : (monthYearLabel none)[3]? = some 97 := by decide
    simp [e4] at e3
  cases g with
  | none =>
    cases g' with
    | none => rfl
    | some p =>
      obtain ⟨y, m⟩ := p
      exact absurd h (hinv y m (hg' y m rfl).1 (hg' y m rfl).2)
  | some p =>
    obtain ⟨y, m⟩ := p
    obtain ⟨h0, h1⟩ := hg y m rfl
    cases g' with
    | none => exact absurd h.symm (hinv y m h0 h1)
    | some p' =>
      obtain ⟨y', m'⟩ := p'
      obtain ⟨h0', h1'⟩ := hg' y' m' rfl
      obtain ⟨a, b, c, n1, e1⟩ := monthYearLabel_shape y m h0 h1
      obtain ⟨a', b', c', n2, e2⟩ := monthYearLabel_shape y' m' h0' h1'
      rw [e1, e2] at h
      simp only [List.cons.injEq, true_and] at h
      obtain ⟨ha, hb, hc, hs⟩ := h
      have hy : y = y' := showInt_injective y y' hs
      have hn : monthNamesShort.getD m.toNat [] = monthNamesShort.getD m'.toNat [] := by
        rw [n1, n2, ha, hb, hc]
      have i1 := monthNamesShort_indexOf (m.toNat + 1) (by omega) (by omega)
      have i2 := monthNamesShort_indexOf (m'.toNat + 1) (by omega) (by omega)
      simp only [Nat.add_sub_cancel] at i1 i2
      rw [hn, i2] at i1
      have hm : m = m' := by omega
      rw [hy, hm]

/-! ## Sums of numbers -/

theorem roundToDouble_isNaN (q : ℚ) : (roundToDouble q).isNaN = false := by
  unfold roundToDouble
  dsimp only
  split_ifs <;> rfl

theorem JSNum.nan_add (x : JSNum) : JSNum.nan.add x = .nan := by
  cases x <;> rfl

/-- Adding a finite number to a number gives a number. -/
theorem JSNum.add_fin_isNaN (s : JSNum) (a : ℚ) (h : s.isNaN = false) :
    (s.add (.fin a)).isNaN = false := by
  cases s with
  | nan => cases h
  | inf b => rfl
  | fin p => exact roundToDouble_isNaN (p + a)

theorem jsSum_append (l : List JSNum) (x : JSNum) : jsSum (l ++ [x]) = (jsSum l).add x := by
  simp [jsSum, List.foldl_append]

theorem runningTotal_append (l : List JSNum) (x : JSNum) :
    runningTotal (l ++ [x]) =
      (if (runningTotal l).falsy then JSNum.fin 0 else runningTotal l).add x := by
  simp [runningTotal, List.foldl_append]

/-- A sum of finite numbers is a number: finite or, after an overflow, an infinity. -/
theorem jsSum_isNaN_of_fin (l : List JSNum) (h : ∀ x ∈ l, ∃ a, x = JSNum.fin a) :
    (jsSum l).isNaN = false := by
  induction l using List.reverseRecOn with
  | nil => rfl
  | append_singleton l x ih =>
    obtain ⟨a, rfl⟩ := h x (by simp)
    rw [jsSum_append]
    exact JSNum.add_fin_isNaN _ a (ih (fun z hz => h z (by simp [hz])))

/-- As long as the sum is a number, `(total || 0) + x` keeps the sum. -/
theorem runningTotal_eq_jsSum (l : List JSNum) (h : (jsSum l).isNaN = false) :
    runningTotal l = jsSum l := by
  induction l using List.reverseRecOn with
  | nil => rfl
  | append_singleton l x ih =>
    rw [jsSum_append] at h
    have hs : (jsSum l).isNaN = false := by
      cases hj : jsSum l with
      | nan => rw [hj, JSNum.nan_add] at h; cases h
      | inf b => rfl
      | fin p => rfl
    rw [runningTotal_append, jsSum_append, ih hs]
    cases hj : jsSum l with
    | nan => rw [hj] at hs; cases hs
    | inf b => rfl
    | fin p =>
      by_cases hp : p = 0
      · subst hp
        simp [JSNum.falsy]
      · simp [JSNum.falsy, hp]

/-! ## The accumulator object of a `reduce`: numbers under keys that are not inherited -/

/-- The statement `acc[key] = (acc[key] || 0) + x` on a key that is not inherited and that is
either new or holds the running total of the numbers `l`. -/
theorem Acc.addTo_eq_set (acc : Acc) (key : JSString) (x : JSNum) (l : List JSNum)
    (hk : key ∉ objectPrototypeKeys)
    (h : (acc.get key = none ∧ l = []) ∨ acc.get key = some (.num (runningTotal l))) :
    acc.addTo key x = acc.set key (.num (runningTotal (l ++ [x]))) := by
  unfold Acc.addTo
  rcases h with ⟨h, rfl⟩ | h
  · simp only [h, if_neg hk]
    simp [runningTotal, JSNum.falsy]
  · simp only [h, runningTotal_append]

theorem valuesAt_append (items : List (JSString × JSNum)) (key : JSString) (x : JSNum)
    (k : JSString) :
    valuesAt (items ++ [(key, x)]) k = valuesAt items k ++ if key = k then [x] else [] := by
  unfold valuesAt
  by_cases h : key = k
  · simp [List.filter_append, h]
  · simp [List.filter_append, h]

theorem valuesAt_of_not_mem (items : List (JSString × JSNum)) (k : JSString)
    (h : k ∉ items.map Prod.fst) : valuesAt items k = [] := by
  unfold valuesAt
  have : items.filter (fun kv => decide (kv.1 = k)) = [] := by
    rw [List.filter_eq_nil_iff]
    intro kv hkv e
    exact h (List.mem_map.mpr ⟨kv, hkv, by simpa using e⟩)
  rw [this]
  rfl

/-- Adding keyed numbers to the empty object one after the other, none of the keys a name
inherited from `Object.prototype`: the object has each key once, its keys are the keys
added, and each key holds the running total of the numbers added under it. -/
theorem foldl_addTo (items : List (JSString × JSNum))
    (h : ∀ kv ∈ items, kv.1 ∉ objectPrototypeKeys) :
    ((items.foldl (fun (acc : Acc) kv => acc.addTo kv.1 kv.2) []).map Prod.fst).Nodup ∧
    (∀ k, k ∈ (items.foldl (fun (acc : Acc) kv => acc.addTo kv.1 kv.2) []).map Prod.fst ↔
      k ∈ items.map Prod.fst) ∧
    (∀ k, k ∈ items.map Prod.fst →
      (items.foldl (fun (acc : Acc) kv => acc.addTo kv.1 kv.2) []).get k =
        some (.num (runningTotal (valuesAt items k)))) := by
  induction items using List.reverseRecOn with
  | nil => simp
  | append_singleton items kv ih =>
    obtain ⟨key, x⟩ := kv
    have hkey : key ∉ objectPrototypeKeys := h (key, x) (by simp)
    have hp := not_proto_of_not_inherited key hkey
    obtain ⟨ih1, ih2, ih3⟩ := ih (fun kv hkv => h kv (by simp [hkv]))
    rw [List.foldl_append, List.foldl_cons, List.foldl_nil]
    generalize hacc : items.foldl (fun (acc : Acc) kv => acc.addTo kv.1 kv.2) [] = acc
      at ih1 ih2 ih3 ⊢
    dsimp only
    have hother : ∀ k, k ∈ (items ++ [(key, x)]).map Prod.fst → k ≠ key →
        k ∈ items.map Prod.fst := by
      intro k hk hkk
      simp only [List.map_append, List.mem_append, List.map_cons, List.map_nil,
        List.mem_singleton] at hk
      rcases hk with h1 | h1
      · exact h1
      · exact absurd h1 hkk
    by_cases hm : key ∈ items.map Prod.fst
    · have hget := ih3 key hm
      have hin : key ∈ acc.map Prod.fst := (ih2 key).mpr hm
      rw [Acc.addTo_eq_set acc key x (valuesAt items key) hkey (Or.inr hget),
        Acc.keys_set acc key _ hp, if_pos hin]
      refine ⟨ih1, ?_, ?_⟩
      · intro k
        rw [ih2 k]
        simp only [List.map_append, List.mem_append, List.map_cons, List.map_nil,
          List.mem_singleton]
        constructor
        · exact Or.inl
        · rintro (h1 | h1)
          · exact h1
          · rw [h1]; exact hm
      · intro k hk
        rw [valuesAt_append]
        by_cases hkk : k = key
        · subst hkk
          rw [Acc.get_after_set_self acc k _ hp, if_pos rfl]
        · rw [Acc.get_after_set_other acc k key _ hkk, if_neg (fun e => hkk e.symm),
            List.append_nil]
          exact ih3 k (hother k hk hkk)
    · have hnin : key ∉ acc.map Prod.fst := fun e => hm ((ih2 key).mp e)
      have hget : acc.get key = none := (Acc.get_eq_none_iff acc key).mpr hnin
      rw [Acc.addTo_eq_set acc key x [] hkey (Or.inl ⟨hget, rfl⟩),
        Acc.keys_set acc key _ hp, if_neg hnin]
      refine ⟨?_, ?_, ?_⟩
      · rw [List.nodup_append]
        refine ⟨ih1, List.nodup_singleton key, ?_⟩
        intro a ha hb
        rw [List.mem_singleton] at hb
        exact hnin (hb ▸ ha)
      · intro k
        simp only [List.map_append, List.mem_append, List.map_cons, List.map_nil,
          List.mem_singleton, ih2 k]
      · intro k hk
        rw [valuesAt_append]
        by_cases hkk : k = key
        · subst hkk
          rw [Acc.get_after_set_self acc k _ hp, if_pos rfl, valuesAt_of_not_mem items k hm]
        · rw [Acc.get_after_set_other acc k key _ hkk, if_neg (fun e => hkk e.symm),
            List.append_nil]
          exact ih3 k (hother k hk hkk)

/-! ## Monthly totals and the month filter: the claims -/

/-- The monthly object is built by adding each amount under the label of the month in which
the date of the transaction is read. -/
theorem calculateMonthlySpending_eq (env : DateEnv) (txs : List Record) :
    calculateMonthlySpending env txs =
      (txs.map (fun r => (monthYearLabel (monthOfRecord env r),
        parseFloatOf (r.get (js "Amount"))))).foldl
        (fun (acc : Acc) kv => acc.addTo kv.1 kv.2) [] := by
  unfold calculateMonthlySpending
  rw [List.foldl_map]
  congr 1
  funext acc r
  dsimp only
  rw [monthYearShort_eq_label]

/-- The numbers added under the label of a month are the amounts of the transactions of
that month. -/
theorem valuesAt_monthYearLabel (env : DateEnv) (txs : List Record) (g : Option (Int × Int))
    (hg : ∀ y m, g = some (y, m) → 0 ≤ m ∧ m ≤ 11) :
    valuesAt (txs.map (fun r => (monthYearLabel (monthOfRecord env r),
      parseFloatOf (r.get (js "Amount"))))) (monthYearLabel g) = amountsOfMonth env txs g := by
  unfold valuesAt amountsOfMonth
  rw [List.filter_map, List.map_map]
  have hf : txs.filter ((fun (kv : JSString × JSNum) => decide (kv.1 = monthYearLabel g)) ∘
      (fun r => (monthYearLabel (monthOfRecord env r), parseFloatOf (r.get (js "Amount"))))) =
      txs.filter (fun r => decide (monthOfRecord env r = g)) := by
    apply List.filter_congr
    intro r _
    simp only [Function.comp, decide_eq_decide]
    constructor
    · intro e
      exact monthYearLabel_injective _ _ (monthOfRecord_range env r) hg e
    · intro e
      rw [e]
  rw [hf]
  rfl

/-- C14: `calculateMonthlySpending` groups the transactions by the month in which the engine
reads their `Date`. For every list of transactions whose dates are read in the common era,
as the dates `MM/DD/YYYY` are: the returned object has each key once; its keys are exactly
the labels `Mon YYYY` of the months that occur in the list (`Invalid Date` for the dates that
are not read); different months have different labels; the value under the label of a month
is the sum of the amounts of the transactions of that month, added as doubles in the order of
the list, whenever that sum is a number; and it is a number when every amount is finite. A
calendar date `MM/DD/YYYY` of the years 100 to 9999 is read in its own month. The
transactions `01/15/2024, 100` and `02/01/2024, 50` give `Jan 2024: 100` and `Feb 2024: 50`.
In a browser that reads `02/31/2024` as 2 March, the transactions `02/31/2024, 0.1`,
`03/05/2024, 0.2`, `04/01/2024, 1e400` and `13/01/2024, 5` give
`Mar 2024: 0.30000000000000004`, `Apr 2024: Infinity` and `Invalid Date: 5`. -/
theorem calculateMonthlySpending_groups (env : DateEnv) (txs : List Record)
    (hera : ∀ r ∈ txs, ∀ y m, monthOfRecord env r = some (y, m) → 1 ≤ y) :
    ((calculateMonthlySpending env txs).map Prod.fst).Nodup ∧
    (∀ k, k ∈ (calculateMonthlySpending env txs).map Prod.fst ↔
      ∃ r ∈ txs, k = monthYearLabel (monthOfRecord env r)) ∧
    (∀ r ∈ txs, ∀ r' ∈ txs,
      monthYearLabel (monthOfRecord env r) = monthYearLabel (monthOfRecord env r') →
        monthOfRecord env r = monthOfRecord env r') ∧
    (∀ r ∈ txs, ∀ y m, monthOfRecord env r = some (y, m) →
      monthYearLabel (monthOfRecord env r) =
        monthNamesShort.getD m.toNat [] ++ js " " ++ showNat y.toNat) ∧
    (∀ r ∈ txs, (jsSum (amountsOfMonth env txs (monthOfRecord env r))).isNaN = false →
      (calculateMonthlySpending env txs).get (monthYearLabel (monthOfRecord env r)) =
        some (.num (jsSum (amountsOfMonth env txs (monthOfRecord env r))))) ∧
    ((∀ r ∈ txs, ∃ a, parseFloatOf (r.get (js "Amount")) = .fin a) →
      ∀ r ∈ txs,
        (calculateMonthlySpending env txs).get (monthYearLabel (monthOfRecord env r)) =
          some (.num (jsSum (amountsOfMonth env txs (monthOfRecord env r))))) ∧
    (∀ (r : Record) (y m d : Nat), r.get (js "Date") = some (usDate y m d) → 100 ≤ y →
      y ≤ 9999 → IsCalendarDate y m d →
        monthOfRecord env r = some ((y : Int), (m : Int) - 1)) ∧
    calculateMonthlySpending exampleEnv
      [exampleTransaction "01/15/2024" "Shop" "Food" "100",
       exampleTransaction "02/01/2024" "Cafe" "Food" "50"] =
      [(js "Jan 2024", .num (.fin 100)), (js "Feb 2024", .num (.fin 50))] ∧
    calculateMonthlySpending exampleCarryEnv
      [exampleTransaction "02/31/2024" "Shop" "Food" "0.1",
       exampleTransaction "03/05/2024" "Cafe" "Food" "0.2",
       exampleTransaction "04/01/2024" "Shop" "Food" "1e400",
       exampleTransaction "13/01/2024" "Shop" "Food" "5"] =
      [(js "Mar 2024", .num (.fin (5404319552844596 / 2 ^ 54))),
       (js "Apr 2024", .num (.inf false)), (js "Invalid Date", .num (.fin 5))] := by
  have hitems : ∀ kv ∈ txs.map (fun r => (monthYearLabel (monthOfRecord env r),
      parseFloatOf (r.get (js "Amount")))), kv.1 ∉ objectPrototypeKeys := by
    intro kv hkv
    obtain ⟨r, _, rfl⟩ := List.mem_map.mp hkv
    exact monthYearLabel_not_inherited _
  obtain ⟨f1, f2, f3⟩ := foldl_addTo _ hitems
  rw [← calculateMonthlySpending_eq env txs] at f1 f2 f3
  have hkeys : ∀ k, k ∈ (txs.map (fun r => (monthYearLabel (monthOfRecord env r),
      parseFloatOf (r.get (js "Amount"))))).map Prod.fst ↔
      ∃ r ∈ txs, k = monthYearLabel (monthOfRecord env r) := by
    intro k
    simp only [List.map_map, List.mem_map, Function.comp]
    constructor
    · rintro ⟨r, hr, e⟩
      exact ⟨r, hr, e.symm⟩
    · rintro ⟨r, hr, e⟩
      exact ⟨r, hr, e.symm⟩
  have hvalue : ∀ r ∈ txs,
      (jsSum (amountsOfMonth env txs (monthOfRecord env r))).isNaN = false →
      (calculateMonthlySpending env txs).get (monthYearLabel (monthOfRecord env r)) =
        some (.num (jsSum (amountsOfMonth env txs (monthOfRecord env r)))) := by
    intro r hr hsum
    rw [f3 _ ((hkeys _).mpr ⟨r, hr, rfl⟩),
      valuesAt_monthYearLabel env txs _ (monthOfRecord_range env r),
      runningTotal_eq_jsSum _ hsum]
  refine ⟨f1, fun k => (f2 k).trans (hkeys k), ?_, ?_, hvalue, ?_, ?_, by decide!, by decide!⟩
  · intro r _ r' _ e
    exact monthYearLabel_injective _ _ (monthOfRecord_range env r) (monthOfRecord_range env r') e
  · intro r hr y m h
    have hy : ¬ y < 0 := by
      have := hera r hr y m h
      omega
    rw [h]
    simp only [monthYearLabel, showInt, if_neg hy]
  · intro hfin r hr
    apply hvalue r hr
    apply jsSum_isNaN_of_fin
    intro x hx
    unfold amountsOfMonth at hx
    obtain ⟨r', hr', rfl⟩ := List.mem_map.mp hx
    exact hfin r' (List.mem_filter.mp hr').1
  · intro r y m d hr hy0 hy hc
    exact monthOfRecord_usDate env r y m d hr hy0 hy hc

/-- C14 at the transactions `01/15/2024, 100`, `01/20/2024, 0.1`, `01/21/2024, 0.2` and
`02/01/2024, 50`: the value under the label of January 2024 is the sum of the three amounts
of January. -/
theorem calculateMonthlySpending_groups_witness :
    (∀ r ∈ exampleTransactions, ∀ y m, monthOfRecord exampleEnv r = some (y, m) → 1 ≤ y) ∧
    (calculateMonthlySpending exampleEnv exampleTransactions).get
      (monthYearLabel (monthOfRecord exampleEnv
        (exampleTransaction "01/15/2024" "Shop" "Food" "100"))) =
      some (.num (jsSum (amountsOfMonth exampleEnv exampleTransactions
        (monthOfRecord exampleEnv (exampleTransaction "01/15/2024" "Shop" "Food" "100"))))) :=
  have hmonths : exampleTransactions.map (monthOfRecord exampleEnv) =
      [some (2024, 0), some (2024, 0), some (2024, 0), some (2024, 1)] := by decide!
  have hera : ∀ r ∈ exampleTransactions, ∀ y m,
      monthOfRecord exampleEnv r = some (y, m) → 1 ≤ y := by
    intro r hr y m h
    have hmem : monthOfRecord exampleEnv r ∈
        exampleTransactions.map (monthOfRecord exampleEnv) := List.mem_map_of_mem _ hr
    rw [hmonths, h] at hmem
    simp only [List.mem_cons, Option.some.injEq, Prod.mk.injEq, List.mem_singleton,
      List.not_mem_nil, or_false] at hmem
    omega
  ⟨hera, (calculateMonthlySpending_groups exampleEnv exampleTransactions hera).2.2.2.2.1 _
    (by decide) (by decide!)⟩

/-- C16: `filterByMonth(txs, 'all')` is `txs`, for every list; and for every list and every
key made of the decimal year `y`, `-` and the two digits of the month `m`, which is the key
`YYYY-MM` for the years 1000 to 9999, `filterByMonth` returns exactly the transactions whose
date the engine reads in month `m` of year `y`, in the order of the list. A calendar date
`MM/DD/YYYY` of the years 100 to 9999 is read in its own month. The key `2024-02` keeps the
February entry of the example; in a browser that reads `02/31/2024` as 2 March the key
`2024-03` keeps the transaction dated `02/31/2024`, and no key keeps a transaction whose date
is not read. -/
theorem filterByMonth_spec (env : DateEnv) (txs : List Record) :
    filterByMonth env txs (js "all") = txs ∧
    (∀ (y : Int) (m : Nat),
      filterByMonth env txs (monthKeyOf y m) =
        txs.filter (fun r => decide (monthOfRecord env r = some (y, (m : Int) - 1)))) ∧
    (∀ (r : Record) (y m d : Nat), r.get (js "Date") = some (usDate y m d) → 100 ≤ y →
      y ≤ 9999 → IsCalendarDate y m d →
        monthOfRecord env r = some ((y : Int), (m : Int) - 1)) ∧
    monthKeyOf 2024 2 = js "2024-02" ∧
    filterByMonth exampleEnv
      [exampleTransaction "01/15/2024" "Shop" "Food" "100",
       exampleTransaction "02/01/2024" "Cafe" "Food" "50"] (js "2024-02") =
      [exampleTransaction "02/01/2024" "Cafe" "Food" "50"] ∧
    filterByMonth exampleCarryEnv
      [exampleTransaction "02/31/2024" "Shop" "Food" "0.1",
       exampleTransaction "03/05/2024" "Cafe" "Food" "Infinity",
       exampleTransaction "13/01/2024" "Shop" "Food" "5"] (js "2024-03") =
      [exampleTransaction "02/31/2024" "Shop" "Food" "0.1",
       exampleTransaction "03/05/2024" "Cafe" "Food" "Infinity"] := by
  refine ⟨by simp [filterByMonth], filterByMonth_monthKeyOf env txs, ?_, by decide, by decide!,
    by decide!⟩
  intro r y m d hr hy0 hy hc
  exact monthOfRecord_usDate env r y m d hr hy0 hy hc

/-! ## The list of months of the selector -/

theorem daysInMonth_pos (y : Int) (m : Nat) : 1 ≤ daysInMonth y m := by
  unfold daysInMonth
  split_ifs <;> omega

theorem monthAfterStart_eq (k : Nat) :
    monthAfterStart k =
      newDate3 (2024 + ((k / 12 : Nat) : Int)) (((k % 12 + 1 : Nat) : Int) - 1) 1 + 0 := by
  have h : ((k % 12 + 1 : Nat) : Int) - 1 = ((k % 12 : Nat) : Int) := by omega
  rw [h]
  simp [monthAfterStart, newDate, newDate3, msPerDay]

/-- The getters at the first instant of a month after January 2024. -/
theorem getters_monthAfterStart (k : Nat) :
    yearFromTime (monthAfterStart k) = 2024 + ((k / 12 : Nat) : Int) ∧
    monthFromTime (monthAfterStart k) = ((k % 12 : Nat) : Int) ∧
    dateFromTime (monthAfterStart k) = 1 := by
  have g := getters_newDate3 (2024 + ((k / 12 : Nat) : Int)) (k % 12 + 1) 1 0 (by omega)
    (by omega) (le_refl 1) (daysInMonth_pos _ _) (le_refl 0) (by decide)
  rw [← monthAfterStart_eq] at g
  have h : ((k % 12 + 1 : Nat) : Int) - 1 = ((k % 12 : Nat) : Int) := by omega
  rw [h] at g
  exact g

theorem newDate_carry (y m : Int) : newDate y m = newDate (y + m / 12) (m % 12) := by
  have h1 : m % 12 / 12 = 0 := by omega
  have h2 : m % 12 % 12 = m % 12 := by omega
  simp only [newDate, makeDay, h1, h2, add_zero]

theorem timeWithinDay_newDate (y m : Int) : timeWithinDay (newDate y m) = 0 := by
  simp [timeWithinDay, newDate, msPerDay]

/-- From the first instant of a month `setMonth(getMonth() + 1)` leads to the first instant of
the next month. -/
theorem setMonth_monthAfterStart (k : Nat) :
    setMonth (monthAfterStart k) (monthFromTime (monthAfterStart k) + 1) =
      monthAfterStart (k + 1) := by
  obtain ⟨gy, gm, gd⟩ := getters_monthAfterStart k
  have ht : timeWithinDay (monthAfterStart k) = 0 := timeWithinDay_newDate _ _
  rw [setMonth, gy, gm, gd, ht, add_zero]
  have e1 : newDate3 (2024 + ((k / 12 : Nat) : Int)) (((k % 12 : Nat) : Int) + 1) 1 =
      newDate (2024 + ((k / 12 : Nat) : Int)) (((k % 12 : Nat) : Int) + 1) := by
    simp [newDate, newDate3, msPerDay]
  rw [e1, newDate_carry, monthAfterStart]
  have e2 : 2024 + ((k / 12 : Nat) : Int) + (((k % 12 : Nat) : Int) + 1) / 12 =
      2024 + (((k + 1) / 12 : Nat) : Int) := by omega
  have e3 : (((k % 12 : Nat) : Int) + 1) % 12 = (((k + 1) % 12 : Nat) : Int) := by omega
  rw [e2, e3]

theorem monthAfterStart_mono (k k' : Nat) (h : k ≤ k') :
    monthAfterStart k ≤ monthAfterStart k' := by
  unfold monthAfterStart
  apply newDate_mono _ _ _ _ (by omega) (by omega) (by omega) (by omega)
  omega

/-- The entry that the loop of `generateMonthsList` pushes at the first instant of a month
after January 2024. -/
theorem monthOption_monthAfterStart (k : Nat) :
    MonthOption.mk
      (showInt (yearFromTime (monthAfterStart k)) ++ js "-" ++
        padStart2 (showInt (monthFromTime (monthAfterStart k) + 1)))
      (monthNamesLong.getD (monthFromTime (monthAfterStart k)).toNat [] ++ js " " ++
        showInt (yearFromTime (monthAfterStart k))) =
      monthOption (2024 + k / 12) (k % 12 + 1) := by
  obtain ⟨gy, gm, _⟩ := getters_monthAfterStart k
  have ey : (2024 : Int) + ((k / 12 : Nat) : Int) = ((2024 + k / 12 : Nat) : Int) := by
    push_cast
    rfl
  have em : ((k % 12 : Nat) : Int) + 1 = ((k % 12 + 1 : Nat) : Int) := by
    push_cast
    rfl
  have et : (((k % 12 : Nat) : Int)).toNat = k % 12 + 1 - 1 := by omega
  rw [gy, gm, ey, em, et, showInt_natCast, showInt_natCast,
    padStart2_month (k % 12 + 1) (by omega) (by omega)]
  rfl

/-- One test of the condition of the loop at the first instant of a month. -/
theorem generateMonthsLoop_step (fuel : Nat) (now : Int) (k : Nat) (months : List MonthOption) :
    generateMonthsLoop (fuel + 1) now (monthAfterStart k) months =
      if monthAfterStart k ≤ now then
        generateMonthsLoop fuel now (monthAfterStart (k + 1))
          (months ++ [monthOption (2024 + k / 12) (k % 12 + 1)])
      else some months := by
  rw [generateMonthsLoop]
  simp only [setMonth_monthAfterStart, monthOption_monthAfterStart]

/-- The loop started at month `k` with `n` months to go up to the month of `now`. -/
theorem generateMonthsLoop_run (now : Int) (K : Nat)
    (hle : ∀ k, k ≤ K → monthAfterStart k ≤ now) (hgt : now < monthAfterStart (K + 1)) :
    ∀ (n k fuel : Nat) (months : List MonthOption), k + n = K + 1 → n < fuel →
      generateMonthsLoop fuel now (monthAfterStart k) months =
        some (months ++
          (List.range' k n).map (fun j => monthOption (2024 + j / 12) (j % 12 + 1))) := by
  intro n
  induction n with
  | zero =>
    intro k fuel months hk hf
    obtain ⟨f, rfl⟩ : ∃ f, fuel = f + 1 := ⟨fuel - 1, by omega⟩
    have hk' : k = K + 1 := by omega
    subst hk'
    rw [generateMonthsLoop_step, if_neg (by omega)]
    simp
  | succ n ih =>
    intro k fuel months hk hf
    obtain ⟨f, rfl⟩ : ∃ f, fuel = f + 1 := ⟨fuel - 1, by omega⟩
    rw [generateMonthsLoop_step, if_pos (hle k (by omega)), ih (k + 1) f _ (by omega) (by omega)]
    simp [List.range'_succ]

/-- C17: at every instant of a calendar day `(Y, M, D)` from 2024 on the loop of
`generateMonthsList` ends (with `(Y - 2024) * 12 + M + 1` tests of its condition or more
allowed) and the list returned is `all / ALL MONTHS` followed by the
`(Y - 2024) * 12 + M` months from January 2024 to month `M` of year `Y`, each once and in
order, each with the value `YYYY-MM` and the label `Month YYYY`. -/
theorem generateMonthsList_spec (Y M D : Nat) (ms : Int) (fuel : Nat) (hY : 2024 ≤ Y)
    (hdate : IsCalendarDate Y M D) (h0 : 0 ≤ ms) (h1 : ms < msPerDay)
    (hfuel : (Y - 2024) * 12 + M < fuel) :
    generateMonthsList fuel (newDate3 Y ((M : Int) - 1) D + ms) =
      some ({ value := js "all", label := js "ALL MONTHS" } ::
        (List.range ((Y - 2024) * 12 + M)).map
          (fun j => monthOption (2024 + j / 12) (j % 12 + 1))) ∧
    monthOption 2024 1 = { value := js "2024-01", label := js "January 2024" } := by
  refine ⟨?_, by decide⟩
  obtain ⟨hM1, hM2, hD1, hD2⟩ := hdate
  obtain ⟨gy, gm, _⟩ := getters_newDate3 Y M D ms hM1 hM2 (by omega) hD2 h0 h1
  obtain ⟨_, _, hlo, hhi⟩ := time_in_month (newDate3 Y ((M : Int) - 1) D + ms)
  rw [gy, gm] at hlo hhi
  obtain ⟨K, hK⟩ : ∃ K, K = (Y - 2024) * 12 + (M - 1) := ⟨_, rfl⟩
  have hcurK : monthAfterStart K = newDate Y ((M : Int) - 1) := by
    unfold monthAfterStart
    have e1 : (2024 : Int) + ((K / 12 : Nat) : Int) = (Y : Int) := by omega
    have e2 : ((K % 12 : Nat) : Int) = (M : Int) - 1 := by omega
    rw [e1, e2]
  have hcurK1 : monthAfterStart (K + 1) = newDate Y ((M : Int) - 1 + 1) := by
    rw [newDate_carry (Y : Int) ((M : Int) - 1 + 1)]
    unfold monthAfterStart
    have e1 : (2024 : Int) + (((K + 1) / 12 : Nat) : Int) =
        (Y : Int) + ((M : Int) - 1 + 1) / 12 := by omega
    have e2 : (((K + 1) % 12 : Nat) : Int) = ((M : Int) - 1 + 1) % 12 := by omega
    rw [e1, e2]
  have hle : ∀ k, k ≤ K → monthAfterStart k ≤ newDate3 Y ((M : Int) - 1) D + ms := by
    intro k hk
    exact le_trans (monthAfterStart_mono k K hk) (hcurK ▸ hlo)
  have hgt : newDate3 Y ((M : Int) - 1) D + ms < monthAfterStart (K + 1) := by
    rw [hcurK1]
    exact hhi
  have hstart : newDate 2024 0 = monthAfterStart 0 := by
    simp [monthAfterStart]
  have hn : (Y - 2024) * 12 + M = K + 1 := by omega
  unfold generateMonthsList
  dsimp only
  rw [hstart, generateMonthsLoop_run _ K hle hgt (K + 1) 0 fuel _ (by omega) (by omega), hn,
    List.range_eq_range']
  rfl

/-- C17 on 15 March 2024 at one o'clock, with ten tests of the condition allowed. -/
theorem generateMonthsList_spec_witness :
    2024 ≤ 2024 ∧ IsCalendarDate 2024 3 15 ∧ (0 : Int) ≤ 3600000 ∧
    (3600000 : Int) < msPerDay ∧ (2024 - 2024) * 12 + 3 < 10 ∧
    generateMonthsList 10 (newDate3 (2024 : Nat) (((3 : Nat) : Int) - 1) (15 : Nat) + 3600000) =
      some ({ value := js "all", label := js "ALL MONTHS" } ::
        (List.range ((2024 - 2024) * 12 + 3)).map
          (fun j => monthOption (2024 + j / 12) (j % 12 + 1))) :=
  ⟨by decide, by unfold IsCalendarDate; decide, by decide, by decide, by decide,
    (generateMonthsList_spec 2024 3 15 3600000 10 (by decide) (by unfold IsCalendarDate; decide)
      (by decide) (by decide) (by decide)).1⟩

/-! ## The profile update -/

theorem nodup_set_of_same_or_new {α : Type} :
    ∀ (l : List α) (i : Nat) (a : α), l.Nodup → (l[i]? = some a ∨ a ∉ l) →
      (l.set i a).Nodup := by
  intro l
  induction l with
  | nil => intro i a _ _; simp
  | cons x t ih =>
    intro i a hn ha
    rw [List.nodup_cons] at hn
    cases i with
    | zero =>
      rw [List.set_cons_zero, List.nodup_cons]
      rcases ha with ha | ha
      · simp only [List.getElem?_cons_zero, Option.some.injEq] at ha
        subst ha
        exact hn
      · exact ⟨fun hm => ha (List.mem_cons_of_mem x hm), hn.2⟩
    | succ j =>
      rw [List.set_cons_succ, List.nodup_cons]
      have ha' : t[j]? = some a ∨ a ∉ t := by
        rcases ha with ha | ha
        · left
          simpa using ha
        · right
          exact fun hm => ha (List.mem_cons_of_mem x hm)
      refine ⟨?_, ih j a hn.2 ha'⟩
      intro hm
      rcases List.mem_or_eq_of_mem_set hm with h1 | h1
      · exact hn.1 h1
      · subst h1
        rcases ha with ha | ha
        · simp only [List.getElem?_cons_succ] at ha
          exact hn.1 (List.getElem?_mem ha)
        · exact ha (List.mem_cons_self _ _)

/-- The user returned by `getCurrentUser` is a stored user. -/
theorem getCurrentUser_mem (st : Storage) (cu : User) (h : getCurrentUser st = some cu) :
    cu ∈ getUsersList st := by
  unfold getCurrentUser at h
  split at h
  · exact absurd h (by simp)
  · exact absurd h (by simp)
  · rw [findUserByEmail_eq] at h
    exact List.mem_of_find?_eq_some h

/-- The index found by `findIndex` holds a user with the email looked for. -/
theorem findIdx?_email (users : List User) (email : JSString) (i : Nat)
    (h : users.findIdx? (fun user => user.email == email) = some i) :
    ∃ u, users[i]? = some u ∧ u.email = email := by
  rw [List.findIdx?_eq_some_iff_getElem] at h
  obtain ⟨hlt, hp, _⟩ := h
  exact ⟨users[i], List.getElem?_eq_getElem hlt, by simpa using hp⟩

theorem updateEmailStep_ok (st : Storage) (email : JSString) (cu u : User)
    (h : updateEmailStep st email cu = .ok u) :
    u.billingDate = cu.billingDate ∧
    (u.email = cu.email ∨ (u.email = email ∧ findUserByEmail st email = none)) ∧
    ¬ (email ≠ [] ∧ email ≠ u.email) := by
  unfold updateEmailStep at h
  by_cases hc : email ≠ [] ∧ email ≠ cu.email
  · rw [if_pos hc] at h
    by_cases hv : validateEmail email = true
    · simp only [hv, Bool.not_true, Bool.false_eq_true, if_false] at h
      cases hf : findUserByEmail st email with
      | some w => simp [hf] at h
      | none =>
        simp only [hf, Option.isSome_none, Bool.false_eq_true, if_false,
          Except.ok.injEq] at h
        subst h
        exact ⟨rfl, Or.inr ⟨rfl, rfl⟩, fun hh => hh.2 rfl⟩
    · simp [hv] at h
  · rw [if_neg hc] at h
    simp only [Except.ok.injEq] at h
    subst h
    exact ⟨rfl, Or.inl rfl, hc⟩

theorem updatePasswordStep_ok (password : JSString) (u1 u : User)
    (h : updatePasswordStep password u1 = .ok u) :
    u.billingDate = u1.billingDate ∧ u.email = u1.email := by
  unfold updatePasswordStep at h
  split_ifs at h <;> simp only [Except.ok.injEq, reduceCtorEq] at h <;> subst h <;>
    exact ⟨rfl, rfl⟩

theorem updateCardStep_ok (now : Int) (cardNumber cardExpiry : JSString) (u2 u : User)
    (h : updateCardStep now cardNumber cardExpiry u2 = .ok u) :
    u.billingDate = u2.billingDate ∧ u.email = u2.email := by
  unfold updateCardStep at h
  dsimp only at h
  split_ifs at h <;> simp only [Except.ok.injEq, reduceCtorEq] at h <;> subst h <;>
    exact ⟨rfl, rfl⟩

/-- What `validateBillingDay` accepts is read by `parseInt` as a number from 1 to 28. -/
theorem parseInt_of_validateBillingDay (billingDay : JSString)
    (h : validateBillingDay billingDay = true) :
    ∃ day, parseInt billingDay (some 10) = some day ∧ 1 ≤ day ∧ day ≤ 28 := by
  unfold validateBillingDay at h
  cases hp : parseInt billingDay (some 10) with
  | none => simp [hp] at h
  | some day =>
    simp only [hp, Bool.and_eq_true, decide_eq_true_eq] at h
    exact ⟨day, rfl, h.1, h.2⟩

theorem updateBillingDayStep_ok (billingDay : JSString) (u3 u : User)
    (h : updateBillingDayStep billingDay u3 = .ok u) :
    u.email = u3.email ∧
    (billingDay = [] → u.billingDate = u3.billingDate) ∧
    (billingDay ≠ [] → 1 ≤ u.billingDate ∧ u.billingDate ≤ 28 ∧
      parseInt billingDay (some 10) = some u.billingDate) := by
  unfold updateBillingDayStep at h
  by_cases hb : billingDay ≠ []
  · rw [if_pos hb] at h
    by_cases hv : validateBillingDay billingDay = true
    · obtain ⟨day, hd, h1, h2⟩ := parseInt_of_validateBillingDay billingDay hv
      simp only [hv, Bool.not_true, Bool.false_eq_true, if_false, hd, Option.getD_some,
        Except.ok.injEq] at h
      subst h
      exact ⟨rfl, fun e => absurd e hb, fun _ => ⟨h1, h2, hd⟩⟩
    · simp [hv] at h
  · rw [if_neg hb] at h
    simp only [Except.ok.injEq] at h
    subst h
    exact ⟨rfl, fun _ => rfl, fun e => absurd e hb⟩

theorem updateCardStatusStep_fields (cardStatus : JSString) (u : User) :
    (updateCardStatusStep cardStatus u).billingDate = u.billingDate ∧
    (updateCardStatusStep cardStatus u).email = u.email := by
  unfold updateCardStatusStep
  split_ifs <;> exact ⟨rfl, rfl⟩

/-- The outcomes of `handleUpdateProfile`: the store is left as it was, or the stored
current user is replaced, at its index, by a user whose email is the old one or an email
that no stored user has, and whose billing date is the old one when the billing-day field
is empty and otherwise the day read from the field, from 1 to 28; the key of the current
user is never written. -/
theorem handleUpdateProfile_cases (now : Int) (pg : ProfilePage) (form : ProfileForm) :
    (handleUpdateProfile now pg form).storage = pg.storage ∨
    ∃ cu i old u,
      cu ∈ getUsersList pg.storage ∧
      (getUsersList pg.storage)[i]? = some old ∧ old.email = cu.email ∧
      (u.email = cu.email ∨ (u.email = trim form.updateEmail ∧
        findUserByEmail pg.storage (trim form.updateEmail) = none)) ∧
      (trim form.billingDay = [] → u.billingDate = cu.billingDate) ∧
      (trim form.billingDay ≠ [] → 1 ≤ u.billingDate ∧ u.billingDate ≤ 28 ∧
        parseInt (trim form.billingDay) (some 10) = some u.billingDate) ∧
      (handleUpdateProfile now pg form).storage =
        { listOfUsers := some ((getUsersList pg.storage).set i u),
          current_user := pg.storage.current_user } := by
  unfold handleUpdateProfile
  dsimp only
  cases hcu : getCurrentUser pg.storage with
  | none => left; rfl
  | some cu =>
    dsimp only
    cases hidx : (getUsersList pg.storage).findIdx? (fun user => user.email == cu.email) with
    | none => left; rfl
    | some i =>
      dsimp only
      cases h1 : updateEmailStep pg.storage (trim form.updateEmail) cu with
      | error m => left; rfl
      | ok u1 =>
        dsimp only
        cases h2 : updatePasswordStep (trim form.updatePassword) u1 with
        | error m => left; rfl
        | ok u2 =>
          dsimp only
          cases h3 : updateCardStep now (removeAll isWhiteSpace form.updateCardNumber)
              (trim form.updateCardExpiry) u2 with
          | error m => left; rfl
          | ok u3 =>
            dsimp only
            cases h4 : updateBillingDayStep (trim form.billingDay) u3 with
            | error m => left; rfl
            | ok u4 =>
              dsimp only
              right
              obtain ⟨e1, e1', e1''⟩ := updateEmailStep_ok _ _ _ _ h1
              obtain ⟨p1, p2⟩ := updatePasswordStep_ok _ _ _ h2
              obtain ⟨c1, c2⟩ := updateCardStep_ok _ _ _ _ _ h3
              obtain ⟨b1, b2, b3⟩ := updateBillingDayStep_ok _ _ _ h4
              obtain ⟨s1, s2⟩ := updateCardStatusStep_fields form.cardStatusUpdate u4
              obtain ⟨old, hold, holde⟩ := findIdx?_email _ _ _ hidx
              have hemail : (updateCardStatusStep form.cardStatusUpdate u4).email = u1.email := by
                rw [s2, b1, c2, p2]
              have hbd : u3.billingDate = cu.billingDate := by rw [c1, p1, e1]
              refine ⟨cu, i, old, updateCardStatusStep form.cardStatusUpdate u4,
                getCurrentUser_mem _ _ hcu, hold, holde, ?_, ?_, ?_, ?_⟩
              · rw [hemail]
                exact e1'
              · intro hb
                rw [s1, b2 hb, hbd]
              · intro hb
                rw [s1]
                exact b3 hb
              · rw [hemail, if_neg e1'']

/-- The outcomes of `submitForm`: the store is left as it was, or a user with billing date 1
and an email that no stored user has is appended to the stored list. -/
theorem submitForm_cases (env : DateEnv) (now : Int) (pg : RegistrationPage)
    (form : RegistrationForm) :
    (submitForm env now pg form).storage = pg.storage ∨
    ∃ u, u.billingDate = 1 ∧ u.email = form.email ∧
      findUserByEmail pg.storage form.email = none ∧
      (submitForm env now pg form).storage = addUser pg.storage u := by
  unfold submitForm
  dsimp only
  split_ifs with h1 h2 h3 h4 h5 h6
  · left; rfl
  · left; rfl
  · left; rfl
  · left; rfl
  · left; rfl
  · left; rfl
  · right
    refine ⟨_, rfl, rfl, ?_, rfl⟩
    cases hf : findUserByEmail pg.storage form.email with
    | none => rfl
    | some w => simp [hf] at h6

theorem not_mem_emails_of_not_found (st : Storage) (email : JSString)
    (h : findUserByEmail st email = none) :
    email ∉ (getUsersList st).map (fun u => u.email) := by
  intro hm
  obtain ⟨u, hu, he⟩ := List.mem_map.mp hm
  have := (findUserByEmail_isSome_iff st email).mpr ⟨u, hu, he⟩
  rw [h] at this
  exact absurd this (by simp)

/-- C21: the emails of the stored users stay pairwise distinct. From a stored list with
pairwise distinct emails, every registration `submitForm` and every profile update
`handleUpdateProfile`, accepted or rejected, leaves a stored list with pairwise distinct
emails. -/
theorem emails_stay_distinct (env : DateEnv) (now : Int) (rpg : RegistrationPage)
    (rform : RegistrationForm) (ppg : ProfilePage) (pform : ProfileForm)
    (hr : EmailsDistinct rpg.storage) (hp : EmailsDistinct ppg.storage) :
    EmailsDistinct (submitForm env now rpg rform).storage ∧
    EmailsDistinct (handleUpdateProfile now ppg pform).storage := by
  constructor
  · rcases submitForm_cases env now rpg rform with h | ⟨u, _, hue, hnone, h⟩
    · rw [h]; exact hr
    · rw [h]
      unfold EmailsDistinct at hr ⊢
      rw [getUsersList_addUser, List.map_append, List.nodup_append]
      refine ⟨hr, List.nodup_singleton _, ?_⟩
      intro a ha hb
      simp only [List.map_cons, List.map_nil, List.mem_singleton] at hb
      rw [hb, hue] at ha
      exact not_mem_emails_of_not_found _ _ hnone ha
  · rcases handleUpdateProfile_cases now ppg pform with
      h | ⟨cu, i, old, u, _, hold, holde, hemail, _, _, h⟩
    · rw [h]; exact hp
    · rw [h]
      unfold EmailsDistinct at hp ⊢
      have hl : getUsersList (Storage.mk (some ((getUsersList ppg.storage).set i u))
          ppg.storage.current_user) = (getUsersList ppg.storage).set i u := rfl
      rw [hl, List.map_set]
      apply nodup_set_of_same_or_new _ _ _ hp
      rcases hemail with he | ⟨he, hnone⟩
      · left
        rw [List.getElem?_map, hold, Option.map_some', he, holde]
      · right
        rw [he]
        exact not_mem_emails_of_not_found _ _ hnone

/-- C21 at the store that holds `exampleUser`: a registration with that email and a profile
update to a new email. -/
theorem emails_stay_distinct_witness :
    EmailsDistinct exampleRegistrationPage.storage ∧
    EmailsDistinct exampleProfilePage.storage ∧
    EmailsDistinct (submitForm exampleEnv (newDate3 2024 2 15) exampleRegistrationPage
      (RegistrationForm.mk (js "dana@example.com") (js "Abcdefg1!") (js "1990-05-17")
        (js "1234 5678 9012 3456") (js "12/30"))).storage ∧
    EmailsDistinct (handleUpdateProfile (newDate3 2024 2 15) exampleProfilePage
      (ProfileForm.mk (js "noa@example.com") [] [] [] [] [])).storage :=
  ⟨by unfold EmailsDistinct; decide, by unfold EmailsDistinct; decide,
    emails_stay_distinct exampleEnv (newDate3 2024 2 15) exampleRegistrationPage
      (RegistrationForm.mk (js "dana@example.com") (js "Abcdefg1!") (js "1990-05-17")
        (js "1234 5678 9012 3456") (js "12/30")) exampleProfilePage
      (ProfileForm.mk (js "noa@example.com") [] [] [] [] [])
      (by unfold EmailsDistinct; decide) (by unfold EmailsDistinct; decide)⟩

/-- C22: billing dates stay in 1..28. A user stored by `submitForm` that was not stored
before has billing date 1; from a stored list whose billing dates are all in 1..28, every
registration and every profile update leaves such a list; and for every billing-day input
that is not blank a profile update either leaves the store as it was or stores, for the one
user it replaces, the billing date read from the input, an integer from 1 to 28. -/
theorem billing_dates_stay_in_range (env : DateEnv) (now : Int) (rpg : RegistrationPage)
    (rform : RegistrationForm) (ppg : ProfilePage) (pform : ProfileForm)
    (hr : BillingDatesInRange rpg.storage) (hp : BillingDatesInRange ppg.storage) :
    (∀ u ∈ getUsersList (submitForm env now rpg rform).storage,
      u ∈ getUsersList rpg.storage ∨ u.billingDate = 1) ∧
    BillingDatesInRange (submitForm env now rpg rform).storage ∧
    BillingDatesInRange (handleUpdateProfile now ppg pform).storage ∧
    (trim pform.billingDay ≠ [] →
      (handleUpdateProfile now ppg pform).storage = ppg.storage ∨
      ∃ i u, getUsersList (handleUpdateProfile now ppg pform).storage =
          (getUsersList ppg.storage).set i u ∧
        parseInt (trim pform.billingDay) (some 10) = some u.billingDate ∧
        1 ≤ u.billingDate ∧ u.billingDate ≤ 28) := by
  have hsub : ∀ u ∈ getUsersList (submitForm env now rpg rform).storage,
      u ∈ getUsersList rpg.storage ∨ u.billingDate = 1 := by
    intro u hu
    rcases submitForm_cases env now rpg rform with h | ⟨w, hw, _, _, h⟩
    · rw [h] at hu
      exact Or.inl hu
    · rw [h, getUsersList_addUser, List.mem_append, List.mem_singleton] at hu
      rcases hu with hu | hu
      · exact Or.inl hu
      · right
        rw [hu, hw]
  refine ⟨hsub, ?_, ?_, ?_⟩
  · intro u hu
    rcases hsub u hu with h | h
    · exact hr u h
    · rw [h]
      exact ⟨le_refl 1, by decide⟩
  · rcases handleUpdateProfile_cases now ppg pform with
      h | ⟨cu, i, old, u, hcu, _, _, _, hb0, hb1, h⟩
    · rw [h]; exact hp
    · rw [h]
      intro v hv
      have hl : getUsersList (Storage.mk (some ((getUsersList ppg.storage).set i u))
          ppg.storage.current_user) = (getUsersList ppg.storage).set i u := rfl
      rw [hl] at hv
      rcases List.mem_or_eq_of_mem_set hv with h1 | h1
      · exact hp v h1
      · subst h1
        by_cases hb : trim pform.billingDay = []
        · rw [hb0 hb]
          exact hp cu hcu
        · exact ⟨(hb1 hb).1, (hb1 hb).2.1⟩
  · intro hb
    rcases handleUpdateProfile_cases now ppg pform with
      h | ⟨cu, i, old, u, _, _, _, _, _, hb1, h⟩
    · exact Or.inl h
    · right
      refine ⟨i, u, ?_, (hb1 hb).2.2, (hb1 hb).1, (hb1 hb).2.1⟩
      rw [h]
      rfl

/-- C22 at the store that holds `exampleUser`, for the billing-day input `12`. -/
theorem billing_dates_stay_in_range_witness :
    BillingDatesInRange exampleRegistrationPage.storage ∧
    BillingDatesInRange exampleProfilePage.storage ∧
    BillingDatesInRange (handleUpdateProfile (newDate3 2024 2 15) exampleProfilePage
      (ProfileForm.mk [] [] [] [] [] (js "12"))).storage :=
  ⟨by unfold BillingDatesInRange; decide, by unfold BillingDatesInRange; decide,
    (billing_dates_stay_in_range exampleEnv (newDate3 2024 2 15) exampleRegistrationPage
      (RegistrationForm.mk (js "dana@example.com") (js "Abcdefg1!") (js "1990-05-17")
        (js "1234 5678 9012 3456") (js "12/30")) exampleProfilePage
      (ProfileForm.mk [] [] [] [] [] (js "12"))
      (by unfold BillingDatesInRange; decide) (by unfold BillingDatesInRange; decide)).2.2.1⟩

/-- C25: the key of the current user is never written by a profile update, whatever the
form (the test before `setCurrentUser` compares the new email with the email of the object
that has just been given that email). With `dana@example.com` logged in, the update to the
new, valid, unregistered email `noa@example.com` succeeds and stores the user under the new
email, the key still holds `dana@example.com`, and `getCurrentUser()` returns `null`. -/
theorem handleUpdateProfile_keeps_current_user_key :
    (∀ now pg form, (handleUpdateProfile now pg form).storage.current_user =
      pg.storage.current_user) ∧
    handleUpdateProfile (newDate3 2024 2 15) exampleProfilePage
      (ProfileForm.mk (js "noa@example.com") [] [] [] [] []) =
      { storage := { listOfUsers := some [{ exampleUser with email := js "noa@example.com" }],
                     current_user := some (js "dana@example.com") },
        alerts := [js "Profile updated successfully!"],
        location := some (js "dashboard.html") } ∧
    getCurrentUser (handleUpdateProfile (newDate3 2024 2 15) exampleProfilePage
      (ProfileForm.mk (js "noa@example.com") [] [] [] [] [])).storage = none := by
  refine ⟨?_, by decide, by decide⟩
  intro now pg form
  rcases handleUpdateProfile_cases now pg form with h | ⟨_, _, _, _, _, _, _, _, _, _, h⟩
  · rw [h]
  · rw [h]

/-! ## A successful import appends -/

theorem findIdx?_of_find? {α : Type} (p : α → Bool) :
    ∀ (l : List α) (a : α), l.find? p = some a →
      ∃ i, l.findIdx? p = some i ∧ l[i]? = some a := by
  intro l
  induction l with
  | nil => intro a h; simp at h
  | cons x t ih =>
    intro a h
    by_cases hx : p x = true
    · rw [List.find?_cons_of_pos _ hx] at h
      simp only [Option.some.injEq] at h
      subst h
      exact ⟨0, by simp [List.findIdx?_cons, hx], by simp⟩
    · rw [List.find?_cons_of_neg _ hx] at h
      obtain ⟨i, hi, hget⟩ := ih a h
      refine ⟨i + 1, ?_, by simpa using hget⟩
      simp [List.findIdx?_cons, hx, hi]

theorem find?_set_of_findIdx? {α : Type} (p : α → Bool) :
    ∀ (l : List α) (i : Nat) (a : α), l.findIdx? p = some i → p a = true →
      (l.set i a).find? p = some a := by
  intro l
  induction l with
  | nil => intro i a h; simp at h
  | cons x t ih =>
    intro i a h ha
    by_cases hx : p x = true
    · have hi : i = 0 := by
        simp only [List.findIdx?_cons, hx, if_true, Option.some.injEq] at h
        exact h.symm
      subst hi
      rw [List.set_cons_zero, List.find?_cons_of_pos _ ha]
    · simp only [List.findIdx?_cons, hx, Bool.false_eq_true, if_false, Nat.zero_add,
        List.findIdx?_succ, Option.map_eq_some'] at h
      obtain ⟨j, hj, rfl⟩ := h
      rw [List.set_cons_succ, List.find?_cons_of_neg _ hx]
      exact ih j a hj ha

/-- C23: a successful import is append-only. When the page holds the stored current user
`u` (as it does after loading and after every import), `saveUserTransactions(new)` returns
`true` and replaces, at the index `i` of `u` in the stored list, `u` by `u` with the
transactions `u.transactions ++ new`: every other position of the list and every other
field of the user are unchanged, the key of the current user is unchanged, and afterwards
the page again holds the stored current user. -/
theorem saveUserTransactions_appends (pg : ActionsPage) (u : User)
    (newTransactions : List Record) (hstored : getCurrentUser pg.storage = some u)
    (hpage : pg.currentUser = some u) :
    ∃ i, (getUsersList pg.storage)[i]? = some u ∧
      (saveUserTransactions pg newTransactions).2 = .ok true ∧
      getUsersList (saveUserTransactions pg newTransactions).1.storage =
        (getUsersList pg.storage).set i
          { u with transactions := u.transactions ++ newTransactions } ∧
      (∀ j, j ≠ i → (getUsersList (saveUserTransactions pg newTransactions).1.storage)[j]? =
        (getUsersList pg.storage)[j]?) ∧
      (getUsersList (saveUserTransactions pg newTransactions).1.storage)[i]? =
        some { email := u.email, password := u.password, birthdate := u.birthdate,
               creditCard := u.creditCard, billingDate := u.billingDate,
               transactions := u.transactions ++ newTransactions,
               cardStatus := u.cardStatus } ∧
      (saveUserTransactions pg newTransactions).1.storage.current_user =
        pg.storage.current_user ∧
      getCurrentUser (saveUserTransactions pg newTransactions).1.storage =
        some { u with transactions := u.transactions ++ newTransactions } ∧
      (saveUserTransactions pg newTransactions).1.currentUser =
        some { u with transactions := u.transactions ++ newTransactions } := by
  have hfind : ∃ email, pg.storage.current_user = some email ∧ email ≠ [] ∧
      (getUsersList pg.storage).find? (fun v => v.email == email) = some u := by
    unfold getCurrentUser at hstored
    cases hk : pg.storage.current_user with
    | none =>
      rw [hk] at hstored
      exact absurd hstored (by simp)
    | some email =>
      rw [hk] at hstored
      cases email with
      | nil => exact absurd hstored (by simp)
      | cons c r =>
        dsimp only at hstored
        rw [findUserByEmail_eq] at hstored
        exact ⟨c :: r, rfl, by simp, hstored⟩
  obtain ⟨email, hkey, hne, hf⟩ := hfind
  have hue : u.email = email := by simpa using List.find?_some hf
  obtain ⟨i, hidx, hget⟩ := findIdx?_of_find? _ _ _ hf
  have hlt : i < (getUsersList pg.storage).length := by
    rcases Nat.lt_or_ge i (getUsersList pg.storage).length with h | h
    · exact h
    · rw [List.getElem?_eq_none h] at hget
      exact absurd hget (by simp)
  have hres : saveUserTransactions pg newTransactions =
      (ActionsPage.mk
        (Storage.mk (some ((getUsersList pg.storage).set i
          { u with transactions := u.transactions ++ newTransactions }))
          pg.storage.current_user)
        (some { u with transactions := u.transactions ++ newTransactions }) pg.table pg.alerts,
        .ok true) := by
    unfold saveUserTransactions
    rw [hpage]
    dsimp only
    rw [hue, hidx]
  refine ⟨i, hget, ?_, ?_, ?_, ?_, ?_, ?_, ?_⟩
  · rw [hres]
  · rw [hres]; rfl
  · intro j hj
    rw [hres]
    exact List.getElem?_set_ne (Ne.symm hj)
  · rw [hres]
    exact List.getElem?_set_self hlt
  · rw [hres]
  · rw [hres]
    unfold getCurrentUser
    dsimp only
    rw [hkey]
    cases email with
    | nil => exact absurd rfl hne
    | cons c r =>
      dsimp only
      rw [findUserByEmail_eq]
      exact find?_set_of_findIdx? _ _ _ _ hidx (by simpa using hue)
  · rw [hres]

/-- C23 on the example page, for one new transaction. -/
theorem saveUserTransactions_appends_witness :
    getCurrentUser examplePage.storage = some exampleUser ∧
    examplePage.currentUser = some exampleUser ∧
    (saveUserTransactions examplePage
      [exampleTransaction "01/15/2024" "Shop" "Food" "100"]).2 = .ok true := by
  obtain ⟨_, _, h, _⟩ := saveUserTransactions_appends examplePage exampleUser
    [exampleTransaction "01/15/2024" "Shop" "Food" "100"] (by decide) (by decide)
  exact ⟨by decide, by decide, h⟩

/-! ## The last four digits of a card -/

/-- When the number of a card passes `validateNumber` and its last four code units are
digits, `getLastFourDigits()` returns the last four of the 16 digits. -/
theorem getLastFourDigits_of_digit_tail (card : CreditCard)
    (hvalid : validateNumber card.number = true)
    (htail : ∀ c ∈ card.number.drop (card.number.length - 4), isDigit c = true) :
    card.getLastFourDigits = (digitsOf card.number).drop 12 := by
  unfold CreditCard.getLastFourDigits
  have hfilter : ∀ s : JSString, removeAll isNonDigit s = digitsOf s := by
    intro s
    unfold removeAll digitsOf
    apply List.filter_congr
    intro c _
    simp [isNonDigit]
  have h16 : (digitsOf card.number).length = 16 := by
    have := hvalid
    unfold validateNumber at this
    simpa [hfilter] using this
  have hlen : 16 ≤ card.number.length := by
    rw [← h16]
    exact List.length_filter_le _ _
  generalize card.number = n at *
  have hsplit : n = n.take (n.length - 4) ++ n.drop (n.length - 4) :=
    (List.take_append_drop _ _).symm
  have hd : digitsOf n = digitsOf (n.take (n.length - 4)) ++ n.drop (n.length - 4) := by
    conv_lhs => rw [hsplit]
    unfold digitsOf
    rw [List.filter_append, List.filter_eq_self.mpr htail]
  have hl4 : (n.drop (n.length - 4)).length = 4 := by
    rw [List.length_drop]
    omega
  have hl12 : (digitsOf (n.take (n.length - 4))).length = 12 := by
    have := congrArg List.length hd
    rw [List.length_append, h16, hl4] at this
    omega
  rw [hd, List.drop_append_of_le_length (by omega), ← hl12, List.drop_length, List.nil_append]

/-- The number `1234-5678-9012-3456` ends in four digits, and they are returned. -/
theorem getLastFourDigits_of_digit_tail_witness :
    validateNumber (CreditCard.mk (js "1234-5678-9012-3456") (js "12/30")).number = true ∧
    (∀ c ∈ (CreditCard.mk (js "1234-5678-9012-3456") (js "12/30")).number.drop
      ((CreditCard.mk (js "1234-5678-9012-3456") (js "12/30")).number.length - 4),
      isDigit c = true) ∧
    (CreditCard.mk (js "1234-5678-9012-3456") (js "12/30")).getLastFourDigits =
      (digitsOf (CreditCard.mk (js "1234-5678-9012-3456") (js "12/30")).number).drop 12 :=
  ⟨by decide, by decide,
    getLastFourDigits_of_digit_tail (CreditCard.mk (js "1234-5678-9012-3456") (js "12/30"))
      (by decide) (by decide)⟩

/-- C24: `getLastFourDigits()` does not return the last four digits of every number that
passes `validateNumber`: it takes the last four code units of the stored number without
removing the separators first, as `validateNumber` and `formatCardNumber` do. The number
`1234 5678 9012 345 6` passes `validateNumber`, its 16 digits end in `3456`, and
`getLastFourDigits()` returns `45 6`; for `1234 5678 9012 3456` it returns `3456`. -/
theorem getLastFourDigits_last_code_units :
    validateNumber (js "1234 5678 9012 345 6") = true ∧
    (digitsOf (js "1234 5678 9012 345 6")).drop 12 = js "3456" ∧
    (CreditCard.mk (js "1234 5678 9012 345 6") (js "12/30")).getLastFourDigits = js "45 6" ∧
    (CreditCard.mk (js "1234 5678 9012 3456") (js "12/30")).getLastFourDigits = js "3456" := by
  decide

/-! ## Formatting a card number -/

theorem removeAll_isNonDigit (s : JSString) : removeAll isNonDigit s = digitsOf s := by
  unfold removeAll digitsOf
  apply List.filter_congr
  intro c _
  simp [isNonDigit]

theorem isLineTerminator_of_isDigit (c : Nat) (h : isDigit c = true) :
    isLineTerminator c = false := by
  simp only [isDigit, Bool.and_eq_true, decide_eq_true_eq] at h
  simp only [isLineTerminator, Bool.or_eq_false_iff, beq_eq_false_iff_ne, ne_eq]
  omega

theorem blocksOfFour_cons_ne_nil (c : Nat) (s : JSString) : blocksOfFour (c :: s) ≠ [] := by
  match s with
  | [] => simp [blocksOfFour]
  | [_] => simp [blocksOfFour]
  | [_, _] => simp [blocksOfFour]
  | [_, _, _] => simp [blocksOfFour]
  | _ :: _ :: _ :: _ :: _ => simp [blocksOfFour]

theorem join_cons_of_ne_nil (sep w : JSString) (ws : List JSString) (h : ws ≠ []) :
    join sep (w :: ws) = w ++ sep ++ join sep ws := by
  cases ws with
  | nil => exact absurd rfl h
  | cons v vs => rfl

/-- The scan adds spaces only. -/
theorem insertSpaces_filter (p : Nat → Bool) (hp : p 0x20 = false) :
    ∀ (s : JSString) (k : Nat), (insertSpaces k s).filter p = s.filter p := by
  intro s
  induction s with
  | nil => intro k; cases k <;> simp [insertSpaces]
  | cons c rest ih =>
    intro k
    match k with
    | 0 =>
      rw [insertSpaces]
      split_ifs
      · rw [List.filter_cons, List.filter_cons, ih 3]
      · rw [List.filter_cons, List.filter_cons, ih 0]
    | 1 =>
      rw [insertSpaces, List.filter_cons, List.filter_cons, List.filter_cons, hp, ih 0]
      simp
    | k + 2 =>
      rw [insertSpaces, List.filter_cons, List.filter_cons, ih (k + 1)]

/-- On a string without line terminators the scan writes the blocks of four code units with
one space between them, and ends with the last code unit of the string. -/
theorem insertSpaces_eq_join :
    ∀ (n : Nat) (s : JSString), s.length ≤ n → (∀ c ∈ s, isLineTerminator c = false) →
      insertSpaces 0 s = join (js " ") (blocksOfFour s) ∧
      (insertSpaces 0 s).getLast? = s.getLast? := by
  have hsp : js " " = [0x20] := by decide
  intro n
  induction n with
  | zero =>
    intro s hs _
    have : s = [] := List.eq_nil_of_length_eq_zero (by omega)
    subst this
    exact ⟨rfl, rfl⟩
  | succ n ih =>
    intro s hs hl
    match s, hs, hl with
    | [], _, _ => exact ⟨rfl, rfl⟩
    | [a], _, _ => exact ⟨by simp [insertSpaces, matchesFourAhead, blocksOfFour, join], rfl⟩
    | [a, b], _, _ =>
      exact ⟨by simp [insertSpaces, matchesFourAhead, blocksOfFour, join],
        by simp [insertSpaces, matchesFourAhead]⟩
    | [a, b, c], _, _ =>
      exact ⟨by simp [insertSpaces, matchesFourAhead, blocksOfFour, join],
        by simp [insertSpaces, matchesFourAhead]⟩
    | [a, b, c, d], _, _ =>
      exact ⟨by simp [insertSpaces, matchesFourAhead, blocksOfFour, join],
        by simp [insertSpaces, matchesFourAhead]⟩
    | a :: b :: c :: d :: e :: rest, hs, hl =>
      have hm : matchesFourAhead (a :: b :: c :: d :: e :: rest) = true := by
        simp [matchesFourAhead, hl]
      obtain ⟨ih1, ih2⟩ := ih (e :: rest) (by simp only [List.length_cons] at hs ⊢; omega)
        (fun x hx => hl x (by simp only [List.mem_cons] at hx ⊢; tauto))
      have hstep : insertSpaces 0 (a :: b :: c :: d :: e :: rest) =
          a :: b :: c :: d :: 0x20 :: insertSpaces 0 (e :: rest) := by
        simp [insertSpaces, hm]
      have hne : insertSpaces 0 (e :: rest) ≠ [] := by
        rw [insertSpaces]
        split_ifs <;> simp
      constructor
      · rw [hstep, blocksOfFour, join_cons_of_ne_nil _ _ _ (blocksOfFour_cons_ne_nil e rest),
          ← ih1, hsp]
        rfl
      · rw [hstep]
        rw [List.getLast?_cons_cons, List.getLast?_cons_cons, List.getLast?_cons_cons,
          List.getLast?_cons_cons]
        obtain ⟨x, xs, hx⟩ := List.exists_cons_of_ne_nil hne
        rw [hx, List.getLast?_cons_cons, ← hx, ih2]
        simp [List.getLast?_cons_cons]

/-- The blocks of a string, put together, give the string back; each block has one to four
code units and each block but the last has four. -/
theorem blocksOfFour_spec :
    ∀ (n : Nat) (s : JSString), s.length ≤ n →
      (blocksOfFour s).flatten = s ∧
      (∀ b ∈ blocksOfFour s, 1 ≤ b.length ∧ b.length ≤ 4) ∧
      (∀ b ∈ (blocksOfFour s).dropLast, b.length = 4) := by
  intro n
  induction n with
  | zero =>
    intro s hs
    have : s = [] := List.eq_nil_of_length_eq_zero (by omega)
    subst this
    simp [blocksOfFour]
  | succ n ih =>
    intro s hs
    match s, hs with
    | [], _ => simp [blocksOfFour]
    | [a], _ => simp [blocksOfFour]
    | [a, b], _ => simp [blocksOfFour]
    | [a, b, c], _ => simp [blocksOfFour]
    | [a, b, c, d], _ => simp [blocksOfFour]
    | a :: b :: c :: d :: e :: rest, hs =>
      obtain ⟨h1, h2, h3⟩ := ih (e :: rest) (by simp only [List.length_cons] at hs ⊢; omega)
      obtain ⟨w, ws, hw⟩ := List.exists_cons_of_ne_nil (blocksOfFour_cons_ne_nil e rest)
      rw [blocksOfFour]
      refine ⟨?_, ?_, ?_⟩
      · rw [List.flatten_cons, h1]
        rfl
      · intro x hx
        rcases List.mem_cons.mp hx with h | h
        · subst h
          simp
        · exact h2 x h
      · intro x hx
        rw [hw, List.dropLast_cons₂] at hx
        rcases List.mem_cons.mp hx with h | h
        · subst h
          rfl
        · apply h3
          rw [hw]
          exact h

/-- C26: `formatCardNumber(s)` is defined for every string and returns the digits of `s`, in
order, cut into blocks of four (the last one possibly shorter) and joined by single spaces.
The blocks put together are the digits of `s`; the result neither starts nor ends with a
space; removing the spaces from it gives the digits of `s`; and formatting the result again
changes nothing. -/
theorem formatCardNumber_spec (s : JSString) :
    formatCardNumber s = join (js " ") (blocksOfFour (digitsOf s)) ∧
    (blocksOfFour (digitsOf s)).flatten = digitsOf s ∧
    (∀ b ∈ blocksOfFour (digitsOf s), 1 ≤ b.length ∧ b.length ≤ 4) ∧
    (∀ b ∈ (blocksOfFour (digitsOf s)).dropLast, b.length = 4) ∧
    (formatCardNumber s).head? ≠ some 0x20 ∧
    (formatCardNumber s).getLast? ≠ some 0x20 ∧
    removeAll (fun c => c == 0x20) (formatCardNumber s) = digitsOf s ∧
    formatCardNumber (formatCardNumber s) = formatCardNumber s ∧
    formatCardNumber (js "1234-5678 9012x3456") = js "1234 5678 9012 3456" ∧
    formatCardNumber (js "12345") = js "1234 5" := by
  have hdig : ∀ c ∈ digitsOf s, isDigit c = true := by
    intro c hc
    exact (List.mem_filter.mp hc).2
  have hlt : ∀ c ∈ digitsOf s, isLineTerminator c = false :=
    fun c hc => isLineTerminator_of_isDigit c (hdig c hc)
  have hfmt : formatCardNumber s = insertSpaces 0 (digitsOf s) := by
    unfold formatCardNumber
    rw [removeAll_isNonDigit]
  obtain ⟨hjoin, hlast⟩ := insertSpaces_eq_join _ (digitsOf s) (le_refl _) hlt
  obtain ⟨b1, b2, b3⟩ := blocksOfFour_spec _ (digitsOf s) (le_refl _)
  have hnsp : ∀ c ∈ digitsOf s, c ≠ 0x20 := by
    intro c hc e
    have := hdig c hc
    rw [e] at this
    exact absurd this (by decide)
  have hdd : digitsOf (insertSpaces 0 (digitsOf s)) = digitsOf s := by
    unfold digitsOf
    rw [insertSpaces_filter _ (by decide), List.filter_filter]
    simp
  refine ⟨hfmt.trans hjoin, b1, b2, b3, ?_, ?_, ?_, ?_, by decide, by decide⟩
  · rw [hfmt]
    intro h
    cases hd : digitsOf s with
    | nil => rw [hd] at h; simp [insertSpaces] at h
    | cons c rest =>
      rw [hd, insertSpaces] at h
      have hc : c ≠ 0x20 := hnsp c (by rw [hd]; exact List.mem_cons_self _ _)
      split_ifs at h <;> simp only [List.head?_cons, Option.some.injEq] at h <;> exact hc h
  · rw [hfmt, hlast]
    intro h
    exact hnsp _ (List.mem_of_getLast?_eq_some h) rfl
  · rw [hfmt, removeAll, insertSpaces_filter _ (by decide)]
    rw [List.filter_eq_self]
    intro c hc
    simpa using hnsp c hc
  · rw [hfmt]
    unfold formatCardNumber
    rw [removeAll_isNonDigit, hdd]

/-! ## The total of the values of an accumulator object -/

/-- C27: the total is not conserved when a category is a name inherited from
`Object.prototype`. For the transactions `01/15/2024 Food 50` and `01/16/2024 __proto__ 5`
the monthly values sum to 55, the sum of the amounts, while the category object has the one
key `Food` and the total of the category summary is 50; with the category `constructor`
the value is a string and the summary throws. -/
theorem category_total_loses_inherited_names :
    totalOfValues (calculateMonthlySpending exampleEnv
      [exampleTransaction "01/15/2024" "Cafe" "Food" "50",
       exampleTransaction "01/16/2024" "Shop" "__proto__" "5"]) = some (.fin 55) ∧
    calculateCategorySpending
      [exampleTransaction "01/15/2024" "Cafe" "Food" "50",
       exampleTransaction "01/16/2024" "Shop" "__proto__" "5"] =
      [(js "Food", .num (.fin 50))] ∧
    displayCategorySummary
      [exampleTransaction "01/15/2024" "Cafe" "Food" "50",
       exampleTransaction "01/16/2024" "Shop" "__proto__" "5"] = some (.fin 50) ∧
    displayCategorySummary
      [exampleTransaction "01/15/2024" "Cafe" "Food" "50",
       exampleTransaction "01/16/2024" "Shop" "constructor" "5"] = none := by
  decide!

end JSBilling
